import Mathlib

/-!
iim, a file-system IRC client: shallow embedding of `src/iim.c`.

A byte (`char`) is a natural number.  A C string is the list of its bytes before the
terminating NUL.  Memory buffers that are tokenised in place are byte lists
addressed by offsets; reading past the end of the list reads the zero padding
of the (zero-initialised) buffer.
-/

namespace Iim

/-- The bytes of an ASCII string literal. -/
def bytes (s : String) : List Nat := s.toList.map Char.toNat

/-! ## Constants (`#define`s of `iim.c`) -/

/-- `SERVER_NICK`, the string `-!-`. -/
def SERVER_NICK : List Nat := [45, 33, 45]
/-- `OUTFILE`, the string `out`. -/
def OUTFILE : List Nat := [111, 117, 116]
/-- `PING_TMOUT`, in seconds. -/
def PING_TMOUT : Nat := 300
/-- `BUF_NICK_LEN`, the size of `nick`. -/
def BUF_NICK_LEN : Nat := 32
/-- `BUF_CHAN_LEN`, the size of a channel name. -/
def BUF_CHAN_LEN : Nat := 50
/-- `BUF_MESG_LEN`, the size of `mesg`. -/
def BUF_MESG_LEN : Nat := 512

/-! ## Name normaliser -/

/-- `tolower` of `<ctype.h>` in the "C" locale (the program never calls
`setlocale`): `A`..`Z` go to `a`..`z`, every other byte is returned as is. -/
def tolower (c : Nat) : Nat := if 65 ≤ c ∧ c ≤ 90 then c + 32 else c

/-- The `for` loop of `to_irc_lower`.  The first argument is `src[i..len)`
with `len = strlen(src)`, the second is `dst_len - 1 - i`, the third is the C
string held by `dst` (zero-initialised by every caller; each iteration writes
`dst[i]` and then `dst[i+1] = 0`).  The result is the return value and the C
string left in `dst`. -/
def to_irc_lower_loop : List Nat → Nat → List Nat → Bool × List Nat
  | [], _, dst => (true, dst)
  | _ :: _, 0, dst => (true, dst)
  | c :: rest, room + 1, dst =>
    if c = 0 ∨ c = 7 ∨ c = 13 ∨ c = 10 ∨ c = 32 then (false, dst)
    else if c = 44 then (true, dst)
    else if c = 91 then to_irc_lower_loop rest room (dst ++ [123])
    else if c = 93 then to_irc_lower_loop rest room (dst ++ [125])
    else if c = 92 then to_irc_lower_loop rest room (dst ++ [124])
    else if c = 126 then to_irc_lower_loop rest room (dst ++ [94])
    else to_irc_lower_loop rest room (dst ++ [tolower c])

/-- `to_irc_lower(src, dst, dst_len)`: `src` is the C string passed in,
`dst_len` the size of the destination; `dst_len - 1` is computed in `size_t`
(64 bits). -/
def to_irc_lower (src : List Nat) (dst_len : Nat) : Bool × List Nat :=
  to_irc_lower_loop src ((dst_len + 2 ^ 64 - 1) % 2 ^ 64) []

/-- The per-byte case fold as the specification words it: `[` to `{`, `]` to
`}`, `\` to `|`, `~` to `^`, `A`..`Z` to `a`..`z`, every other byte unchanged. -/
def spec_fold (c : Nat) : Nat :=
  if c = 91 then 123
  else if c = 93 then 125
  else if c = 92 then 124
  else if c = 126 then 94
  else if 65 ≤ c ∧ c ≤ 90 then c + 32
  else c

/-- The bytes `to_irc_lower` rejects: NUL, BEL, CR, LF, SP. -/
def rejected (c : Nat) : Prop := c = 0 ∨ c = 7 ∨ c = 13 ∨ c = 10 ∨ c = 32

instance (c : Nat) : Decidable (rejected c) := by unfold rejected; infer_instance

/-! ## Outcomes -/

/-- How a call ends: it returns a value, it runs into undefined behaviour (a
NULL pointer is dereferenced or handed to a string function, or a buffer is
accessed out of bounds), or it terminates the process through `err`. -/
inductive Res (α : Type) where
  | ok (a : α)
  | ub
  | exit
deriving DecidableEq

/-- Sequencing of calls: the first failure ends the run. -/
def Res.bind {α β : Type} (r : Res α) (f : α → Res β) : Res β :=
  match r with
  | .ok a => f a
  | .ub => .ub
  | .exit => .exit

instance : Monad Res where
  pure := Res.ok
  bind := Res.bind

/-! ## Memory: buffers tokenised in place -/

/-- The byte `buf[p]`; beyond the bytes read the buffer holds its zero padding. -/
def peek (buf : List Nat) (p : Nat) : Nat := buf.getD p 0

/-- The C string that starts at offset `p` of `buf`. -/
def cstr (buf : List Nat) (p : Nat) : List Nat :=
  (buf.drop p).takeWhile (fun c => decide (c ≠ 0))

/-- The scan of `strchr`: the first argument is the memory from offset `p` on. -/
def strchr_from : List Nat → Nat → Nat → Option Nat
  | [], _, _ => none
  | b :: rest, p, c =>
    if b = c then some p else if b = 0 then none else strchr_from rest (p + 1) c

/-- `strchr(buf + p, c)` for a byte `c` other than NUL: the offset of the first
`c` in the C string at `p`, or `none` (NULL). -/
def strchr (buf : List Nat) (p : Nat) (c : Nat) : Option Nat :=
  strchr_from (buf.drop p) p c

/-- The idiom `if (... (q = strchr(...))) *(q++) = '\0';`: when the pointer found
is not NULL, a NUL is written there and the pointer moves one byte on. -/
def cut (buf : List Nat) (q : Option Nat) : List Nat × Option Nat :=
  match q with
  | none => (buf, none)
  | some i => (buf.set i 0, some (i + 1))

/-- A `%s` argument or `strcmp` operand: the C string at a pointer, undefined
behaviour when the pointer is NULL. -/
def str (buf : List Nat) (p : Option Nat) : Res (List Nat) :=
  match p with
  | none => .ub
  | some i => .ok (cstr buf i)

/-! ## State -/

/-- A `struct channel`: the descriptor of its `in` FIFO and its name. -/
structure Channel where
  fd : Int
  name : List Nat
deriving DecidableEq

/-- One call of `write(ircfd, buffer, len)`: the count passed, and the bytes of
the buffer that lie in the range `[0, len)`. -/
structure SockWrite where
  data : List Nat
  len : Nat
deriving DecidableEq

/-- One call of `write_out(channel, nickname, mesg)`: its three arguments, the
path it computed, and the line it appended (`none` when `fopen` failed). -/
structure OutCall where
  channel : List Nat
  nickname : List Nat
  mesg : List Nat
  outpath : List Nat
  appended : Option (List Nat)
deriving DecidableEq

/-- The globals `channels` (head first) and `nick`, and the trace of the
program's effects: the writes to the socket `ircfd` and the calls of
`write_out`, both in the order they happen. -/
structure State where
  channels : List Channel
  nick : List Nat
  sock : List SockWrite
  out : List OutCall
deriving DecidableEq

/-- The answers of the operating system during one handler call.  `isdir p` is
`stat(p, &st) == 0 && S_ISDIR(st.st_mode)`; `open_channel name` is the outcome of
`open_channel(name)`: `none` when it ends the process through `err`, else the
descriptor `open` returned (−1 on failure); `calloc_ok` is whether `calloc`
returned memory; `fopen_ok p` is whether `fopen(p, "a")` succeeded; `timebuf` is
the local time as `strftime` printed it. -/
structure Env where
  isdir : List Nat → Bool
  open_channel : List Nat → Option Int
  calloc_ok : Bool
  fopen_ok : List Nat → Bool
  timebuf : List Nat

/-! ## Conversation set -/

/-- `is_channel(channel)`: the first byte of the C string (its terminator when
it is empty) is `#`, `+`, `!` or `&`. -/
def is_channel (channel : List Nat) : Bool :=
  let c := channel.headD 0
  c = 35 || c = 43 || c = 33 || c = 38

/-- The `while` loop of `remove_channel` with the unlinking: the list without
its first entry named `channame`. -/
def unlink (channame : List Nat) : List Channel → List Channel
  | [] => []
  | r :: rest => if r.name = channame then rest else r :: unlink channame rest

/-- `remove_channel(channel)`.  The result of `to_irc_lower` is not looked at:
the search uses whatever the call left in `channame`.  (`close` and `free` act
on nothing this state records.) -/
def remove_channel (s : State) (channel : List Nat) : State :=
  let channame := (to_irc_lower channel BUF_CHAN_LEN).2
  { s with channels := unlink channame s.channels }

/-- The search loop of `add_channel`: is there an entry named `channame`? -/
def lookup (channame : List Nat) : List Channel → Bool
  | [] => false
  | chan :: rest => if chan.name = channame then true else lookup channame rest

/-- `add_channel(channel)`: the new state and the value returned. -/
def add_channel (env : Env) (s : State) (channel : List Nat) : Res (State × Bool) :=
  let r := to_irc_lower channel BUF_CHAN_LEN
  let channame := r.2
  if r.1 = false then .ok (s, false)
  else
    let found := lookup channame s.channels
    let found := if found then env.isdir channame else found
    if found then .ok (s, true)
    else
      let s1 := remove_channel s channame
      if env.calloc_ok = false then .exit
      else
        match env.open_channel channame with
        | none => .exit
        | some fd =>
          if fd = -1 then .exit
          else
            .ok ({ s1 with channels :=
              { fd := fd, name := channame.take (BUF_CHAN_LEN - 1) } :: s1.channels }, true)

/-! ## Output writer -/

/-- `write_out(channel, nickname, mesg)`. -/
def write_out (env : Env) (s : State) (channel nickname mesg : List Nat) : State :=
  let r := to_irc_lower channel BUF_CHAN_LEN
  let outpath := if channel ≠ [] ∧ r.1 = true then r.2 ++ [47] ++ OUTFILE else OUTFILE
  let appended :=
    if env.fopen_ok outpath then
      some (env.timebuf ++ [32, 60] ++ nickname ++ [62, 32] ++ mesg ++ [10])
    else none
  { s with out := s.out ++
      [{ channel := channel, nickname := nickname, mesg := mesg,
         outpath := outpath, appended := appended }] }

/-- `write(ircfd, buffer, len)`. -/
def write_sock (s : State) (buffer : List Nat) (len : Nat) : State :=
  { s with sock := s.sock ++ [{ data := buffer.take len, len := len }] }

/-- The array `char mesg[BUF_MESG_LEN] = ""` after
`snprintf(mesg, sizeof(mesg), ...)` printed the string `s` into it: the first 511
bytes of `s`, then zeros. -/
def mesg_buf (s : List Nat) : List Nat :=
  s.take (BUF_MESG_LEN - 1) ++ List.replicate (BUF_MESG_LEN - (s.take (BUF_MESG_LEN - 1)).length) 0

/-! ## Server message parser -/

/-- The local pointers of `handle_server_output` (offsets into `input`, `none`
for NULL), the buffer `input` itself, `nickname` (the string it points at) and
the C string in `mesg`.  The pointer the source calls `prefix` is `prefix_nick`
here, the name the specification gives it. -/
structure Vars where
  buf : List Nat
  prefix_nick : Option Nat
  prefix_user : Option Nat
  prefix_host : Option Nat
  command : Option Nat
  params : Option Nat
  middle : Option Nat
  trailing : Option Nat
  nickname : Option (List Nat)
  mesg : List Nat
deriving DecidableEq

/-- The declarations and `if (*input == ':') prefix = input + 1; else command = input;`. -/
def parse_init (input : List Nat) : Vars :=
  { buf := input,
    prefix_nick := if peek input 0 = 58 then some 1 else none,
    prefix_user := none, prefix_host := none,
    command := if peek input 0 = 58 then none else some 0,
    params := none, middle := none, trailing := none,
    nickname := some SERVER_NICK, mesg := [] }

/-- `if (prefix && (command = strchr(input, ' '))) *(command++) = '\0';` -/
def parse_command (v : Vars) : Vars :=
  match v.prefix_nick with
  | some _ =>
    let r := cut v.buf (strchr v.buf 0 32)
    { v with buf := r.1, command := r.2 }
  | none => v

/-- `if (prefix && (prefix_host = strchr(prefix, '@'))) *(prefix_host++) = '\0';` -/
def parse_host (v : Vars) : Vars :=
  match v.prefix_nick with
  | some p =>
    let r := cut v.buf (strchr v.buf p 64)
    { v with buf := r.1, prefix_host := r.2 }
  | none => v

/-- `if (prefix_host && (prefix_user = strchr(prefix, '!'))) *(prefix_user++) = '\0';` -/
def parse_user (v : Vars) : Vars :=
  match v.prefix_host, v.prefix_nick with
  | some _, some p =>
    let r := cut v.buf (strchr v.buf p 33)
    { v with buf := r.1, prefix_user := r.2 }
  | _, _ => v

/-- `if (command && (params = strchr(command, ' '))) *(params++) = '\0';` -/
def parse_params (v : Vars) : Vars :=
  match v.command with
  | some c =>
    let r := cut v.buf (strchr v.buf c 32)
    { v with buf := r.1, params := r.2 }
  | none => v

/-- `if ((middle = params) && *params != ':' && (middle = strchr(params, ' '))) *(middle++) = '\0';` -/
def parse_middle (v : Vars) : Vars :=
  match v.params with
  | none => { v with middle := none }
  | some p =>
    if peek v.buf p ≠ 58 then
      let r := cut v.buf (strchr v.buf p 32)
      { v with buf := r.1, middle := r.2 }
    else { v with middle := some p }

/-- `if (middle && (trailing = strchr(middle, ':'))) *(trailing++) = '\0';` -/
def parse_trailing (v : Vars) : Vars :=
  match v.middle with
  | some m =>
    let r := cut v.buf (strchr v.buf m 58)
    { v with buf := r.1, trailing := r.2 }
  | none => v

/-- The block "parse irc grammar" of `handle_server_output`, statement by
statement; `input` is the buffer as `read_line` left it (the line without its
CR LF). -/
def parse (input : List Nat) : Vars :=
  parse_trailing (parse_middle (parse_params (parse_user (parse_host
    (parse_command (parse_init input))))))

/-- The field a pointer of the parser designates: `none` when it is NULL. -/
def field (v : Vars) (p : Option Nat) : Option (List Nat) := p.map (cstr v.buf)

/-- The seven fields the parser yields: prefix (nick), user, host, command,
params, middle, trailing. -/
def fields (v : Vars) : List (Option (List Nat)) :=
  [field v v.prefix_nick, field v v.prefix_user, field v v.prefix_host, field v v.command,
   field v v.params, field v v.middle, field v v.trailing]

/-! ## Server message handler -/

/-- A `%s` argument that is the pointer `nickname`. -/
def deref (p : Option (List Nat)) : Res (List Nat) :=
  match p with
  | none => .ub
  | some n => .ok n

/-- What `snprintf(mesg, sizeof(mesg), ...)` leaves in `mesg` as a C string when
the full output is `m`: at most 511 bytes of it. -/
def snprintf_mesg (m : List Nat) : List Nat := m.take (BUF_MESG_LEN - 1)

/-- The branch `001`:
`if (strcmp(nick, params) != 0) snprintf(nick, sizeof(nick), "%s", params);` -/
def on_001 (s : State) (v : Vars) : Res (State × Vars) := do
  let params ← str v.buf v.params
  pure (if s.nick ≠ params then { s with nick := params.take (BUF_NICK_LEN - 1) } else s, v)

/-- The branch `353`:
`if ((prefix_host = params = strchr(middle, ' ') + 1)) *(trailing - 2) = '\0';`
then `snprintf(mesg, sizeof(mesg), "= %s", trailing);` -/
def on_353 (s : State) (v : Vars) : Res (State × Vars) :=
  match v.middle with
  | none => .ub
  | some m =>
    match strchr v.buf m 32 with
    | none => .ub
    | some q =>
      match v.trailing with
      | none => .ub
      | some t =>
        if t < 2 then .ub
        else
          let buf := v.buf.set (t - 2) 0
          .ok (s, { v with buf := buf, prefix_host := some (q + 1), params := some (q + 1),
                           mesg := snprintf_mesg (bytes "= " ++ cstr buf t) })

/-- The branch `ERROR`. -/
def on_error (s : State) (v : Vars) : Res (State × Vars) := do
  let trailing ← str v.buf v.trailing
  pure (s, { v with mesg := snprintf_mesg (bytes "error: " ++ trailing) })

/-- The branch `TOPIC`. -/
def on_topic (s : State) (v : Vars) : Res (State × Vars) := do
  let pfx ← str v.buf v.prefix_nick
  let trailing ← str v.buf v.trailing
  pure (s, { v with mesg := snprintf_mesg (pfx ++ bytes " changed topic to: " ++ trailing) })

/-- The branch `MODE`: the argument is `trailing ? trailing : middle`. -/
def on_mode (s : State) (v : Vars) : Res (State × Vars) := do
  let pfx ← str v.buf v.prefix_nick
  let arg ← str v.buf (if v.trailing.isSome then v.trailing else v.middle)
  pure (s, { v with mesg := snprintf_mesg (pfx ++ bytes " changed mode to: " ++ arg) })

/-- The branch `KICK`: `*(trailing - 2) = '\0';`, the `snprintf`, then
`if (strcmp(nick, middle) == 0) remove_channel(params);` -/
def on_kick (s : State) (v : Vars) : Res (State × Vars) :=
  match v.trailing with
  | none => .ub
  | some t =>
    if t < 2 then .ub
    else do
      let buf := v.buf.set (t - 2) 0
      let pfx ← str buf v.prefix_nick
      let middle ← str buf v.middle
      let params ← str buf v.params
      let mesg := snprintf_mesg (pfx ++ bytes " has kicked " ++ middle ++ bytes " from "
        ++ params ++ bytes " (" ++ cstr buf t ++ bytes ")")
      pure (if s.nick = middle then remove_channel s params else s,
            { v with buf := buf, mesg := mesg })

/-- The branch `PART`: the `snprintf` (with `trailing ? trailing : ""`), then
`if (strcmp(nick, prefix) == 0) remove_channel(params);` -/
def on_part (s : State) (v : Vars) : Res (State × Vars) := do
  let pfx ← str v.buf v.prefix_nick
  let params ← str v.buf v.params
  let trailing := match v.trailing with
    | some t => cstr v.buf t
    | none => []
  let mesg := snprintf_mesg (pfx ++ bytes " has parted " ++ params ++ bytes " ("
    ++ trailing ++ bytes ")")
  pure (if s.nick = pfx then remove_channel s params else s, { v with mesg := mesg })

/-- The branch `JOIN`: `if (!*params) params = trailing;`, the `snprintf`, then
`add_channel(params);` -/
def on_join (env : Env) (s : State) (v : Vars) : Res (State × Vars) :=
  match v.params with
  | none => .ub
  | some p => do
    let params' := if peek v.buf p = 0 then v.trailing else some p
    let pfx ← str v.buf v.prefix_nick
    let params ← str v.buf params'
    let mesg := snprintf_mesg (pfx ++ bytes " has joined " ++ params)
    let (s1, _) ← add_channel env s params
    pure (s1, { v with params := params', mesg := mesg })

/-- The branch `QUIT`. -/
def on_quit (s : State) (v : Vars) : Res (State × Vars) := do
  let pfx ← str v.buf v.prefix_nick
  let trailing ← str v.buf v.trailing
  pure (s, { v with mesg := snprintf_mesg (pfx ++ bytes " has quit (" ++ trailing ++ bytes ")") })

/-- The branch `NICK`: the `snprintf`, then
`if (strcmp(nick, prefix) == 0) snprintf(nick, sizeof(nick), "%s", trailing);` -/
def on_nick (s : State) (v : Vars) : Res (State × Vars) := do
  let pfx ← str v.buf v.prefix_nick
  let trailing ← str v.buf v.trailing
  let mesg := snprintf_mesg (pfx ++ bytes " changed nick to: " ++ trailing)
  pure (if s.nick = pfx then { s with nick := trailing.take (BUF_NICK_LEN - 1) } else s,
        { v with mesg := mesg })

/-- The branch `PRIVMSG` / `NOTICE`: `snprintf(mesg, sizeof(mesg), "%s", trailing);
nickname = prefix; if (strcmp(nick, params) == 0) add_channel(prefix);` -/
def on_privmsg (env : Env) (s : State) (v : Vars) : Res (State × Vars) := do
  let trailing ← str v.buf v.trailing
  let v1 := { v with mesg := snprintf_mesg trailing, nickname := field v v.prefix_nick }
  let params ← str v.buf v.params
  if s.nick = params then do
    let pfx ← str v.buf v.prefix_nick
    let (s1, _) ← add_channel env s pfx
    pure (s1, v1)
  else pure (s, v1)

/-- The branch `PING`: the `snprintf` of the PONG, `write(ircfd, mesg, mesg_len);`
and `*mesg = '\0';` -/
def on_ping (s : State) (v : Vars) : Res (State × Vars) := do
  let trailing ← str v.buf v.trailing
  let m := bytes "PONG " ++ trailing ++ [13, 10]
  pure (write_sock s (mesg_buf m) m.length, { v with mesg := [] })

/-- The last branch:
`else if (trailing) snprintf(mesg, sizeof(mesg), "%s%s", middle ? middle : "", trailing);` -/
def on_other (s : State) (v : Vars) : Res (State × Vars) :=
  match v.trailing with
  | some t =>
    let middle := match v.middle with
      | some m => cstr v.buf m
      | none => []
    .ok (s, { v with mesg := snprintf_mesg (middle ++ cstr v.buf t) })
  | none => .ok (s, v)

/-- The block "handle command" of `handle_server_output`: the `if`/`else if`
chain over `command`, in the order of the source. -/
def dispatch (env : Env) (s : State) (v : Vars) : Res (State × Vars) :=
  match v.command with
  | none => .ok (s, v)
  | some c =>
    let command := cstr v.buf c
    if command = [] ∨ command = bytes "PONG" then .ok (s, v)
    else if command = bytes "001" then on_001 s v
    else if command = bytes "353" then on_353 s v
    else if command = bytes "ERROR" then on_error s v
    else if command = bytes "TOPIC" then on_topic s v
    else if command = bytes "MODE" then on_mode s v
    else if command = bytes "KICK" then on_kick s v
    else if command = bytes "PART" then on_part s v
    else if command = bytes "JOIN" then on_join env s v
    else if command = bytes "QUIT" then on_quit s v
    else if command = bytes "NICK" then on_nick s v
    else if command = bytes "PRIVMSG" ∨ command = bytes "NOTICE" then on_privmsg env s v
    else if command = bytes "PING" then on_ping s v
    else on_other s v

/-- The block `if (*mesg != '\0') { ... }` of `handle_server_output`: where the
log line goes. -/
def route (env : Env) (s : State) (v : Vars) : Res State :=
  if v.mesg ≠ [] then
    match v.prefix_host with
    | none => .ok (write_out env s [] SERVER_NICK v.mesg)
    | some _ => do
      let params ← str v.buf v.params
      if params = [] then pure (write_out env s [] SERVER_NICK v.mesg)
      else if is_channel params then do
        let nickname ← deref v.nickname
        pure (write_out env s params nickname v.mesg)
      else do
        let pfx ← str v.buf v.prefix_nick
        let nickname ← deref v.nickname
        pure (write_out env s pfx nickname v.mesg)
  else .ok s

/-- The `return` of `handle_server_output`:
`!(strcmp("QUIT", command) == 0 && strcmp(nick, prefix) == 0)`. -/
def continue_flag (s : State) (v : Vars) : Res Bool := do
  let command ← str v.buf v.command
  if command = bytes "QUIT" then do
    let pfx ← str v.buf v.prefix_nick
    pure (!(decide (s.nick = pfx)))
  else pure true

/-- `handle_server_output()` after `read_line` succeeded and left `input` in the
buffer: the new state and the value returned. -/
def handle_server_output (env : Env) (s : State) (input : List Nat) : Res (State × Bool) := do
  let (s1, v) ← dispatch env s (parse input)
  let s2 ← route env s1 v
  let running ← continue_flag s2 v
  pure (s2, running)

/-! ## User command dispatcher -/

/-- `handle_priv(channel, input, mesg, mesg_len)`; `input` is the C string
passed.  The result is the new state and the full output of `snprintf` (the
value returned is its length). -/
def handle_priv (env : Env) (s : State) (channel input : List Nat) :
    State × Option (List Nat) :=
  let m := bytes "PRIVMSG " ++ channel ++ bytes " :" ++ input ++ [13, 10]
  -- if (r) write_out(channel, nick, input);
  (if m.length ≠ 0 then write_out env s channel s.nick input else s, some m)

/-- `handle_raw(channel, input, mesg, mesg_len)`; `input` is an offset into the
line buffer `buf`. -/
def handle_raw (env : Env) (s : State) (buf : List Nat) (input : Nat) :
    State × Option (List Nat) :=
  let cmd := input + 1
  let m := cstr buf cmd ++ [13, 10]
  -- if (cmd && (chn = strchr(cmd, ' '))) *chn++ = '\0';
  let (b1, chn) := cut buf (strchr buf cmd 32)
  -- if (chn && (msg = strchr(chn, ' '))) *msg++ = '\0';
  let (b2, msg) := match chn with
    | some c => cut b1 (strchr b1 c 32)
    | none => (b1, none)
  match chn, msg with
  | some c, some g =>
    if m.length ≠ 0 ∧ (cstr b2 cmd = bytes "PRIVMSG" ∨ cstr b2 cmd = bytes "NOTICE") then
      (write_out env s (cstr b2 c) s.nick (cstr b2 (g + 1)), some m)
    else (s, some m)
  | _, _ => (s, some m)

/-- `handle_away`. -/
def handle_away (buf : List Nat) (params : Nat) : Option (List Nat) :=
  if peek buf params ≠ 0 then some (bytes "AWAY :" ++ cstr buf (params + 1) ++ [13, 10])
  else some (bytes "AWAY" ++ [13, 10])

/-- `handle_nick`. -/
def handle_nick (buf : List Nat) (params : Nat) : Option (List Nat) :=
  if peek buf params ≠ 0 then some (bytes "NICK " ++ cstr buf (params + 1) ++ [13, 10])
  else none

/-- `handle_join`; `msgorkey` is the string the pointer designates, which is
never NULL. -/
def handle_join (env : Env) (s : State) (buf : List Nat) (params : Nat) :
    Res (State × Option (List Nat)) :=
  -- if (!*params++) return 0;
  if peek buf params = 0 then .ok (s, none)
  else
    let params := params + 1
    -- if (msgorkey) *(msgorkey++) = '\0'; else msgorkey = "";
    let (b1, q) := cut buf (strchr buf params 32)
    let msgorkey : Option (List Nat) := match q with
      | some i => some (cstr b1 i)
      | none => some []
    let first := cstr b1 params
    match msgorkey with
    | none => .ok (s, none)
    | some mk =>
      if is_channel first then
        .ok (s, some (bytes "JOIN " ++ first ++ [32] ++ mk ++ [13, 10]))
      else do
        let (s1, _) ← add_channel env s first
        pure (handle_priv env s1 first mk)

/-- `handle_leave`. -/
def handle_leave (channel : List Nat) (buf : List Nat) (params : Nat) : Option (List Nat) :=
  if channel = [] then none
  else if peek buf params = 0 then some (bytes "PART " ++ channel ++ [13, 10])
  else some (bytes "PART " ++ channel ++ bytes " :" ++ cstr buf (params + 1) ++ [13, 10])

/-- `handle_topic`. -/
def handle_topic (channel : List Nat) (buf : List Nat) (params : Nat) : Option (List Nat) :=
  if peek buf params ≠ 0 then
    some (bytes "TOPIC " ++ channel ++ bytes " :" ++ cstr buf (params + 1) ++ [13, 10])
  else some (bytes "TOPIC " ++ channel ++ [13, 10])

/-- `handle_names`. -/
def handle_names (channel : List Nat) : Option (List Nat) :=
  some (bytes "NAMES " ++ channel ++ [13, 10])

/-- `handle_mode`. -/
def handle_mode (channel : List Nat) (buf : List Nat) (params : Nat) : Option (List Nat) :=
  if peek buf params ≠ 0 then
    some (bytes "MODE " ++ channel ++ [32] ++ cstr buf (params + 1) ++ [13, 10])
  else none

/-- `handle_invit`. -/
def handle_invit (channel : List Nat) (buf : List Nat) (params : Nat) : Option (List Nat) :=
  if peek buf params ≠ 0 then
    some (bytes "INVITE " ++ cstr buf (params + 1) ++ [32] ++ channel ++ [13, 10])
  else none

/-- `handle_kick`. -/
def handle_kick (channel : List Nat) (buf : List Nat) (params : Nat) : Option (List Nat) :=
  if peek buf params ≠ 0 then
    some (bytes "KICK " ++ channel ++ [32] ++ cstr buf (params + 1) ++ [13, 10])
  else none

/-- `handle_quit`. -/
def handle_quit (buf : List Nat) (params : Nat) : Option (List Nat) :=
  if peek buf params ≠ 0 then some (bytes "QUIT :" ++ cstr buf (params + 1) ++ [13, 10])
  else some (bytes "QUIT" ++ [13, 10])

/-- The entries of the table `cmd_handle`. -/
inductive Handler where
  | away | invit | join | kick | leave | mode | nick | priv | quit | raw | topic | names
deriving DecidableEq

/-- The table `cmd_handle[]`, indices 0 to `'u'` (117): `none` is a NULL entry. -/
def cmd_handle (cmd : Nat) : Option Handler :=
  if cmd = 97 then some .away
  else if cmd = 105 then some .invit
  else if cmd = 106 then some .join
  else if cmd = 107 then some .kick
  else if cmd = 108 then some .leave
  else if cmd = 109 then some .mode
  else if cmd = 110 then some .nick
  else if cmd = 112 then some .priv
  else if cmd = 113 then some .quit
  else if cmd = 114 then some .raw
  else if cmd = 116 then some .topic
  else if cmd = 117 then some .names
  else none

/-- The number of entries of `cmd_handle`: `'u' + 1`. -/
def cmd_handle_entries : Nat := 118

/-- The value of `sizeof(cmd_handle)`: 118 pointers of 8 bytes. -/
def sizeof_cmd_handle : Nat := cmd_handle_entries * 8

/-- The conversion of `unsigned cmd = input[1]`, `char` being signed. -/
def char_to_unsigned (c : Nat) : Nat := if c < 128 then c else c + 2 ^ 32 - 256

/-- The call `cmd_handle[cmd](c->name, input + 2, mesg, sizeof(mesg))`. -/
def run_handler (env : Env) (s : State) (h : Handler) (channel : List Nat) (buf : List Nat)
    (params : Nat) : Res (State × Option (List Nat)) :=
  match h with
  | .away => .ok (s, handle_away buf params)
  | .invit => .ok (s, handle_invit channel buf params)
  | .join => handle_join env s buf params
  | .kick => .ok (s, handle_kick channel buf params)
  | .leave => .ok (s, handle_leave channel buf params)
  | .mode => .ok (s, handle_mode channel buf params)
  | .nick => .ok (s, handle_nick buf params)
  | .priv => .ok (handle_priv env s channel (cstr buf params))
  | .quit => .ok (s, handle_quit buf params)
  | .raw => .ok (handle_raw env s buf params)
  | .topic => .ok (s, handle_topic channel buf params)
  | .names => .ok (s, handle_names channel)

/-- The end of `handle_channel_input`: the CR LF patch of an overlong message
and the write to the socket.  `r` is the full output of the handler's
`snprintf`, `none` when the handler returned 0 and left `mesg` alone. -/
def send_mesg (s : State) (r : Option (List Nat)) : State :=
  let mesg_len := match r with
    | some m => m.length
    | none => 0
  let mesg := match r with
    | some m => mesg_buf m
    | none => List.replicate BUF_MESG_LEN 0
  let mesg := if BUF_MESG_LEN ≤ mesg_len then
      (mesg.set (BUF_MESG_LEN - 2) 13).set (BUF_MESG_LEN - 1) 10
    else mesg
  if mesg_len > 0 then write_sock s mesg mesg_len else s

/-- `handle_channel_input(c)`: `c` is the position of the channel in the list,
`rd` is what `read_line(c->fd, input, sizeof(input))` gave: `none` when it
failed, else the buffer `input`. -/
def handle_channel_input (env : Env) (s : State) (c : Nat) (rd : Option (List Nat)) :
    Res State :=
  match s.channels[c]? with
  | none => .ub
  | some chan =>
    match rd with
    | none =>
      -- if ((c->fd = open_channel(c->name)) == -1) remove_channel(c->name);
      match env.open_channel chan.name with
      | none => .exit
      | some fd =>
        let s1 := { s with channels := s.channels.set c { chan with fd := fd } }
        .ok (if fd = -1 then remove_channel s1 chan.name else s1)
    | some input =>
      let cmd := char_to_unsigned (peek input 1)
      if peek input 0 ≠ 47 then
        let (s1, r) := handle_priv env s chan.name (cstr input 0)
        .ok (send_mesg s1 r)
      else if (peek input 2 = 32 ∨ peek input 2 = 0) ∧ cmd < sizeof_cmd_handle then
        if cmd_handle_entries ≤ cmd then .ub
        else
          match cmd_handle cmd with
          | some h => do
            let (s1, r) ← run_handler env s h chan.name input 2
            pure (send_mesg s1 r)
          | none =>
            let (s1, r) := handle_raw env s input 0
            .ok (send_mesg s1 r)
      else
        let (s1, r) := handle_raw env s input 0
        .ok (send_mesg s1 r)

/-! ## Event loop -/

/-- The initial value of `time_t last_response = 0;` in `main`. -/
def last_response_init : Int := 0

/-- The seconds `select` waits for a descriptor: `tv.tv_sec = PING_TMOUT / 3`. -/
def select_timeout : Int := ((PING_TMOUT / 3 : Nat) : Int)

/-- The branch `r == 0` of the event loop in `main`, `select` having timed
out: `if (time(NULL) - last_response >= PING_TMOUT) err("ping timeout\n");`
then the `snprintf` of `PING <host>` into `ping_mesg[BUF_MESG_LEN]` and its
`write`.  `now` is the value of `time(NULL)`. -/
def on_timeout (host : List Nat) (now last_response : Int) (s : State) : Res State :=
  if now - last_response ≥ (PING_TMOUT : Int) then .exit
  else
    let m := bytes "PING " ++ host ++ [13, 10]
    .ok (write_sock s (mesg_buf m) m.length)

/-- The branch `FD_ISSET(ircfd, &fds)` of the event loop:
`last_response = time(NULL); running = handle_server_output();`.  The result
is the new state, the new `last_response` and the new `running`. -/
def on_server (env : Env) (now : Int) (s : State) (input : List Nat) :
    Res (State × Int × Bool) := do
  let (s1, running) ← handle_server_output env s input
  pure (s1, now, running)

/-- Consecutive iterations of the event loop in which `select` finds no
descriptor ready: each `select` returns 0 after `select_timeout` seconds, and
`last_response` keeps its value.  `now` is the clock when the first of the
`n` calls of `select` starts. -/
def quiet (host : List Nat) (last_response : Int) : Nat → Int → State → Res State
  | 0, _, s => .ok s
  | n + 1, now, s =>
    (on_timeout host (now + select_timeout) last_response s).bind
      (quiet host last_response n (now + select_timeout))

/-! ## Specification-side definitions -/

/-- The wire line `":" nick "!" user "@" host SP verb SP params [ SP ":" trailing ]`
of the specification. -/
def wire_line (nick user host verb params : List Nat) (trailing : Option (List Nat)) :
    List Nat :=
  [58] ++ nick ++ [33] ++ user ++ [64] ++ host ++ [32] ++ verb ++ [32] ++ params ++
    (match trailing with
     | some t => [32, 58] ++ t
     | none => [])

/-- Re-joining the parser's fields with the separators that were cut:
`':' nick '!' user '@' host ' ' command ' ' params`, followed by
`' ' middle ':' trailing` when a middle and a trailing were found, and by
nothing when neither was; `none` when one of the first five fields is absent,
or when only one of middle and trailing is there. -/
def rejoin (v : Vars) : Option (List Nat) :=
  match field v v.prefix_nick, field v v.prefix_user, field v v.prefix_host,
      field v v.command, field v v.params with
  | some nick, some user, some host, some command, some params =>
    match field v v.middle, field v v.trailing with
    | some m, some t =>
      some ([58] ++ nick ++ [33] ++ user ++ [64] ++ host ++ [32] ++ command ++ [32] ++ params ++
        ([32] ++ m ++ [58] ++ t))
    | none, none =>
      some ([58] ++ nick ++ [33] ++ user ++ [64] ++ host ++ [32] ++ command ++ [32] ++ params)
    | _, _ => none
  | _, _, _, _, _ => none

/-- The first space-delimited token of a line: its bytes before the first SP
(the only separator of the IRC grammar). -/
def first_token (line : List Nat) : List Nat := line.takeWhile (fun c => decide (c ≠ 32))

/-- The C string `w` stands at offset `p`, closed by a NUL of its own. -/
def Seg (buf : List Nat) (p : Nat) (w : List Nat) : Prop :=
  ∃ a rest, buf = a ++ (w ++ 0 :: rest) ∧ p = a.length ∧ ∀ x ∈ w, x ≠ 0

/-- One call on the conversation set: `add_channel(channel)` with the answers
the operating system gives during the call, or `remove_channel(channel)`. -/
inductive SetOp where
  | add (env : Env) (channel : List Nat)
  | remove (channel : List Nat)

/-- A sequence of `add_channel` and `remove_channel` calls, run from the state
`s`; the run stops when `add_channel` ends the process. -/
def run_ops (s : State) : List SetOp → Res State
  | [] => .ok s
  | .add env channel :: rest =>
    match add_channel env s channel with
    | .ok (s1, _) => run_ops s1 rest
    | .ub => .ub
    | .exit => .exit
  | .remove channel :: rest => run_ops (remove_channel s channel) rest

/-- The conversation-set invariant: no two entries carry the same name, and
every stored name is canonical (`to_irc_lower` accepts it and maps it to
itself). -/
def set_invariant (l : List Channel) : Prop :=
  (l.map Channel.name).Nodup ∧ ∀ c ∈ l, to_irc_lower c.name BUF_CHAN_LEN = (true, c.name)

/-- A sample of operating-system answers: every call succeeds. -/
def env_ok : Env :=
  { isdir := fun _ => true, open_channel := fun _ => some 5, calloc_ok := true,
    fopen_ok := fun _ => true, timebuf := bytes "2024-01-01 00:00" }

/-- A sample state: registered as `self`, the server conversation alone in the
list, nothing written yet. -/
def st_self : State :=
  { channels := [{ fd := 3, name := [] }], nick := bytes "self", sock := [], out := [] }

/-- A sample of operating-system answers: the directory of the conversation
is gone, the FIFO opens on descriptor 7. -/
def env_stale : Env :=
  { isdir := fun _ => false, open_channel := fun _ => some 7, calloc_ok := true,
    fopen_ok := fun _ => true, timebuf := bytes "2024-01-01 00:00" }

/-- A sample state: nothing in the list yet. -/
def st_empty : State := { channels := [], nick := bytes "self", sock := [], out := [] }

/-- A sample run on the conversation set: a channel is added, added again
under another spelling while its directory is gone, a correspondent is added
and removed, a name with a space is refused, the server conversation is added. -/
def sample_ops : List SetOp :=
  [.add env_ok (bytes "#Chan"), .add env_stale (bytes "#chan,#x"), .add env_ok (bytes "bob"),
   .remove (bytes "BOB"), .add env_ok (bytes "a b"), .add env_ok []]

/-- A sample state: the conversation `#chan` and the server conversation. -/
def st_chan : State :=
  { channels := [{ fd := 4, name := bytes "#chan" }, { fd := 3, name := [] }],
    nick := bytes "self", sock := [], out := [] }

/-- The state after one `write` of the bytes `m`, whole, to the socket. -/
def sent (s : State) (m : List Nat) : State :=
  { s with sock := s.sock ++ [{ data := m, len := m.length }] }

/-- The text of the line `/j first` (`key` absent) or `/j first key`. -/
def join_line (first : List Nat) (key : Option (List Nat)) : List Nat :=
  bytes "/j " ++ first ++ (match key with
    | some k => 32 :: k
    | none => [])

/-- A sample of operating-system answers: no file opens for append, all
else succeeds. -/
def env_nofile : Env :=
  { isdir := fun _ => true, open_channel := fun _ => some 5, calloc_ok := true,
    fopen_ok := fun _ => false, timebuf := bytes "2024-01-01 00:00" }

/-- A sample state: the conversation `#a` and the server conversation. -/
def st_a : State :=
  { channels := [{ fd := 4, name := bytes "#a" }, { fd := 3, name := [] }],
    nick := bytes "self", sock := [], out := [] }

/-- The line `write_out` appends: `"%s <%s> %s\n"` of the time, the displayed
nick and the text. -/
def out_line (env : Env) (nickname mesg : List Nat) : List Nat :=
  env.timebuf ++ [32, 60] ++ nickname ++ [62, 32] ++ mesg ++ [10]

/-- The state after a call of `write_out` that chose the path `outpath`: one
`fopen(outpath, "a")`, and the line appended when it succeeded. -/
def logged (env : Env) (s : State) (channel nickname mesg outpath : List Nat) : State :=
  { s with out := s.out ++
      [{ channel := channel, nickname := nickname, mesg := mesg, outpath := outpath,
         appended := if env.fopen_ok outpath then some (out_line env nickname mesg) else none }] }

/-! ## Theorems: name normaliser -/

theorem spec_fold_clean (c : Nat) (h : ¬ rejected c) (hc : c ≠ 44) :
    ¬ rejected (spec_fold c) ∧ spec_fold c ≠ 44 ∧ spec_fold (spec_fold c) = spec_fold c := by
  unfold rejected at *
  have e : spec_fold c = c ∨ (65 ≤ c ∧ c ≤ 90 ∧ spec_fold c = c + 32) ∨ (c = 91 ∧ spec_fold c = 123)
      ∨ (c = 93 ∧ spec_fold c = 125) ∨ (c = 92 ∧ spec_fold c = 124) ∨ (c = 126 ∧ spec_fold c = 94) := by
    unfold spec_fold
    split_ifs <;> omega
  have f : ∀ d : Nat, 94 ≤ d → d ≤ 125 → spec_fold d = d := by
    intro d h1 h2
    unfold spec_fold
    split_ifs <;> omega
  rcases e with e | ⟨h1, h2, e⟩ | ⟨h1, e⟩ | ⟨h1, e⟩ | ⟨h1, e⟩ | ⟨h1, e⟩
  · rw [e, e]; omega
  · rw [e]; refine ⟨by omega, by omega, f _ (by omega) (by omega)⟩
  · rw [e]; refine ⟨by omega, by omega, f _ (by omega) (by omega)⟩
  · rw [e]; refine ⟨by omega, by omega, f _ (by omega) (by omega)⟩
  · rw [e]; refine ⟨by omega, by omega, f _ (by omega) (by omega)⟩
  · rw [e]; refine ⟨by omega, by omega, f _ (by omega) (by omega)⟩

/-- The loop, whatever it returns, leaves in `dst` the fold of the scanned bytes:
those before the first rejected byte or comma, at most `room` of them. -/
theorem to_irc_lower_loop_snd (src : List Nat) (room : Nat) (dst : List Nat) :
    (to_irc_lower_loop src room dst).2 =
      dst ++ (((src.takeWhile (fun c => decide (¬ rejected c ∧ c ≠ 44))).take room).map spec_fold) := by
  induction src generalizing room dst with
  | nil => simp [to_irc_lower_loop]
  | cons c rest ih =>
    cases room with
    | zero => simp [to_irc_lower_loop]
    | succ room =>
      unfold to_irc_lower_loop
      by_cases hr : c = 0 ∨ c = 7 ∨ c = 13 ∨ c = 10 ∨ c = 32
      · have hr2 : rejected c := hr
        simp [hr, List.takeWhile, hr2]
      · have hr2 : ¬ rejected c := hr
        rw [if_neg hr]
        by_cases hc : c = 44
        · simp [hc, List.takeWhile]
        · rw [if_neg hc]
          have htw : (c :: rest).takeWhile (fun c => decide (¬ rejected c ∧ c ≠ 44))
              = c :: rest.takeWhile (fun c => decide (¬ rejected c ∧ c ≠ 44)) := by
            simp [List.takeWhile, hr2, hc]
          rw [htw]
          simp only [List.take_succ_cons, List.map_cons]
          split_ifs with h1 h2 h3 h4
          · rw [ih]; simp [spec_fold, h1]
          · rw [ih]; simp [spec_fold, h1, h2]
          · rw [ih]; simp [spec_fold, h1, h2, h3]
          · rw [ih]; simp [spec_fold, h1, h2, h3, h4]
          · rw [ih]; simp [spec_fold, h1, h2, h3, h4, tolower]

/-- A string of bytes that are not rejected, not commas and fixed by the fold,
and that fits, is accepted and copied as is. -/
theorem to_irc_lower_loop_clean (t : List Nat) (room : Nat) (dst : List Nat)
    (hlen : t.length ≤ room)
    (ht : ∀ c ∈ t, ¬ rejected c ∧ c ≠ 44 ∧ spec_fold c = c) :
    to_irc_lower_loop t room dst = (true, dst ++ t) := by
  induction t generalizing room dst with
  | nil => simp [to_irc_lower_loop]
  | cons c rest ih =>
    cases room with
    | zero => simp at hlen
    | succ room =>
      have hc := ht c (List.mem_cons_self _ _)
      have hrest : ∀ c ∈ rest, ¬ rejected c ∧ c ≠ 44 ∧ spec_fold c = c :=
        fun x hx => ht x (List.mem_cons_of_mem _ hx)
      have hl : rest.length ≤ room := by simpa using hlen
      obtain ⟨h1, h2, h3⟩ := hc
      unfold rejected at h1
      unfold spec_fold at h3
      unfold to_irc_lower_loop
      rw [if_neg h1, if_neg h2]
      have e91 : c ≠ 91 := by intro h; simp [h] at h3
      have e93 : c ≠ 93 := by intro h; simp [h] at h3
      have e92 : c ≠ 92 := by intro h; simp [h] at h3
      have e126 : c ≠ 126 := by intro h; simp [h] at h3
      have elow : tolower c = c := by
        unfold tolower
        simp only [e91, e93, e92, e126, if_false] at h3
        exact h3
      rw [if_neg e91, if_neg e93, if_neg e92, if_neg e126, elow, ih room _ hl hrest]
      simp

/-- The loop returns `true` exactly when no rejected byte is met before the
scan stops (at a comma, at `room` bytes, or at the end of the string). -/
theorem to_irc_lower_loop_fst (src : List Nat) (room : Nat) (dst : List Nat) :
    (to_irc_lower_loop src room dst).1 = true ↔
      ∀ c ∈ (src.takeWhile (fun c => decide (c ≠ 44))).take room, ¬ rejected c := by
  induction src generalizing room dst with
  | nil => simp [to_irc_lower_loop]
  | cons c rest ih =>
    cases room with
    | zero => simp [to_irc_lower_loop]
    | succ room =>
      unfold to_irc_lower_loop
      by_cases hr : c = 0 ∨ c = 7 ∨ c = 13 ∨ c = 10 ∨ c = 32
      · have hr2 : rejected c := hr
        have h44 : c ≠ 44 := by rcases hr with h | h | h | h | h <;> omega
        simp [hr, List.takeWhile, h44, hr2]
      · have hr2 : ¬ rejected c := hr
        rw [if_neg hr]
        by_cases hc : c = 44
        · simp [hc, List.takeWhile]
        · rw [if_neg hc]
          have htw : (c :: rest).takeWhile (fun c => decide (c ≠ 44))
              = c :: rest.takeWhile (fun c => decide (c ≠ 44)) := by
            simp [List.takeWhile, hc]
          rw [htw]
          simp only [List.take_succ_cons, List.mem_cons, forall_eq_or_imp]
          split_ifs <;> rw [ih] <;> simp [hr2]

/-- When the loop accepts, `dst` holds the fold of the bytes before the first
comma, at most `room` of them. -/
theorem to_irc_lower_loop_accept (src : List Nat) (room : Nat) (dst : List Nat)
    (h : (to_irc_lower_loop src room dst).1 = true) :
    (to_irc_lower_loop src room dst).2 =
      dst ++ (((src.takeWhile (fun c => decide (c ≠ 44))).take room).map spec_fold) := by
  induction src generalizing room dst with
  | nil => simp [to_irc_lower_loop]
  | cons c rest ih =>
    cases room with
    | zero => simp [to_irc_lower_loop]
    | succ room =>
      unfold to_irc_lower_loop at h ⊢
      by_cases hr : c = 0 ∨ c = 7 ∨ c = 13 ∨ c = 10 ∨ c = 32
      · simp [hr] at h
      · rw [if_neg hr] at h ⊢
        by_cases hc : c = 44
        · simp [hc, List.takeWhile]
        · rw [if_neg hc] at h ⊢
          have htw : (c :: rest).takeWhile (fun c => decide (c ≠ 44))
              = c :: rest.takeWhile (fun c => decide (c ≠ 44)) := by
            simp [List.takeWhile, hc]
          rw [htw]
          simp only [List.take_succ_cons, List.map_cons]
          split_ifs at h ⊢ with h1 h2 h3 h4
          · rw [ih _ _ h]; simp [spec_fold, h1]
          · rw [ih _ _ h]; simp [spec_fold, h1, h2]
          · rw [ih _ _ h]; simp [spec_fold, h1, h2, h3]
          · rw [ih _ _ h]; simp [spec_fold, h1, h2, h3, h4]
          · rw [ih _ _ h]; simp [spec_fold, h1, h2, h3, h4, tolower]

theorem chan_room : (BUF_CHAN_LEN + 2 ^ 64 - 1) % 2 ^ 64 = 49 := by
  norm_num [BUF_CHAN_LEN]

/-- Whatever `to_irc_lower` returns, the string it leaves in a 50-byte `dst` is
canonical: normalising it again succeeds and gives it back. -/
theorem to_irc_lower_canonical (s : List Nat) :
    to_irc_lower (to_irc_lower s BUF_CHAN_LEN).2 BUF_CHAN_LEN
      = (true, (to_irc_lower s BUF_CHAN_LEN).2) := by
  unfold to_irc_lower
  rw [chan_room, to_irc_lower_loop_snd]
  simp only [List.nil_append]
  have := to_irc_lower_loop_clean
    (((s.takeWhile (fun c => decide (¬ rejected c ∧ c ≠ 44))).take 49).map spec_fold) 49 []
    (by simp)
    (by
      intro c hc
      obtain ⟨d, hd, rfl⟩ := List.mem_map.mp hc
      have hp := List.mem_takeWhile_imp (List.mem_of_mem_take hd)
      simp only [decide_eq_true_eq] at hp
      exact spec_fold_clean d hp.1 hp.2)
  simpa using this

/-- The string left in a 50-byte `dst` has at most 49 bytes. -/
theorem to_irc_lower_length (s : List Nat) : (to_irc_lower s BUF_CHAN_LEN).2.length ≤ 49 := by
  unfold to_irc_lower
  rw [chan_room, to_irc_lower_loop_snd]
  simp

/-- C4: `to_irc_lower` is idempotent on accepted input.  For every byte string
`s` with no NUL, BEL, CR, LF or SP byte, normalising `s` into a 50-byte
destination succeeds, and normalising the canonical output again succeeds and
yields the same canonical string. -/
theorem to_irc_lower_idempotent (s : List Nat)
    (h : ∀ c ∈ s, c ≠ 0 ∧ c ≠ 7 ∧ c ≠ 13 ∧ c ≠ 10 ∧ c ≠ 32) :
    (to_irc_lower s 50).1 = true ∧
      to_irc_lower (to_irc_lower s 50).2 50 = (true, (to_irc_lower s 50).2) := by
  refine ⟨?_, to_irc_lower_canonical s⟩
  unfold to_irc_lower
  rw [to_irc_lower_loop_fst]
  intro c hc
  have hs : c ∈ s := (List.takeWhile_sublist _).subset (List.mem_of_mem_take hc)
  have := h c hs
  unfold rejected
  omega

theorem to_irc_lower_idempotent_witness :
    (∀ c ∈ bytes "#Chan[1]", c ≠ 0 ∧ c ≠ 7 ∧ c ≠ 13 ∧ c ≠ 10 ∧ c ≠ 32) ∧
      (to_irc_lower (bytes "#Chan[1]") 50).1 = true ∧
      to_irc_lower (to_irc_lower (bytes "#Chan[1]") 50).2 50
        = (true, (to_irc_lower (bytes "#Chan[1]") 50).2) :=
  ⟨by decide, to_irc_lower_idempotent (bytes "#Chan[1]") (by decide)⟩

/-- C5: for every byte string `s` that `to_irc_lower` accepts (50-byte
destination), the canonical output is the per-byte fold of the portion of `s`
before its first comma, truncated to 49 bytes; the output has at most 49 bytes,
and every output byte whose source byte is not one of `[ ] \ ~ A..Z` equals
that source byte. -/
theorem to_irc_lower_is_fold (s : List Nat) (h : (to_irc_lower s 50).1 = true) :
    (to_irc_lower s 50).2 = ((s.takeWhile (fun c => decide (c ≠ 44))).take 49).map spec_fold ∧
      (to_irc_lower s 50).2.length ≤ 49 ∧
      ∀ i c, i < (to_irc_lower s 50).2.length → s[i]? = some c →
        c ≠ 91 → c ≠ 93 → c ≠ 92 → c ≠ 126 → ¬ (65 ≤ c ∧ c ≤ 90) →
        (to_irc_lower s 50).2[i]? = some c := by
  have key : (to_irc_lower s 50).2
      = ((s.takeWhile (fun c => decide (c ≠ 44))).take 49).map spec_fold := by
    have := to_irc_lower_loop_accept s 49 [] h
    simpa [to_irc_lower] using this
  refine ⟨key, to_irc_lower_length s, ?_⟩
  intro i c hi hs h1 h2 h3 h4 h5
  rw [key] at hi ⊢
  simp only [List.length_map] at hi
  have hi2 : i < (s.takeWhile (fun c => decide (c ≠ 44))).length :=
    lt_of_lt_of_le hi (List.length_take_le' _ _)
  have hi49 : i < 49 := lt_of_lt_of_le hi (List.length_take_le _ _)
  have hpre := List.takeWhile_prefix (l := s) (fun c => decide (c ≠ 44))
  have hget : (s.takeWhile (fun c => decide (c ≠ 44)))[i]? = some c := by
    obtain ⟨t, ht⟩ := hpre
    have : s[i]? = (s.takeWhile (fun c => decide (c ≠ 44)))[i]? := by
      conv_lhs => rw [← ht]
      exact List.getElem?_append_left hi2
    rw [← this, hs]
  rw [List.getElem?_map, List.getElem?_take, if_pos hi49, hget]
  simp [spec_fold, h1, h2, h3, h4, h5]

theorem to_irc_lower_is_fold_witness :
    (to_irc_lower (bytes "#Foo[x]~,bar") 50).1 = true ∧
    ((to_irc_lower (bytes "#Foo[x]~,bar") 50).2
        = (((bytes "#Foo[x]~,bar").takeWhile (fun c => decide (c ≠ 44))).take 49).map spec_fold ∧
      (to_irc_lower (bytes "#Foo[x]~,bar") 50).2.length ≤ 49 ∧
      ∀ i c, i < (to_irc_lower (bytes "#Foo[x]~,bar") 50).2.length →
        (bytes "#Foo[x]~,bar")[i]? = some c →
        c ≠ 91 → c ≠ 93 → c ≠ 92 → c ≠ 126 → ¬ (65 ≤ c ∧ c ≤ 90) →
        (to_irc_lower (bytes "#Foo[x]~,bar") 50).2[i]? = some c) :=
  ⟨by decide, to_irc_lower_is_fold (bytes "#Foo[x]~,bar") (by decide)⟩

/-- C6, as stated, fails: a name may contain a space and still be accepted,
when the space stands after a comma (or after the 49th byte). -/
theorem to_irc_lower_accepts_space_after_comma :
    ¬ (∀ s : List Nat, (∃ c ∈ s, c = 7 ∨ c = 13 ∨ c = 10 ∨ c = 32) →
        (to_irc_lower s 50).1 = false) := by
  intro h
  have := h (bytes "#a,b c") ⟨32, by decide, by decide⟩
  revert this
  decide

/-- C6, amended: a name with a BEL, CR, LF or SP byte among its first 49 bytes
and before any comma is rejected. -/
theorem to_irc_lower_rejects (pre post : List Nat) (c : Nat)
    (hc : c = 7 ∨ c = 13 ∨ c = 10 ∨ c = 32)
    (hlen : pre.length < 49) (hcomma : ∀ b ∈ pre, b ≠ 44) :
    (to_irc_lower (pre ++ c :: post) 50).1 = false := by
  by_contra hne
  have ht : (to_irc_lower (pre ++ c :: post) 50).1 = true := by
    simpa using hne
  unfold to_irc_lower at ht
  rw [to_irc_lower_loop_fst] at ht
  have hc44 : c ≠ 44 := by omega
  have hmem : c ∈ (((pre ++ c :: post).takeWhile (fun c => decide (c ≠ 44))).take 49) := by
    rw [List.takeWhile_append_of_pos (by simpa using hcomma)]
    rw [List.takeWhile_cons, if_pos (by simpa using hc44)]
    rw [List.mem_iff_getElem?]
    refine ⟨pre.length, ?_⟩
    rw [List.getElem?_take, if_pos hlen, List.getElem?_append_right (le_refl _)]
    simp
  exact ht c hmem (by unfold rejected; omega)

theorem to_irc_lower_rejects_witness :
    (32 = 7 ∨ 32 = 13 ∨ 32 = 10 ∨ 32 = 32) ∧ (bytes "ab").length < 49 ∧
      (∀ b ∈ bytes "ab", b ≠ 44) ∧
      (to_irc_lower (bytes "ab" ++ 32 :: bytes "c") 50).1 = false :=
  ⟨by decide, by decide, by decide,
    to_irc_lower_rejects (bytes "ab") (bytes "c") 32 (by decide) (by decide) (by decide)⟩

/-! ## Theorems: memory -/

theorem strchr_from_found (w rest : List Nat) (c p : Nat) (hw : ∀ x ∈ w, x ≠ c ∧ x ≠ 0) :
    strchr_from (w ++ c :: rest) p c = some (p + w.length) := by
  induction w generalizing p with
  | nil => simp [strchr_from]
  | cons x w ih =>
    have hx := hw x (List.mem_cons_self _ _)
    have := ih (p + 1) (fun y hy => hw y (List.mem_cons_of_mem _ hy))
    show strchr_from (x :: (w ++ c :: rest)) p c = _
    rw [strchr_from, if_neg hx.1, if_neg hx.2, this, List.length_cons]
    congr 1
    omega

theorem strchr_from_none_end (w : List Nat) (c p : Nat) (hw : ∀ x ∈ w, x ≠ c ∧ x ≠ 0) :
    strchr_from w p c = none := by
  induction w generalizing p with
  | nil => simp [strchr_from]
  | cons x w ih =>
    have hx := hw x (List.mem_cons_self _ _)
    have := ih (p + 1) (fun y hy => hw y (List.mem_cons_of_mem _ hy))
    simp only [strchr_from, if_neg hx.1, if_neg hx.2, this]

theorem strchr_from_none_nul (w rest : List Nat) (c p : Nat) (hc : c ≠ 0)
    (hw : ∀ x ∈ w, x ≠ c ∧ x ≠ 0) :
    strchr_from (w ++ 0 :: rest) p c = none := by
  induction w generalizing p with
  | nil => simp [strchr_from, Ne.symm hc]
  | cons x w ih =>
    have hx := hw x (List.mem_cons_self _ _)
    have := ih (p + 1) (fun y hy => hw y (List.mem_cons_of_mem _ hy))
    show strchr_from (x :: (w ++ 0 :: rest)) p c = _
    rw [strchr_from, if_neg hx.1, if_neg hx.2, this]

theorem set_at_length (a rest : List Nat) (c x : Nat) :
    (a ++ c :: rest).set a.length x = a ++ x :: rest := by
  induction a with
  | nil => rfl
  | cons y a ih => simp [ih]

theorem getD_at_length (a rest : List Nat) (c : Nat) :
    (a ++ c :: rest).getD a.length 0 = c := by
  induction a with
  | nil => rfl
  | cons y a ih => simpa using ih

/-- A cut that finds its byte: the buffer is `a ++ w ++ c :: rest`, the search
starts after `a`, and `w` holds neither `c` nor NUL. -/
theorem cut_found (buf a w rest : List Nat) (c p : Nat) (hb : buf = a ++ (w ++ c :: rest))
    (hp : p = a.length) (hw : ∀ x ∈ w, x ≠ c ∧ x ≠ 0) :
    cut buf (strchr buf p c) = (a ++ (w ++ 0 :: rest), some (a.length + w.length + 1)) := by
  subst hb hp
  have h1 : strchr (a ++ (w ++ c :: rest)) a.length c = some (a.length + w.length) := by
    unfold strchr
    rw [List.drop_left' rfl]
    exact strchr_from_found w rest c a.length hw
  rw [h1]
  simp only [cut]
  rw [← List.append_assoc, ← List.append_assoc]
  have : a.length + w.length = (a ++ w).length := by simp
  rw [this, set_at_length]

/-- A search that runs into the end of the bytes read. -/
theorem strchr_none_end (buf a w : List Nat) (c p : Nat) (hb : buf = a ++ w)
    (hp : p = a.length) (hw : ∀ x ∈ w, x ≠ c ∧ x ≠ 0) :
    strchr buf p c = none := by
  subst hb hp
  unfold strchr
  rw [List.drop_left' rfl]
  exact strchr_from_none_end w c a.length hw

/-- A search that runs into a NUL. -/
theorem strchr_none_nul (buf a w rest : List Nat) (c p : Nat) (hb : buf = a ++ (w ++ 0 :: rest))
    (hp : p = a.length) (hc : c ≠ 0) (hw : ∀ x ∈ w, x ≠ c ∧ x ≠ 0) :
    strchr buf p c = none := by
  subst hb hp
  unfold strchr
  rw [List.drop_left' rfl]
  exact strchr_from_none_nul w rest c a.length hc hw

theorem takeWhile_nonzero_append (w rest : List Nat) (hw : ∀ x ∈ w, x ≠ 0) :
    (w ++ 0 :: rest).takeWhile (fun c => decide (c ≠ 0)) = w := by
  rw [List.takeWhile_append_of_pos (by simpa using hw)]
  simp

theorem takeWhile_nonzero_self (w : List Nat) (hw : ∀ x ∈ w, x ≠ 0) :
    w.takeWhile (fun c => decide (c ≠ 0)) = w := by
  rw [List.takeWhile_eq_self_iff]
  simpa using hw

/-- The C string between offset `a.length` and the next NUL. -/
theorem cstr_mid (buf a w rest : List Nat) (p : Nat) (hb : buf = a ++ (w ++ 0 :: rest))
    (hp : p = a.length) (hw : ∀ x ∈ w, x ≠ 0) : cstr buf p = w := by
  subst hb hp
  unfold cstr
  rw [List.drop_left' rfl]
  exact takeWhile_nonzero_append w rest hw

/-- The C string that runs to the end of the bytes read. -/
theorem cstr_last (buf a w : List Nat) (p : Nat) (hb : buf = a ++ w)
    (hp : p = a.length) (hw : ∀ x ∈ w, x ≠ 0) : cstr buf p = w := by
  subst hb hp
  unfold cstr
  rw [List.drop_left' rfl]
  exact takeWhile_nonzero_self w hw

theorem peek_at (buf a rest : List Nat) (c p : Nat) (hb : buf = a ++ c :: rest)
    (hp : p = a.length) : peek buf p = c := by
  subst hb hp
  exact getD_at_length a rest c

/-- The parse of `:nick!u@h verb par :tr`. -/
theorem parse_user_line_trailing (nick u h verb par tr : List Nat)
    (hnick : ∀ x ∈ nick, x ≠ 0 ∧ x ≠ 32 ∧ x ≠ 33 ∧ x ≠ 64)
    (hu : ∀ x ∈ u, x ≠ 0 ∧ x ≠ 32 ∧ x ≠ 64)
    (hh : ∀ x ∈ h, x ≠ 0 ∧ x ≠ 32)
    (hverb : ∀ x ∈ verb, x ≠ 0 ∧ x ≠ 32)
    (hpar : ∀ x ∈ par, x ≠ 0 ∧ x ≠ 32) (hpar1 : par.head? ≠ some 58) :
    parse (58 :: (nick ++ 33 :: (u ++ 64 :: (h ++ 32 :: (verb ++ 32 :: (par ++ 32 :: 58 :: tr))))))
      = { buf := 58 :: (nick ++ 0 :: (u ++ 0 :: (h ++ 0 :: (verb ++ 0 :: (par ++ 0 :: 0 :: tr))))),
          prefix_nick := some 1,
          prefix_user := some (nick.length + 2),
          prefix_host := some (nick.length + u.length + 3),
          command := some (nick.length + u.length + h.length + 4),
          params := some (nick.length + u.length + h.length + verb.length + 5),
          middle := some (nick.length + u.length + h.length + verb.length + par.length + 6),
          trailing := some (nick.length + u.length + h.length + verb.length + par.length + 7),
          nickname := some SERVER_NICK, mesg := [] } := by
  have n32 : ∀ x ∈ nick, x ≠ 32 ∧ x ≠ 0 := fun x hx => by have := hnick x hx; omega
  have n33 : ∀ x ∈ nick, x ≠ 33 ∧ x ≠ 0 := fun x hx => by have := hnick x hx; omega
  have n64 : ∀ x ∈ nick, x ≠ 64 ∧ x ≠ 0 := fun x hx => by have := hnick x hx; omega
  have u32 : ∀ x ∈ u, x ≠ 32 ∧ x ≠ 0 := fun x hx => by have := hu x hx; omega
  have u64 : ∀ x ∈ u, x ≠ 64 ∧ x ≠ 0 := fun x hx => by have := hu x hx; omega
  have h32 : ∀ x ∈ h, x ≠ 32 ∧ x ≠ 0 := fun x hx => by have := hh x hx; omega
  have v32 : ∀ x ∈ verb, x ≠ 32 ∧ x ≠ 0 := fun x hx => by have := hverb x hx; omega
  have p32 : ∀ x ∈ par, x ≠ 32 ∧ x ≠ 0 := fun x hx => by have := hpar x hx; omega
  unfold parse
  have e0 : parse_init (58 :: (nick ++ 33 :: (u ++ 64 :: (h ++ 32 :: (verb ++ 32 :: (par ++ 32 :: 58 :: tr))))))
      = { buf := 58 :: (nick ++ 33 :: (u ++ 64 :: (h ++ 32 :: (verb ++ 32 :: (par ++ 32 :: 58 :: tr))))),
          prefix_nick := some 1, prefix_user := none, prefix_host := none, command := none,
          params := none, middle := none, trailing := none,
          nickname := some SERVER_NICK, mesg := [] } := by
    simp [parse_init, peek]
  rw [e0]
  simp only [parse_command]
  rw [cut_found _ [] (58 :: (nick ++ 33 :: (u ++ 64 :: h))) (verb ++ 32 :: (par ++ 32 :: 58 :: tr)) 32 0
    (by simp) rfl (by
      simp only [List.forall_mem_cons, List.forall_mem_append]
      exact ⟨by decide, n32, by decide, u32, by decide, h32⟩)]
  simp only [parse_host]
  rw [cut_found _ [58] (nick ++ 33 :: u) (h ++ 0 :: (verb ++ 32 :: (par ++ 32 :: 58 :: tr))) 64 1
    (by simp) rfl (by
      simp only [List.forall_mem_cons, List.forall_mem_append]
      exact ⟨n64, by decide, u64⟩)]
  simp only [parse_user]
  rw [cut_found _ [58] nick (u ++ 0 :: (h ++ 0 :: (verb ++ 32 :: (par ++ 32 :: 58 :: tr)))) 33 1
    (by simp) rfl n33]
  simp only [parse_params]
  rw [cut_found _ (58 :: (nick ++ 0 :: (u ++ 0 :: (h ++ [0])))) verb (par ++ 32 :: 58 :: tr) 32 _
    (by simp) (by simp; omega) v32]
  have hpeek : peek (58 :: (nick ++ 0 :: (u ++ 0 :: (h ++ [0]))) ++ (verb ++ 0 :: (par ++ 32 :: 58 :: tr)))
      ((58 :: (nick ++ 0 :: (u ++ 0 :: (h ++ [0])))).length + verb.length + 1) ≠ 58 := by
    cases par with
    | nil =>
      rw [peek_at _ (58 :: (nick ++ 0 :: (u ++ 0 :: (h ++ 0 :: (verb ++ [0]))))) (58 :: tr) 32 _
        (by simp) (by simp; omega)]
      decide
    | cons x par =>
      rw [peek_at _ (58 :: (nick ++ 0 :: (u ++ 0 :: (h ++ 0 :: (verb ++ [0]))))) (par ++ 32 :: 58 :: tr) x _
        (by simp) (by simp; omega)]
      simpa using hpar1
  simp only [parse_middle]
  rw [if_pos hpeek]
  rw [cut_found _ (58 :: (nick ++ 0 :: (u ++ 0 :: (h ++ 0 :: (verb ++ [0]))))) par (58 :: tr) 32 _
    (by simp) (by simp; omega) p32]
  simp only [parse_trailing]
  rw [cut_found _ (58 :: (nick ++ 0 :: (u ++ 0 :: (h ++ 0 :: (verb ++ 0 :: (par ++ [0])))))) [] tr 58 _
    (by simp) (by simp; omega) (by simp)]
  simp only [Vars.mk.injEq, Option.some.injEq, List.length_cons, List.length_append,
    List.length_nil, List.length_singleton, and_true, true_and]
  refine ⟨by simp, by omega, by omega, by omega, by omega, by omega, by omega⟩

theorem peek_end (buf : List Nat) (p : Nat) (hp : p = buf.length) : peek buf p = 0 := by
  subst hp
  simp [peek]

/-- The parse of `:nick!u@h verb par`. -/
theorem parse_user_line_plain (nick u h verb par : List Nat)
    (hnick : ∀ x ∈ nick, x ≠ 0 ∧ x ≠ 32 ∧ x ≠ 33 ∧ x ≠ 64)
    (hu : ∀ x ∈ u, x ≠ 0 ∧ x ≠ 32 ∧ x ≠ 64)
    (hh : ∀ x ∈ h, x ≠ 0 ∧ x ≠ 32)
    (hverb : ∀ x ∈ verb, x ≠ 0 ∧ x ≠ 32)
    (hpar : ∀ x ∈ par, x ≠ 0 ∧ x ≠ 32) (hpar1 : par.head? ≠ some 58) :
    parse (58 :: (nick ++ 33 :: (u ++ 64 :: (h ++ 32 :: (verb ++ 32 :: par)))))
      = { buf := 58 :: (nick ++ 0 :: (u ++ 0 :: (h ++ 0 :: (verb ++ 0 :: par)))),
          prefix_nick := some 1,
          prefix_user := some (nick.length + 2),
          prefix_host := some (nick.length + u.length + 3),
          command := some (nick.length + u.length + h.length + 4),
          params := some (nick.length + u.length + h.length + verb.length + 5),
          middle := none,
          trailing := none,
          nickname := some SERVER_NICK, mesg := [] } := by
  have n32 : ∀ x ∈ nick, x ≠ 32 ∧ x ≠ 0 := fun x hx => by have := hnick x hx; omega
  have n33 : ∀ x ∈ nick, x ≠ 33 ∧ x ≠ 0 := fun x hx => by have := hnick x hx; omega
  have n64 : ∀ x ∈ nick, x ≠ 64 ∧ x ≠ 0 := fun x hx => by have := hnick x hx; omega
  have u32 : ∀ x ∈ u, x ≠ 32 ∧ x ≠ 0 := fun x hx => by have := hu x hx; omega
  have u64 : ∀ x ∈ u, x ≠ 64 ∧ x ≠ 0 := fun x hx => by have := hu x hx; omega
  have h32 : ∀ x ∈ h, x ≠ 32 ∧ x ≠ 0 := fun x hx => by have := hh x hx; omega
  have v32 : ∀ x ∈ verb, x ≠ 32 ∧ x ≠ 0 := fun x hx => by have := hverb x hx; omega
  have p32 : ∀ x ∈ par, x ≠ 32 ∧ x ≠ 0 := fun x hx => by have := hpar x hx; omega
  unfold parse
  have e0 : parse_init (58 :: (nick ++ 33 :: (u ++ 64 :: (h ++ 32 :: (verb ++ 32 :: par)))))
      = { buf := 58 :: (nick ++ 33 :: (u ++ 64 :: (h ++ 32 :: (verb ++ 32 :: par)))),
          prefix_nick := some 1, prefix_user := none, prefix_host := none, command := none,
          params := none, middle := none, trailing := none,
          nickname := some SERVER_NICK, mesg := [] } := by
    simp [parse_init, peek]
  rw [e0]
  simp only [parse_command]
  rw [cut_found _ [] (58 :: (nick ++ 33 :: (u ++ 64 :: h))) (verb ++ 32 :: par) 32 0
    (by simp) rfl (by
      simp only [List.forall_mem_cons, List.forall_mem_append]
      exact ⟨by decide, n32, by decide, u32, by decide, h32⟩)]
  simp only [parse_host]
  rw [cut_found _ [58] (nick ++ 33 :: u) (h ++ 0 :: (verb ++ 32 :: par)) 64 1
    (by simp) rfl (by
      simp only [List.forall_mem_cons, List.forall_mem_append]
      exact ⟨n64, by decide, u64⟩)]
  simp only [parse_user]
  rw [cut_found _ [58] nick (u ++ 0 :: (h ++ 0 :: (verb ++ 32 :: par))) 33 1
    (by simp) rfl n33]
  simp only [parse_params]
  rw [cut_found _ (58 :: (nick ++ 0 :: (u ++ 0 :: (h ++ [0])))) verb par 32 _
    (by simp) (by simp; omega) v32]
  have hpeek : peek (58 :: (nick ++ 0 :: (u ++ 0 :: (h ++ [0]))) ++ (verb ++ 0 :: par))
      ((58 :: (nick ++ 0 :: (u ++ 0 :: (h ++ [0])))).length + verb.length + 1) ≠ 58 := by
    cases par with
    | nil =>
      rw [peek_end _ _ (by simp; omega)]
      decide
    | cons x par =>
      rw [peek_at _ (58 :: (nick ++ 0 :: (u ++ 0 :: (h ++ 0 :: (verb ++ [0]))))) par x _
        (by simp) (by simp; omega)]
      simpa using hpar1
  simp only [parse_middle]
  rw [if_pos hpeek]
  rw [strchr_none_end _ (58 :: (nick ++ 0 :: (u ++ 0 :: (h ++ 0 :: (verb ++ [0]))))) par 32 _
    (by simp) (by simp; omega) p32]
  simp only [parse_trailing, cut]
  simp only [Vars.mk.injEq, Option.some.injEq, List.length_cons, List.length_append,
    List.length_nil, List.length_singleton, and_true, true_and]
  refine ⟨by simp, by omega, by omega, by omega, by omega⟩

/-- A list that holds `c` splits at the first `c`. -/
theorem split_first (l : List Nat) (c : Nat) (hc : c ∈ l) :
    ∃ a b, l = a ++ c :: b ∧ (∀ x ∈ a, x ≠ c) ∧ (∀ x ∈ a, x ∈ l) ∧ (∀ x ∈ b, x ∈ l) := by
  induction l with
  | nil => simp at hc
  | cons y l ih =>
    by_cases hy : y = c
    · exact ⟨[], l, by simp [hy], by simp, by simp, fun x hx => List.mem_cons_of_mem _ hx⟩
    · have hc2 : c ∈ l := by
        rcases List.mem_cons.mp hc with h | h
        · exact absurd h.symm hy
        · exact h
      obtain ⟨a, b, h1, h2, h3, h4⟩ := ih hc2
      refine ⟨y :: a, b, by simp [h1], ?_, ?_, ?_⟩
      · intro x hx
        rcases List.mem_cons.mp hx with h | h
        · rw [h]; exact hy
        · exact h2 x h
      · intro x hx
        rcases List.mem_cons.mp hx with h | h
        · rw [h]; exact List.mem_cons_self _ _
        · exact List.mem_cons_of_mem _ (h3 x h)
      · intro x hx
        exact List.mem_cons_of_mem _ (h4 x hx)

/-- The fields of `:nick!u@h verb par :tr`. -/
theorem fields_user_line_trailing (nick u h verb par tr : List Nat)
    (hnick : ∀ x ∈ nick, x ≠ 0 ∧ x ≠ 32 ∧ x ≠ 33 ∧ x ≠ 64)
    (hu : ∀ x ∈ u, x ≠ 0 ∧ x ≠ 32 ∧ x ≠ 64)
    (hh : ∀ x ∈ h, x ≠ 0 ∧ x ≠ 32)
    (hverb : ∀ x ∈ verb, x ≠ 0 ∧ x ≠ 32)
    (hpar : ∀ x ∈ par, x ≠ 0 ∧ x ≠ 32) (hpar1 : par.head? ≠ some 58)
    (htr : ∀ x ∈ tr, x ≠ 0) :
    fields (parse (58 :: (nick ++ 33 :: (u ++ 64 :: (h ++ 32 :: (verb ++ 32 :: (par ++ 32 :: 58 :: tr)))))))
      = [some nick, some u, some h, some verb, some par, some [], some tr] := by
  rw [parse_user_line_trailing nick u h verb par tr hnick hu hh hverb hpar hpar1]
  simp only [fields, field, Option.map_some']
  rw [cstr_mid _ [58] nick (u ++ 0 :: (h ++ 0 :: (verb ++ 0 :: (par ++ 0 :: 0 :: tr)))) 1
      (by simp) rfl (fun x hx => (hnick x hx).1),
    cstr_mid _ (58 :: (nick ++ [0])) u (h ++ 0 :: (verb ++ 0 :: (par ++ 0 :: 0 :: tr))) _
      (by simp) (by simp) (fun x hx => (hu x hx).1),
    cstr_mid _ (58 :: (nick ++ 0 :: (u ++ [0]))) h (verb ++ 0 :: (par ++ 0 :: 0 :: tr)) _
      (by simp) (by simp; omega) (fun x hx => (hh x hx).1),
    cstr_mid _ (58 :: (nick ++ 0 :: (u ++ 0 :: (h ++ [0])))) verb (par ++ 0 :: 0 :: tr) _
      (by simp) (by simp; omega) (fun x hx => (hverb x hx).1),
    cstr_mid _ (58 :: (nick ++ 0 :: (u ++ 0 :: (h ++ 0 :: (verb ++ [0]))))) par (0 :: tr) _
      (by simp) (by simp; omega) (fun x hx => (hpar x hx).1),
    cstr_mid _ (58 :: (nick ++ 0 :: (u ++ 0 :: (h ++ 0 :: (verb ++ 0 :: (par ++ [0])))))) [] tr _
      (by simp) (by simp; omega) (by simp),
    cstr_last _ (58 :: (nick ++ 0 :: (u ++ 0 :: (h ++ 0 :: (verb ++ 0 :: (par ++ [0, 0])))))) tr _
      (by simp) (by simp; omega) htr]

/-- The fields of `:nick!u@h verb par`. -/
theorem fields_user_line_plain (nick u h verb par : List Nat)
    (hnick : ∀ x ∈ nick, x ≠ 0 ∧ x ≠ 32 ∧ x ≠ 33 ∧ x ≠ 64)
    (hu : ∀ x ∈ u, x ≠ 0 ∧ x ≠ 32 ∧ x ≠ 64)
    (hh : ∀ x ∈ h, x ≠ 0 ∧ x ≠ 32)
    (hverb : ∀ x ∈ verb, x ≠ 0 ∧ x ≠ 32)
    (hpar : ∀ x ∈ par, x ≠ 0 ∧ x ≠ 32) (hpar1 : par.head? ≠ some 58) :
    fields (parse (58 :: (nick ++ 33 :: (u ++ 64 :: (h ++ 32 :: (verb ++ 32 :: par))))))
      = [some nick, some u, some h, some verb, some par, none, none] := by
  rw [parse_user_line_plain nick u h verb par hnick hu hh hverb hpar hpar1]
  simp only [fields, field, Option.map_some', Option.map_none']
  rw [cstr_mid _ [58] nick (u ++ 0 :: (h ++ 0 :: (verb ++ 0 :: par))) 1
      (by simp) rfl (fun x hx => (hnick x hx).1),
    cstr_mid _ (58 :: (nick ++ [0])) u (h ++ 0 :: (verb ++ 0 :: par)) _
      (by simp) (by simp) (fun x hx => (hu x hx).1),
    cstr_mid _ (58 :: (nick ++ 0 :: (u ++ [0]))) h (verb ++ 0 :: par) _
      (by simp) (by simp; omega) (fun x hx => (hh x hx).1),
    cstr_mid _ (58 :: (nick ++ 0 :: (u ++ 0 :: (h ++ [0])))) verb par _
      (by simp) (by simp; omega) (fun x hx => (hverb x hx).1),
    cstr_last _ (58 :: (nick ++ 0 :: (u ++ 0 :: (h ++ 0 :: (verb ++ [0]))))) par _
      (by simp) (by simp; omega) (fun x hx => (hpar x hx).1)]

theorem rejoin_of_fields_trailing (v : Vars) (nick u h verb par m t : List Nat)
    (hf : fields v = [some nick, some u, some h, some verb, some par, some m, some t]) :
    rejoin v = some ([58] ++ nick ++ [33] ++ u ++ [64] ++ h ++ [32] ++ verb ++ [32] ++ par ++
      ([32] ++ m ++ [58] ++ t)) := by
  simp only [fields, List.cons.injEq, and_true] at hf
  obtain ⟨h1, h2, h3, h4, h5, h6, h7⟩ := hf
  simp only [rejoin, h1, h2, h3, h4, h5, h6, h7]

theorem rejoin_of_fields_plain (v : Vars) (nick u h verb par : List Nat)
    (hf : fields v = [some nick, some u, some h, some verb, some par, none, none]) :
    rejoin v = some ([58] ++ nick ++ [33] ++ u ++ [64] ++ h ++ [32] ++ verb ++ [32] ++ par) := by
  simp only [fields, List.cons.injEq, and_true] at hf
  obtain ⟨h1, h2, h3, h4, h5, h6, h7⟩ := hf
  simp only [rejoin, h1, h2, h3, h4, h5, h6, h7]

/-- A list splits in one way only at the first occurrence of a byte. -/
theorem split_unique (c : Nat) (a a' b b' : List Nat) (h : a ++ c :: b = a' ++ c :: b')
    (ha : ∀ x ∈ a, x ≠ c) (ha' : ∀ x ∈ a', x ≠ c) : a = a' ∧ b = b' := by
  induction a generalizing a' with
  | nil =>
    cases a' with
    | nil => exact ⟨rfl, by simpa using h⟩
    | cons y a' =>
      have hy : c = y := by simpa using (List.cons.inj h).1
      exact absurd hy.symm (ha' y (List.mem_cons_self _ _))
  | cons x a ih =>
    cases a' with
    | nil =>
      have hx : x = c := by simpa using (List.cons.inj h).1
      exact absurd hx (ha x (List.mem_cons_self _ _))
    | cons y a' =>
      have h1 := List.cons.inj h
      obtain ⟨e1, e2⟩ := ih a' h1.2 (fun z hz => ha z (List.mem_cons_of_mem _ hz))
        (fun z hz => ha' z (List.mem_cons_of_mem _ hz))
      exact ⟨by rw [h1.1, e1], e2⟩

/-- C7: parser round trip.  For every line
`':' nick '!' user '@' host ' ' verb ' ' params [' :' trailing]` (a C string: no
NUL byte) whose nick, user, host, verb and params are free of spaces, whose nick
is free of `!` and `@`, and whose params does not start with `:`, the parser
yields exactly these fields: the prefix nick `nick`; the user `u` and the host
`h`, the two parts of `user '@' host` around its first `@` (they are `user` and
`host` themselves when `user` holds no `@`); the command `verb`; the params
`params`; and, when the line has a trailing, the (empty) middle and the
trailing `trailing`, else neither a middle nor a trailing.  Re-joining the
fields with the separators that were cut gives back the line byte for byte. -/
theorem parse_round_trip (nick user host verb params : List Nat) (trailing : Option (List Nat))
    (hnick : ∀ x ∈ nick, x ≠ 0 ∧ x ≠ 32 ∧ x ≠ 33 ∧ x ≠ 64)
    (huser : ∀ x ∈ user, x ≠ 0 ∧ x ≠ 32)
    (hhost : ∀ x ∈ host, x ≠ 0 ∧ x ≠ 32)
    (hverb : ∀ x ∈ verb, x ≠ 0 ∧ x ≠ 32)
    (hparams : ∀ x ∈ params, x ≠ 0 ∧ x ≠ 32) (hcolon : params.head? ≠ some 58)
    (htrailing : ∀ x ∈ trailing.getD [], x ≠ 0) :
    ∃ u h, u ++ 64 :: h = user ++ 64 :: host ∧ (∀ x ∈ u, x ≠ 64) ∧
      ((∀ x ∈ user, x ≠ 64) → u = user ∧ h = host) ∧
      fields (parse (wire_line nick user host verb params trailing))
        = [some nick, some u, some h, some verb, some params,
           trailing.map (fun _ => []), trailing] ∧
      rejoin (parse (wire_line nick user host verb params trailing))
        = some (wire_line nick user host verb params trailing) := by
  obtain ⟨u, h, huh, hu64, hul, hhl⟩ := split_first (user ++ 64 :: host) 64 (by simp)
  have hmem : ∀ x ∈ user ++ 64 :: host, x ≠ 0 ∧ x ≠ 32 := by
    intro x hx
    rcases List.mem_append.mp hx with h1 | h1
    · exact huser x h1
    · rcases List.mem_cons.mp h1 with h2 | h2
      · rw [h2]; decide
      · exact hhost x h2
  have hu : ∀ x ∈ u, x ≠ 0 ∧ x ≠ 32 ∧ x ≠ 64 := fun x hx =>
    ⟨(hmem x (hul x hx)).1, (hmem x (hul x hx)).2, hu64 x hx⟩
  have hh : ∀ x ∈ h, x ≠ 0 ∧ x ≠ 32 := fun x hx => hmem x (hhl x hx)
  refine ⟨u, h, huh.symm, hu64, fun hu' => split_unique 64 u user h host huh.symm hu64 hu', ?_⟩
  cases trailing with
  | none =>
    have hl : wire_line nick user host verb params none
        = 58 :: (nick ++ 33 :: (u ++ 64 :: (h ++ 32 :: (verb ++ 32 :: params)))) := by
      have : user ++ 64 :: (host ++ 32 :: (verb ++ 32 :: params))
          = u ++ 64 :: (h ++ 32 :: (verb ++ 32 :: params)) := by
        have := congrArg (fun l => l ++ 32 :: (verb ++ 32 :: params)) huh
        simpa using this
      simp [wire_line, this]
    have hf := fields_user_line_plain nick u h verb params hnick hu hh hverb hparams hcolon
    rw [hl]
    refine ⟨hf, ?_⟩
    rw [rejoin_of_fields_plain _ _ _ _ _ _ hf]
    simp
  | some tr =>
    have hl : wire_line nick user host verb params (some tr)
        = 58 :: (nick ++ 33 :: (u ++ 64 :: (h ++ 32 :: (verb ++ 32 :: (params ++ 32 :: 58 :: tr))))) := by
      have : user ++ 64 :: (host ++ 32 :: (verb ++ 32 :: (params ++ 32 :: 58 :: tr)))
          = u ++ 64 :: (h ++ 32 :: (verb ++ 32 :: (params ++ 32 :: 58 :: tr))) := by
        have := congrArg (fun l => l ++ 32 :: (verb ++ 32 :: (params ++ 32 :: 58 :: tr))) huh
        simpa using this
      simp [wire_line, this]
    have hf := fields_user_line_trailing nick u h verb params tr hnick hu hh hverb hparams hcolon
      htrailing
    rw [hl]
    refine ⟨hf, ?_⟩
    rw [rejoin_of_fields_trailing _ _ _ _ _ _ _ _ hf]
    simp

theorem parse_round_trip_witness :
    ∃ u h, u ++ 64 :: h = bytes "b" ++ 64 :: bytes "h" ∧ (∀ x ∈ u, x ≠ 64) ∧
      ((∀ x ∈ bytes "b", x ≠ 64) → u = bytes "b" ∧ h = bytes "h") ∧
      fields (parse (wire_line (bytes "bob") (bytes "b") (bytes "h") (bytes "PRIVMSG")
          (bytes "#chan") (some (bytes "hi: there"))))
        = [some (bytes "bob"), some u, some h, some (bytes "PRIVMSG"), some (bytes "#chan"),
           (some (bytes "hi: there")).map (fun _ => []), some (bytes "hi: there")] ∧
      rejoin (parse (wire_line (bytes "bob") (bytes "b") (bytes "h") (bytes "PRIVMSG")
          (bytes "#chan") (some (bytes "hi: there"))))
        = some (wire_line (bytes "bob") (bytes "b") (bytes "h") (bytes "PRIVMSG")
          (bytes "#chan") (some (bytes "hi: there"))) :=
  parse_round_trip (bytes "bob") (bytes "b") (bytes "h") (bytes "PRIVMSG") (bytes "#chan")
    (some (bytes "hi: there")) (by decide) (by decide) (by decide) (by decide) (by decide)
    (by decide) (by decide)

/-- C8: at the line `:srv 333 me #chan a:b 1` the parser reports the trailing
`b 1` (and the middle `#chan a`): the `:` inside the word `a:b` is taken for the
start of the trailing. -/
theorem parse_colon_inside_word :
    fields (parse (bytes ":srv 333 me #chan a:b 1"))
      = [some (bytes "srv"), none, none, some (bytes "333"), some (bytes "me"),
         some (bytes "#chan a"), some (bytes "b 1")] := by
  decide

/-! ## Theorems: lines without a prefix -/

theorem strchr_from_some (l : List Nat) (p c q : Nat) (h : strchr_from l p c = some q) :
    ∃ w rest, l = w ++ c :: rest ∧ q = p + w.length ∧ ∀ x ∈ w, x ≠ c ∧ x ≠ 0 := by
  induction l generalizing p with
  | nil => simp [strchr_from] at h
  | cons b l ih =>
    rw [strchr_from] at h
    by_cases hb : b = c
    · rw [if_pos hb] at h
      refine ⟨[], l, by simp [hb], by simpa using (Option.some.inj h).symm, by simp⟩
    · rw [if_neg hb] at h
      by_cases h0 : b = 0
      · simp [h0] at h
      · rw [if_neg h0] at h
        obtain ⟨w, rest, h1, h2, h3⟩ := ih (p + 1) h
        refine ⟨b :: w, rest, by simp [h1], by simp [h2]; omega, ?_⟩
        intro x hx
        rcases List.mem_cons.mp hx with hx | hx
        · rw [hx]; exact ⟨hb, h0⟩
        · exact h3 x hx

theorem strchr_from_none (l : List Nat) (p c : Nat) (h : strchr_from l p c = none) :
    ∀ x ∈ l.takeWhile (fun c => decide (c ≠ 0)), x ≠ c := by
  induction l generalizing p with
  | nil => simp
  | cons b l ih =>
    rw [strchr_from] at h
    by_cases hb : b = c
    · simp [hb] at h
    · rw [if_neg hb] at h
      by_cases h0 : b = 0
      · simp [h0, List.takeWhile]
      · rw [if_neg h0] at h
        intro x hx
        rw [List.takeWhile_cons, if_pos (by simpa using h0)] at hx
        rcases List.mem_cons.mp hx with hx | hx
        · rw [hx]; exact hb
        · exact ih (p + 1) h x hx

/-- What a successful `strchr` says about the buffer. -/
theorem strchr_some (buf : List Nat) (p c q : Nat) (h : strchr buf p c = some q) :
    ∃ a w rest, buf = a ++ (w ++ c :: rest) ∧ p = a.length ∧ q = p + w.length ∧
      ∀ x ∈ w, x ≠ c ∧ x ≠ 0 := by
  unfold strchr at h
  obtain ⟨w, rest, h1, h2, h3⟩ := strchr_from_some _ _ _ _ h
  have hlt : p < buf.length := by
    by_contra hge
    rw [List.drop_eq_nil_of_le (by omega)] at h1
    simp at h1
  refine ⟨buf.take p, w, rest, ?_, ?_, h2, h3⟩
  · rw [← h1, List.take_append_drop]
  · rw [List.length_take]; omega

theorem Seg.cstr_eq {buf : List Nat} {p : Nat} {w : List Nat} (h : Seg buf p w) :
    cstr buf p = w := by
  obtain ⟨a, rest, hb, hp, hw⟩ := h
  exact cstr_mid buf a w rest p hb hp hw

/-- Writing a NUL at or after the terminator leaves the string alone. -/
theorem Seg.set {buf : List Nat} {p : Nat} {w : List Nat} (h : Seg buf p w) (j : Nat)
    (hj : p + w.length ≤ j) : Seg (buf.set j 0) p w := by
  obtain ⟨a, rest, hb, hp, hw⟩ := h
  subst hb hp
  refine ⟨a, (0 :: rest).set (j - (a.length + w.length)) 0 |>.tail, ?_, rfl, hw⟩
  rw [← List.append_assoc, List.set_append, if_neg (by simp; omega)]
  rw [List.append_assoc]
  congr 2
  simp only [List.length_append]
  cases hk : j - (a.length + w.length) with
  | zero => simp
  | succ k => simp

/-- The cut at the byte `strchr` found leaves, at the start of the search, the
bytes before that byte. -/
theorem cut_seg (buf : List Nat) (p c q : Nat) (h : strchr buf p c = some q) :
    Seg (buf.set q 0) p ((cstr buf p).takeWhile (fun x => decide (x ≠ c))) ∧
      q = p + ((cstr buf p).takeWhile (fun x => decide (x ≠ c))).length := by
  obtain ⟨a, w, rest, hb, hp, hq, hw⟩ := strchr_some buf p c q h
  have hc : c ≠ 0 ∨ c = 0 := by omega
  have hw0 : ∀ x ∈ w, x ≠ 0 := fun x hx => (hw x hx).2
  have htw : (cstr buf p).takeWhile (fun x => decide (x ≠ c)) = w := by
    subst hb hp
    unfold cstr
    rw [List.drop_left' rfl, List.takeWhile_append_of_pos (by simpa using hw0)]
    rw [List.takeWhile_append_of_pos (by simpa using fun x hx => (hw x hx).1)]
    by_cases h0 : c = 0
    · simp [h0, List.takeWhile]
    · simp [h0, List.takeWhile]
  rw [htw]
  refine ⟨⟨a, rest, ?_, hp, hw0⟩, hq⟩
  subst hb hp hq
  rw [← List.append_assoc, ← List.append_assoc]
  have : a.length + w.length = (a ++ w).length := by simp
  rw [this, set_at_length]

theorem strchr_ge (buf : List Nat) (p c q : Nat) (h : strchr buf p c = some q) : p ≤ q := by
  obtain ⟨a, w, rest, _, _, hq, _⟩ := strchr_some buf p c q h
  omega

theorem strchr_none (buf : List Nat) (p c : Nat) (h : strchr buf p c = none) :
    (cstr buf p).takeWhile (fun x => decide (x ≠ c)) = cstr buf p := by
  rw [List.takeWhile_eq_self_iff]
  intro x hx
  have := strchr_from_none _ _ _ h x hx
  simpa using this

theorem parse_middle_keeps (v : Vars) (p0 : Nat) (w : List Nat) (pp : Nat)
    (hseg : Seg v.buf p0 w) (hp : v.params = some pp) (hle : p0 + w.length ≤ pp) :
    Seg (parse_middle v).buf p0 w ∧ (parse_middle v).prefix_nick = v.prefix_nick ∧
      (parse_middle v).prefix_user = v.prefix_user ∧
      (parse_middle v).prefix_host = v.prefix_host ∧
      (parse_middle v).command = v.command ∧
      ∀ m, (parse_middle v).middle = some m → p0 + w.length ≤ m := by
  have e : parse_middle v = if peek v.buf pp ≠ 58 then
      { v with buf := (cut v.buf (strchr v.buf pp 32)).1,
               middle := (cut v.buf (strchr v.buf pp 32)).2 }
      else { v with middle := some pp } := by
    unfold parse_middle
    rw [hp]
  rw [e]
  by_cases hk : peek v.buf pp ≠ 58
  · rw [if_pos hk]
    cases hs : strchr v.buf pp 32 with
    | none =>
      refine ⟨hseg, rfl, rfl, rfl, rfl, ?_⟩
      intro m hm
      simp [cut] at hm
    | some q =>
      have := strchr_ge _ _ _ _ hs
      refine ⟨hseg.set q (by omega), rfl, rfl, rfl, rfl, ?_⟩
      intro m hm
      simp only [cut, Option.some.injEq] at hm
      omega
  · rw [if_neg hk]
    refine ⟨hseg, rfl, rfl, rfl, rfl, ?_⟩
    intro m hm
    simp only [Option.some.injEq] at hm
    omega

theorem parse_trailing_keeps (v : Vars) (p0 : Nat) (w : List Nat)
    (hseg : Seg v.buf p0 w) (hm : ∀ m, v.middle = some m → p0 + w.length ≤ m) :
    Seg (parse_trailing v).buf p0 w ∧ (parse_trailing v).prefix_nick = v.prefix_nick ∧
      (parse_trailing v).prefix_user = v.prefix_user ∧
      (parse_trailing v).prefix_host = v.prefix_host ∧
      (parse_trailing v).command = v.command := by
  cases hmid : v.middle with
  | none =>
    have e : parse_trailing v = v := by
      unfold parse_trailing
      rw [hmid]
    rw [e]
    exact ⟨hseg, rfl, rfl, rfl, rfl⟩
  | some m =>
    have e : parse_trailing v =
        { v with buf := (cut v.buf (strchr v.buf m 58)).1,
                 trailing := (cut v.buf (strchr v.buf m 58)).2 } := by
      unfold parse_trailing
      rw [hmid]
    rw [e]
    have hle := hm m hmid
    cases hs : strchr v.buf m 58 with
    | none => exact ⟨hseg, rfl, rfl, rfl, rfl⟩
    | some q =>
      have := strchr_ge _ _ _ _ hs
      exact ⟨hseg.set q (by omega), rfl, rfl, rfl, rfl⟩

/-- C9: for every line that does not begin with `:` (the line being the C
string the buffer holds), the parser yields no prefix, no prefix user and no
prefix host, and a command equal to the first space-delimited token of the
line. -/
theorem parse_no_prefix (input : List Nat) (h : peek input 0 ≠ 58) :
    (parse input).prefix_nick = none ∧ (parse input).prefix_user = none ∧
      (parse input).prefix_host = none ∧
      field (parse input) (parse input).command = some (first_token (cstr input 0)) := by
  have e0 : parse_user (parse_host (parse_command (parse_init input)))
      = { buf := input, prefix_nick := none, prefix_user := none, prefix_host := none,
          command := some 0, params := none, middle := none, trailing := none,
          nickname := some SERVER_NICK, mesg := [] } := by
    simp [parse_init, h, parse_command, parse_host, parse_user]
  unfold parse
  rw [e0]
  cases hs : strchr input 0 32 with
  | none =>
    have e1 : parse_trailing (parse_middle (parse_params
        { buf := input, prefix_nick := none, prefix_user := none, prefix_host := none,
          command := some 0, params := none, middle := none, trailing := none,
          nickname := some SERVER_NICK, mesg := [] }))
        = { buf := input, prefix_nick := none, prefix_user := none, prefix_host := none,
            command := some 0, params := none, middle := none, trailing := none,
            nickname := some SERVER_NICK, mesg := [] } := by
      simp [parse_params, hs, cut, parse_middle, parse_trailing]
    rw [e1]
    refine ⟨rfl, rfl, rfl, ?_⟩
    simp only [field, Option.map_some', first_token]
    rw [strchr_none _ _ _ hs]
  | some q =>
    have e1 : parse_params
        { buf := input, prefix_nick := none, prefix_user := none, prefix_host := none,
          command := some 0, params := none, middle := none, trailing := none,
          nickname := some SERVER_NICK, mesg := [] }
        = { buf := input.set q 0, prefix_nick := none, prefix_user := none,
            prefix_host := none, command := some 0, params := some (q + 1), middle := none,
            trailing := none, nickname := some SERVER_NICK, mesg := [] } := by
      simp [parse_params, hs, cut]
    rw [e1]
    obtain ⟨hseg, hq⟩ := cut_seg input 0 32 q hs
    have hm := parse_middle_keeps
        { buf := input.set q 0, prefix_nick := none, prefix_user := none, prefix_host := none,
          command := some 0, params := some (q + 1), middle := none, trailing := none,
          nickname := some SERVER_NICK, mesg := [] } 0 _ (q + 1) hseg rfl (by omega)
    obtain ⟨hseg2, h1, h2, h3, h4, h5⟩ := hm
    obtain ⟨hseg3, k1, k2, k3, k4⟩ := parse_trailing_keeps _ 0 _ hseg2 h5
    refine ⟨by rw [k1, h1], by rw [k2, h2], by rw [k3, h3], ?_⟩
    rw [k4, h4]
    simp only [field, Option.map_some', first_token]
    rw [hseg3.cstr_eq]

theorem parse_no_prefix_witness :
    peek (bytes "PING :irc.example.org") 0 ≠ 58 ∧
      (parse (bytes "PING :irc.example.org")).prefix_nick = none ∧
      (parse (bytes "PING :irc.example.org")).prefix_user = none ∧
      (parse (bytes "PING :irc.example.org")).prefix_host = none ∧
      field (parse (bytes "PING :irc.example.org")) (parse (bytes "PING :irc.example.org")).command
        = some (first_token (cstr (bytes "PING :irc.example.org") 0)) :=
  ⟨by decide, parse_no_prefix (bytes "PING :irc.example.org") (by decide)⟩

/-! ## Theorems: conversation set -/

theorem unlink_sublist (n : List Nat) (l : List Channel) : (unlink n l).Sublist l := by
  induction l with
  | nil => exact List.Sublist.refl _
  | cons r rest ih =>
    unfold unlink
    by_cases h : r.name = n
    · rw [if_pos h]; exact List.sublist_cons_self _ _
    · rw [if_neg h]; exact ih.cons₂ _

theorem unlink_not_mem (n : List Nat) (l : List Channel) (hl : (l.map Channel.name).Nodup) :
    n ∉ (unlink n l).map Channel.name := by
  induction l with
  | nil => simp [unlink]
  | cons r rest ih =>
    rw [List.map_cons, List.nodup_cons] at hl
    unfold unlink
    by_cases h : r.name = n
    · rw [if_pos h, ← h]; exact hl.1
    · rw [if_neg h, List.map_cons, List.mem_cons]
      intro hc
      rcases hc with hc | hc
      · exact h hc.symm
      · exact ih hl.2 hc

theorem remove_channel_invariant (s : State) (channel : List Nat)
    (h : set_invariant s.channels) : set_invariant (remove_channel s channel).channels := by
  unfold remove_channel
  exact ⟨h.1.sublist ((unlink_sublist _ _).map _),
    fun c hc => h.2 c ((unlink_sublist _ _).subset hc)⟩

/-- The outcomes of `add_channel`, case by case. -/
theorem add_channel_cases (env : Env) (s : State) (channel : List Nat) :
    ((to_irc_lower channel BUF_CHAN_LEN).1 = false ∧
        add_channel env s channel = .ok (s, false)) ∨
      ((to_irc_lower channel BUF_CHAN_LEN).1 = true ∧
        lookup (to_irc_lower channel BUF_CHAN_LEN).2 s.channels = true ∧
        add_channel env s channel = .ok (s, true)) ∨
      add_channel env s channel = .exit ∨
      ((to_irc_lower channel BUF_CHAN_LEN).1 = true ∧
        ∃ fd, add_channel env s channel = .ok
          ({ s with channels := { fd := fd, name := (to_irc_lower channel BUF_CHAN_LEN).2 } ::
              unlink (to_irc_lower channel BUF_CHAN_LEN).2 s.channels }, true)) := by
  unfold add_channel
  simp only
  by_cases h1 : (to_irc_lower channel BUF_CHAN_LEN).1 = false
  · rw [if_pos h1]; exact Or.inl ⟨h1, rfl⟩
  · rw [if_neg h1]
    have h1t : (to_irc_lower channel BUF_CHAN_LEN).1 = true := by simpa using h1
    by_cases h2 : (if lookup (to_irc_lower channel BUF_CHAN_LEN).2 s.channels = true then
        env.isdir (to_irc_lower channel BUF_CHAN_LEN).2
        else lookup (to_irc_lower channel BUF_CHAN_LEN).2 s.channels) = true
    · rw [if_pos h2]
      refine Or.inr (Or.inl ⟨h1t, ?_, rfl⟩)
      by_contra hl
      rw [if_neg hl] at h2
      exact hl h2
    · rw [if_neg h2]
      by_cases h3 : env.calloc_ok = false
      · rw [if_pos h3]; exact Or.inr (Or.inr (Or.inl rfl))
      · rw [if_neg h3]
        cases h4 : env.open_channel (to_irc_lower channel BUF_CHAN_LEN).2 with
        | none => exact Or.inr (Or.inr (Or.inl rfl))
        | some fd =>
          by_cases h5 : fd = -1
          · refine Or.inr (Or.inr (Or.inl ?_))
            simp only [if_pos h5]
          · refine Or.inr (Or.inr (Or.inr ⟨h1t, fd, ?_⟩))
            simp only [if_neg h5]
            have hcan := to_irc_lower_canonical channel
            have hlen := to_irc_lower_length channel
            have htake : (to_irc_lower channel BUF_CHAN_LEN).2.take (BUF_CHAN_LEN - 1)
                = (to_irc_lower channel BUF_CHAN_LEN).2 :=
              List.take_of_length_le (by simpa [BUF_CHAN_LEN] using hlen)
            simp only [remove_channel, hcan, htake]

/-- After a call of `add_channel` that returned, with a name `to_irc_lower`
accepts, the list holds an entry with the canonical name. -/
theorem add_channel_adds (env : Env) (s s1 : State) (channel : List Nat) (b : Bool)
    (ha : add_channel env s channel = .ok (s1, b))
    (hacc : (to_irc_lower channel BUF_CHAN_LEN).1 = true) :
    b = true ∧ lookup (to_irc_lower channel BUF_CHAN_LEN).2 s1.channels = true := by
  rcases add_channel_cases env s channel with ⟨h1, _⟩ | ⟨_, h2, hc⟩ | hc | ⟨_, fd, hc⟩
  · rw [hacc] at h1; simp at h1
  · rw [hc] at ha
    simp only [Res.ok.injEq, Prod.mk.injEq] at ha
    rw [← ha.1, ← ha.2]
    exact ⟨rfl, h2⟩
  · rw [hc] at ha; simp at ha
  · rw [hc] at ha
    simp only [Res.ok.injEq, Prod.mk.injEq] at ha
    rw [← ha.1, ← ha.2]
    exact ⟨rfl, by simp [lookup]⟩

theorem add_channel_invariant (env : Env) (s s1 : State) (channel : List Nat) (b : Bool)
    (h : set_invariant s.channels) (ha : add_channel env s channel = .ok (s1, b)) :
    set_invariant s1.channels := by
  rcases add_channel_cases env s channel with ⟨_, hc⟩ | ⟨_, _, hc⟩ | hc | ⟨_, fd, hc⟩
  · rw [hc] at ha
    simp only [Res.ok.injEq, Prod.mk.injEq] at ha
    rw [← ha.1]; exact h
  · rw [hc] at ha
    simp only [Res.ok.injEq, Prod.mk.injEq] at ha
    rw [← ha.1]; exact h
  · rw [hc] at ha; simp at ha
  · rw [hc] at ha
    simp only [Res.ok.injEq, Prod.mk.injEq] at ha
    rw [← ha.1]
    refine ⟨?_, ?_⟩
    · rw [List.map_cons, List.nodup_cons]
      exact ⟨unlink_not_mem _ _ h.1, h.1.sublist ((unlink_sublist _ _).map _)⟩
    · intro c hc
      rcases List.mem_cons.mp hc with hc | hc
      · rw [hc]; exact to_irc_lower_canonical channel
      · exact h.2 c ((unlink_sublist _ _).subset hc)

theorem add_channel_not_ub (env : Env) (s : State) (channel : List Nat) :
    add_channel env s channel ≠ .ub := by
  rcases add_channel_cases env s channel with ⟨_, hc⟩ | ⟨_, _, hc⟩ | hc | ⟨_, fd, hc⟩ <;>
    rw [hc] <;> simp

theorem run_ops_invariant (ops : List SetOp) (s : State) (h : set_invariant s.channels) :
    run_ops s ops ≠ .ub ∧ ∀ s1, run_ops s ops = .ok s1 → set_invariant s1.channels := by
  induction ops generalizing s with
  | nil =>
    simp only [run_ops, ne_eq, Res.ok.injEq]
    exact ⟨by simp, fun s1 hs => hs ▸ h⟩
  | cons op rest ih =>
    cases op with
    | add env channel =>
      simp only [run_ops]
      cases ha : add_channel env s channel with
      | ok r =>
        obtain ⟨s2, b⟩ := r
        exact ih s2 (add_channel_invariant env s s2 channel b h ha)
      | ub => exact absurd ha (add_channel_not_ub env s channel)
      | exit => simp
    | remove channel =>
      simp only [run_ops]
      exact ih _ (remove_channel_invariant s channel h)

/-- C10: conversation-set invariant.  Starting from the empty list, after any
sequence of `add_channel` and `remove_channel` calls with arbitrary names and
arbitrary file-system answers, no two entries of the channel list carry the
same name, and every stored name is canonical: `to_irc_lower` accepts it and
maps it to itself. -/
theorem channel_set_invariant (ops : List SetOp) (s0 s : State) (h0 : s0.channels = [])
    (hrun : run_ops s0 ops = .ok s) :
    (s.channels.map Channel.name).Nodup ∧
      ∀ c ∈ s.channels, to_irc_lower c.name 50 = (true, c.name) := by
  have hinv : set_invariant s0.channels := by
    rw [h0]
    exact ⟨List.nodup_nil, by simp⟩
  exact (run_ops_invariant ops s0 hinv).2 s hrun

theorem channel_set_invariant_witness :
    (([{ fd := 5, name := [] }, { fd := 7, name := bytes "#chan" }] : List Channel).map
        Channel.name).Nodup ∧
      ∀ c ∈ ([{ fd := 5, name := [] }, { fd := 7, name := bytes "#chan" }] : List Channel),
        to_irc_lower c.name 50 = (true, c.name) :=
  channel_set_invariant sample_ops st_empty
    { channels := [{ fd := 5, name := [] }, { fd := 7, name := bytes "#chan" }],
      nick := bytes "self", sock := [], out := [] } rfl (by decide)

/-! ## Theorems: user input -/

theorem write_out_out (env : Env) (s : State) (channel nickname mesg : List Nat) :
    ∃ outpath appended, (write_out env s channel nickname mesg).out = s.out ++
      [{ channel := channel, nickname := nickname, mesg := mesg, outpath := outpath,
         appended := appended }] ∧
      (write_out env s channel nickname mesg).channels = s.channels ∧
      (write_out env s channel nickname mesg).nick = s.nick ∧
      (write_out env s channel nickname mesg).sock = s.sock :=
  ⟨_, _, rfl, rfl, rfl, rfl⟩

/-- A message that ends in CR LF and fits the 512-byte buffer goes out whole. -/
theorem send_mesg_fits (s : State) (pre : List Nat) (h : pre.length + 2 ≤ 512) :
    send_mesg s (some (pre ++ [13, 10]))
      = { s with sock := s.sock ++ [{ data := pre ++ [13, 10], len := pre.length + 2 }] } := by
  have hlen : (pre ++ [13, 10]).length = pre.length + 2 := by simp
  unfold send_mesg write_sock mesg_buf
  simp only [hlen, BUF_MESG_LEN]
  rw [if_pos (by omega)]
  by_cases h512 : 512 ≤ pre.length + 2
  · have hp : pre.length = 510 := by omega
    rw [if_pos h512]
    have e1 : (pre ++ [13, 10]).take (512 - 1) = pre ++ [13] := by
      have : 512 - 1 = pre.length + 1 := by omega
      rw [this, List.take_append]
      rfl
    rw [e1]
    have e2 : 512 - (pre ++ [13]).length = 1 := by simp; omega
    rw [e2]
    have e3 : ((pre ++ [13] ++ List.replicate 1 0).set (512 - 2) 13) = pre ++ [13, 0] := by
      have : 512 - 2 = pre.length := by omega
      rw [this]
      simp
    rw [e3]
    have e4 : (pre ++ [13, 0]).set (512 - 1) 10 = pre ++ [13, 10] := by
      have : 512 - 1 = (pre ++ [13]).length := by simp; omega
      rw [this]
      have : pre ++ [13, 0] = (pre ++ [13]) ++ 0 :: [] := by simp
      rw [this, set_at_length]
      simp
    rw [e4]
    have e5 : (pre ++ [13, 10]).take (pre.length + 2) = pre ++ [13, 10] :=
      List.take_of_length_le (by simp)
    rw [e5]
  · rw [if_neg h512]
    have e1 : (pre ++ [13, 10]).take (512 - 1) = pre ++ [13, 10] :=
      List.take_of_length_le (by simp; omega)
    rw [e1]
    have e5 : (pre ++ [13, 10] ++ List.replicate (512 - (pre ++ [13, 10]).length) 0).take
        (pre.length + 2) = pre ++ [13, 10] := by
      rw [List.take_append_of_le_length (by simp)]
      exact List.take_of_length_le (by simp)
    rw [e5]

/-- C3: for every conversation `chan` of the list (its name `C`) and every
input line `L` (the C string `read_line` left in the buffer) that does not
start with `/`, when the message `PRIVMSG C :L` with its CR LF fits in 512
bytes, `handle_channel_input` writes exactly those bytes to the socket, in one
`write`, and calls `write_out(C, nick, L)` exactly once, `nick` being our
current nick; the channel list and the nick are left as they were. -/
theorem plain_line_is_privmsg (env : Env) (s : State) (c : Nat) (chan : Channel)
    (input : List Nat) (hc : s.channels[c]? = some chan) (hslash : peek input 0 ≠ 47)
    (hfit : (bytes "PRIVMSG " ++ chan.name ++ bytes " :" ++ cstr input 0 ++ [13, 10]).length
      ≤ 512) :
    handle_channel_input env s c (some input)
      = .ok { channels := s.channels, nick := s.nick,
              sock := s.sock ++
                [{ data := bytes "PRIVMSG " ++ chan.name ++ bytes " :" ++ cstr input 0 ++ [13, 10],
                   len := (bytes "PRIVMSG " ++ chan.name ++ bytes " :" ++ cstr input 0
                            ++ [13, 10]).length }],
              out := (write_out env s chan.name s.nick (cstr input 0)).out } ∧
      ∃ outpath appended, (write_out env s chan.name s.nick (cstr input 0)).out = s.out ++
        [{ channel := chan.name, nickname := s.nick, mesg := cstr input 0,
           outpath := outpath, appended := appended }] := by
  refine ⟨?_, ?_⟩
  · unfold handle_channel_input
    rw [hc]
    simp only
    rw [if_pos hslash]
    unfold handle_priv
    simp only
    have hne : (bytes "PRIVMSG " ++ chan.name ++ bytes " :" ++ cstr input 0 ++ [13, 10]).length
        ≠ 0 := by simp
    rw [if_pos hne]
    have hl : (bytes "PRIVMSG " ++ chan.name ++ bytes " :" ++ cstr input 0 ++ [13, 10]).length
        = (bytes "PRIVMSG " ++ chan.name ++ bytes " :" ++ cstr input 0).length + 2 := by
      simp only [List.length_append, List.length_cons, List.length_nil]
    rw [send_mesg_fits _ _ (by rw [hl] at hfit; exact hfit), hl]
    rfl
  · obtain ⟨p, a, h, _⟩ := write_out_out env s chan.name s.nick (cstr input 0)
    exact ⟨p, a, h⟩

theorem plain_line_is_privmsg_witness :
    handle_channel_input env_ok st_chan 0 (some (bytes "hello world"))
      = .ok { channels := st_chan.channels, nick := st_chan.nick,
              sock := st_chan.sock ++
                [{ data := bytes "PRIVMSG " ++ bytes "#chan" ++ bytes " :"
                            ++ cstr (bytes "hello world") 0 ++ [13, 10],
                   len := (bytes "PRIVMSG " ++ bytes "#chan" ++ bytes " :"
                            ++ cstr (bytes "hello world") 0 ++ [13, 10]).length }],
              out := (write_out env_ok st_chan (bytes "#chan") st_chan.nick
                (cstr (bytes "hello world") 0)).out } :=
  (plain_line_is_privmsg env_ok st_chan 0 { fd := 4, name := bytes "#chan" }
    (bytes "hello world") rfl (by decide) (by decide)).1

/-! ## Theorems: server messages -/

@[simp] theorem Res.pure_eq {α : Type} (a : α) : (pure a : Res α) = .ok a := rfl

@[simp] theorem Res.bind_eq {α β : Type} (r : Res α) (f : α → Res β) :
    (r >>= f) = r.bind f := rfl

@[simp] theorem Res.bind_ok {α β : Type} (a : α) (f : α → Res β) :
    (Res.ok a).bind f = f a := rfl

@[simp] theorem Res.bind_ub {α β : Type} (f : α → Res β) : (Res.ub : Res α).bind f = .ub := rfl

@[simp] theorem Res.bind_exit {α β : Type} (f : α → Res β) :
    (Res.exit : Res α).bind f = .exit := rfl

theorem field_some (v : Vars) (p : Option Nat) (w : List Nat) (h : field v p = some w) :
    ∃ i, p = some i ∧ cstr v.buf i = w := by
  cases p with
  | none => simp [field] at h
  | some i => exact ⟨i, rfl, by simpa [field] using h⟩

theorem snprintf_mesg_ne_nil (m : List Nat) (h : m ≠ []) : snprintf_mesg m ≠ [] := by
  cases m with
  | nil => exact absurd rfl h
  | cons x m => simp [snprintf_mesg, BUF_MESG_LEN]

theorem snprintf_mesg_fits (m : List Nat) (h : m.length < 512) : snprintf_mesg m = m :=
  List.take_of_length_le (by simp [BUF_MESG_LEN]; omega)

/-- The handler on a PRIVMSG or NOTICE whose prefix, host, target and body the
parser found. -/
theorem handle_privmsg_fields (env : Env) (s : State) (input : List Nat)
    (nick u h verb target body : List Nat) (mid : Option (List Nat))
    (hf : fields (parse input)
      = [some nick, some u, some h, some verb, some target, mid, some body])
    (hverb : verb = bytes "PRIVMSG" ∨ verb = bytes "NOTICE")
    (htarget : target ≠ []) (hbody : body ≠ []) :
    handle_server_output env s input =
      (if s.nick = target then add_channel env s nick else .ok (s, true)).bind (fun r =>
        .ok (write_out env r.1 (if is_channel target then target else nick) nick
          (snprintf_mesg body), true)) := by
  simp only [fields, List.cons.injEq, and_true] at hf
  obtain ⟨f1, _, f3, f4, f5, _, f7⟩ := hf
  obtain ⟨p1, hp1, sn⟩ := field_some _ _ _ f1
  obtain ⟨ph, hph, _⟩ := field_some _ _ _ f3
  obtain ⟨c, hc, sc⟩ := field_some _ _ _ f4
  obtain ⟨pp, hpp, sp⟩ := field_some _ _ _ f5
  obtain ⟨t, ht, st⟩ := field_some _ _ _ f7
  have hsn : snprintf_mesg body ≠ [] := snprintf_mesg_ne_nil body hbody
  unfold handle_server_output
  generalize parse input = v at *
  have hd : dispatch env s v =
      (if s.nick = target then add_channel env s nick else .ok (s, true)).bind (fun r =>
        .ok (r.1, { v with mesg := snprintf_mesg body, nickname := some nick })) := by
    unfold dispatch
    rw [hc]
    simp only [sc]
    rcases hverb with hv | hv
    · subst hv
      simp +decide [on_privmsg, str, ht, st, hpp, sp, hp1, sn, field]
      by_cases hn : s.nick = target <;> simp [hn, hc]
    · subst hv
      simp +decide [on_privmsg, str, ht, st, hpp, sp, hp1, sn, field]
      by_cases hn : s.nick = target <;> simp [hn, hc]
  have hroute : ∀ s1 : State,
      route env s1 { v with mesg := snprintf_mesg body, nickname := some nick }
      = .ok (write_out env s1 (if is_channel target then target else nick) nick
          (snprintf_mesg body)) := by
    intro s1
    unfold route
    simp only [hph, hpp, hp1, str, sp, sn, deref, Res.bind_eq, Res.bind_ok, Res.pure_eq,
      if_pos hsn, if_neg htarget, ne_eq, not_false_eq_true]
    by_cases hch : is_channel target = true
    · simp [hch]
    · simp [hch]
  have hflag : ∀ s1 : State,
      continue_flag s1 { v with mesg := snprintf_mesg body, nickname := some nick }
      = .ok true := by
    intro s1
    unfold continue_flag
    simp only [hc, str, sc, Res.bind_eq, Res.bind_ok, Res.pure_eq]
    rcases hverb with hv | hv <;> subst hv <;> simp +decide
  rw [hd]
  by_cases hn : s.nick = target
  · simp only [if_pos hn]
    cases ha : add_channel env s nick with
    | ok r => simp [hroute, hflag]
    | ub => simp
    | exit => simp
  · simp [if_neg hn, hroute, hflag]

set_option maxRecDepth 100000 in
/-- C1, as stated, fails: a PRIVMSG whose target is neither our nick nor a
channel name is routed to the conversation of the sender, not to the
conversation named by the target; and of a body of 600 bytes only the first
511 are logged. -/
theorem privmsg_other_target_goes_to_sender :
    st_self.nick ≠ bytes "alice" ∧
      handle_server_output env_ok st_self
        (wire_line (bytes "bob") (bytes "b") (bytes "h") (bytes "PRIVMSG") (bytes "alice")
          (some (bytes "hi")))
      = .ok ({ channels := st_self.channels, nick := st_self.nick, sock := [],
               out := [{ channel := bytes "bob", nickname := bytes "bob", mesg := bytes "hi",
                         outpath := bytes "bob/out",
                         appended := some (bytes "2024-01-01 00:00 <bob> hi\n") }] }, true) ∧
      handle_server_output env_ok st_self
        (wire_line (bytes "bob") (bytes "b") (bytes "h") (bytes "PRIVMSG") (bytes "#c")
          (some (List.replicate 600 97)))
      = .ok ({ channels := st_self.channels, nick := st_self.nick, sock := [],
               out := [{ channel := bytes "#c", nickname := bytes "bob",
                         mesg := List.replicate 511 97, outpath := bytes "#c/out",
                         appended := some (bytes "2024-01-01 00:00 <bob> "
                           ++ List.replicate 511 97 ++ [10]) }] }, true) := by
  decide

/-- C1, amended.  For every server line
`':' nick '!' user '@' host ' ' (PRIVMSG|NOTICE) ' ' target ' :' body` (a C
string whose nick, user, host and target are free of spaces, whose nick is
free of `!` and `@`, whose target is not empty and does not start with `:`,
and whose body is not empty), `handle_server_output` calls `write_out` exactly
once, with displayed nick `nick` and with what fits of `body` in the 512-byte
`mesg`: all of it up to 511 bytes; when `target` equals our current nick it
first calls `add_channel(nick)`, after which (the name being accepted) the set
holds the conversation of `nick`; the line goes to the conversation named by
`target` when `target` is a channel name, and to the conversation of `nick`
otherwise; the handler returns `true`. -/
theorem privmsg_routing (env : Env) (s : State) (nick user host verb target body : List Nat)
    (hverb : verb = bytes "PRIVMSG" ∨ verb = bytes "NOTICE")
    (hnick : ∀ x ∈ nick, x ≠ 0 ∧ x ≠ 32 ∧ x ≠ 33 ∧ x ≠ 64)
    (huser : ∀ x ∈ user, x ≠ 0 ∧ x ≠ 32)
    (hhost : ∀ x ∈ host, x ≠ 0 ∧ x ≠ 32)
    (htarget : ∀ x ∈ target, x ≠ 0 ∧ x ≠ 32)
    (hne : target ≠ []) (hcolon : target.head? ≠ some 58)
    (hbody : ∀ x ∈ body, x ≠ 0) (hbne : body ≠ []) :
    handle_server_output env s (wire_line nick user host verb target (some body)) =
        (if s.nick = target then add_channel env s nick else .ok (s, true)).bind (fun r =>
          .ok (write_out env r.1 (if is_channel target then target else nick) nick
            (snprintf_mesg body), true)) ∧
      (body.length < 512 → snprintf_mesg body = body) ∧
      ∀ s1 b, add_channel env s nick = .ok (s1, b) → (to_irc_lower nick 50).1 = true →
        lookup (to_irc_lower nick 50).2 s1.channels = true := by
  refine ⟨?_, snprintf_mesg_fits body,
    fun s1 b ha hacc => (add_channel_adds env s s1 nick b ha hacc).2⟩
  obtain ⟨u, h, huh, hu64, hul, hhl⟩ := split_first (user ++ 64 :: host) 64 (by simp)
  have hmem : ∀ x ∈ user ++ 64 :: host, x ≠ 0 ∧ x ≠ 32 := by
    intro x hx
    rcases List.mem_append.mp hx with h1 | h1
    · exact huser x h1
    · rcases List.mem_cons.mp h1 with h2 | h2
      · rw [h2]; decide
      · exact hhost x h2
  have hu : ∀ x ∈ u, x ≠ 0 ∧ x ≠ 32 ∧ x ≠ 64 := fun x hx =>
    ⟨(hmem x (hul x hx)).1, (hmem x (hul x hx)).2, hu64 x hx⟩
  have hh : ∀ x ∈ h, x ≠ 0 ∧ x ≠ 32 := fun x hx => hmem x (hhl x hx)
  have hvb : ∀ x ∈ verb, x ≠ 0 ∧ x ≠ 32 := by
    rcases hverb with hv | hv <;> subst hv <;> decide
  have hl : wire_line nick user host verb target (some body)
      = 58 :: (nick ++ 33 :: (u ++ 64 :: (h ++ 32 :: (verb ++ 32 :: (target ++ 32 :: 58 :: body))))) := by
    have : user ++ 64 :: (host ++ 32 :: (verb ++ 32 :: (target ++ 32 :: 58 :: body)))
        = u ++ 64 :: (h ++ 32 :: (verb ++ 32 :: (target ++ 32 :: 58 :: body))) := by
      have := congrArg (fun l => l ++ 32 :: (verb ++ 32 :: (target ++ 32 :: 58 :: body))) huh
      simpa using this
    simp [wire_line, this]
  rw [hl]
  exact handle_privmsg_fields env s _ nick u h verb target body (some [])
    (fields_user_line_trailing nick u h verb target body hnick hu hh hvb htarget hcolon hbody)
    hverb hne hbne

theorem privmsg_routing_witness :
    handle_server_output env_ok st_self
        (wire_line (bytes "bob") (bytes "b") (bytes "h") (bytes "PRIVMSG") (bytes "self")
          (some (bytes "hi"))) =
        (if st_self.nick = bytes "self" then add_channel env_ok st_self (bytes "bob")
          else .ok (st_self, true)).bind (fun r =>
          .ok (write_out env_ok r.1
            (if is_channel (bytes "self") then bytes "self" else bytes "bob")
            (bytes "bob") (snprintf_mesg (bytes "hi")), true)) ∧
      ((bytes "hi").length < 512 → snprintf_mesg (bytes "hi") = bytes "hi") ∧
      ∀ s1 b, add_channel env_ok st_self (bytes "bob") = .ok (s1, b) →
        (to_irc_lower (bytes "bob") 50).1 = true →
        lookup (to_irc_lower (bytes "bob") 50).2 s1.channels = true :=
  privmsg_routing env_ok st_self (bytes "bob") (bytes "b") (bytes "h") (bytes "PRIVMSG")
    (bytes "self") (bytes "hi") (by decide) (by decide) (by decide) (by decide) (by decide)
    (by decide) (by decide) (by decide) (by decide)

/-! ## Theorems: what the handler does to the parsed fields -/

theorem Res.bind_eq_ok {α β : Type} (r : Res α) (f : α → Res β) (b : β)
    (h : r.bind f = .ok b) : ∃ a, r = .ok a ∧ f a = .ok b := by
  cases r with
  | ok a => exact ⟨a, rfl, h⟩
  | ub => simp at h
  | exit => simp at h

theorem cstr_set_before (buf : List Nat) (j p x : Nat) (h : j < p) :
    cstr (buf.set j x) p = cstr buf p := by
  unfold cstr
  rw [List.drop_set_of_lt _ _ h]

theorem nul_split (l : List Nat) (k : Nat) (hk : k < l.length) (h : l.getD k 0 = 0) :
    ∃ w rest, l = w ++ 0 :: rest ∧ (∀ x ∈ w, x ≠ 0) ∧ w.length ≤ k := by
  induction l generalizing k with
  | nil => simp at hk
  | cons b l ih =>
    by_cases hb : b = 0
    · exact ⟨[], l, by simp [hb], by simp, by simp⟩
    · cases k with
      | zero => simp at h; exact absurd h hb
      | succ k =>
        have hk2 : k < l.length := by simpa using hk
        have h2 : l.getD k 0 = 0 := by simpa using h
        obtain ⟨w, rest, e, hw, hl⟩ := ih k hk2 h2
        refine ⟨b :: w, rest, by simp [e], ?_, by simp; omega⟩
        intro x hx
        rcases List.mem_cons.mp hx with hx | hx
        · rw [hx]; exact hb
        · exact hw x hx

/-- Writing a NUL at or after a NUL that follows `p` leaves the string at `p`
alone. -/
theorem cstr_set_after_nul (buf : List Nat) (p i j : Nat) (hpi : p ≤ i) (hij : i ≤ j)
    (h0 : peek buf i = 0) : cstr (buf.set j 0) p = cstr buf p := by
  by_cases hj : buf.length ≤ j
  · rw [List.set_eq_of_length_le hj]
  · have hi : i - p < (buf.drop p).length := by
      rw [List.length_drop]; omega
    have hget : (buf.drop p).getD (i - p) 0 = 0 := by
      unfold peek at h0
      rw [List.getD_eq_getElem?_getD] at h0 ⊢
      rw [List.getElem?_drop]
      have : p + (i - p) = i := by omega
      rw [this]
      exact h0
    obtain ⟨w, rest, e, hw, hl⟩ := nul_split _ _ hi hget
    have hseg : Seg buf p w := by
      refine ⟨buf.take p, rest, ?_, ?_, hw⟩
      · rw [← e, List.take_append_drop]
      · rw [List.length_take]; omega
    rw [(hseg.set j (by omega)).cstr_eq, hseg.cstr_eq]

theorem peek_set_zero (buf : List Nat) (i j : Nat) (h : peek buf i = 0) :
    peek (buf.set j 0) i = 0 := by
  unfold peek at *
  rw [List.getD_eq_getElem?_getD] at h ⊢
  rw [List.getElem?_set]
  split_ifs
  · rfl
  · rfl
  · exact h

theorem peek_set_self (buf : List Nat) (j : Nat) : peek (buf.set j 0) j = 0 := by
  unfold peek
  rw [List.getD_eq_getElem?_getD, List.getElem?_set, if_pos rfl]
  split_ifs <;> rfl

theorem strchr_at (buf : List Nat) (p c : Nat) (h : peek buf p = c) (hc : c ≠ 0) :
    strchr buf p c = some p := by
  unfold peek at h
  unfold strchr
  have hp : p < buf.length := by
    by_contra hge
    rw [List.getD_eq_getElem?_getD, List.getElem?_eq_none (by omega)] at h
    exact hc h.symm
  rw [List.drop_eq_getElem_cons hp]
  have : buf[p] = c := by
    rw [List.getD_eq_getElem?_getD, List.getElem?_eq_getElem hp] at h
    simpa using h
  simp [strchr_from, this]

theorem cstr_eq_nil_iff (buf : List Nat) (p : Nat) : cstr buf p = [] ↔ peek buf p = 0 := by
  unfold cstr peek
  rw [List.getD_eq_getElem?_getD]
  by_cases hp : p < buf.length
  · rw [List.drop_eq_getElem_cons hp, List.getElem?_eq_getElem hp, List.takeWhile_cons]
    by_cases h0 : buf[p] = 0
    · simp [h0]
    · simp [h0]
  · rw [List.drop_eq_nil_of_le (by omega), List.getElem?_eq_none (by omega)]
    simp

theorem parse_init_trailing (input : List Nat) : (parse_init input).trailing = none := rfl

theorem parse_command_trailing (v : Vars) : (parse_command v).trailing = v.trailing := by
  unfold parse_command
  cases v.prefix_nick <;> rfl

theorem parse_host_trailing (v : Vars) : (parse_host v).trailing = v.trailing := by
  unfold parse_host
  cases v.prefix_nick <;> rfl

theorem parse_user_trailing (v : Vars) : (parse_user v).trailing = v.trailing := by
  unfold parse_user
  cases v.prefix_host <;> cases v.prefix_nick <;> rfl

theorem parse_params_trailing (v : Vars) : (parse_params v).trailing = v.trailing := by
  unfold parse_params
  cases v.command <;> rfl

theorem parse_middle_trailing (v : Vars) : (parse_middle v).trailing = v.trailing := by
  unfold parse_middle
  cases v.params with
  | none => rfl
  | some p =>
    simp only
    split_ifs <;> rfl

theorem parse_middle_params (v : Vars) : (parse_middle v).params = v.params := by
  unfold parse_middle
  cases v.params with
  | none => rfl
  | some p =>
    simp only
    split_ifs <;> rfl

theorem parse_trailing_params (v : Vars) : (parse_trailing v).params = v.params := by
  unfold parse_trailing
  cases v.middle <;> rfl

/-- How `parse_middle` came to a middle. -/
theorem parse_middle_some (v : Vars) (m : Nat) (h : (parse_middle v).middle = some m) :
    ∃ pp, v.params = some pp ∧
      ((peek v.buf pp = 58 ∧ m = pp ∧ (parse_middle v).buf = v.buf) ∨
        ∃ q, strchr v.buf pp 32 = some q ∧ m = q + 1 ∧ (parse_middle v).buf = v.buf.set q 0) := by
  cases hp : v.params with
  | none =>
    have e : parse_middle v = { v with middle := none } := by
      unfold parse_middle
      rw [hp]
    rw [e] at h
    simp at h
  | some pp =>
    have e : parse_middle v = if peek v.buf pp ≠ 58 then
        { v with buf := (cut v.buf (strchr v.buf pp 32)).1,
                 middle := (cut v.buf (strchr v.buf pp 32)).2 }
        else { v with middle := some pp } := by
      unfold parse_middle
      rw [hp]
    rw [e] at h ⊢
    refine ⟨pp, rfl, ?_⟩
    by_cases hk : peek v.buf pp ≠ 58
    · rw [if_pos hk] at h ⊢
      cases hs : strchr v.buf pp 32 with
      | none => rw [hs] at h; simp [cut] at h
      | some q =>
        rw [hs] at h
        have hm : m = q + 1 := by
          simp only [cut, Option.some.injEq] at h
          exact h.symm
        exact Or.inr ⟨q, rfl, hm, rfl⟩
    · rw [if_neg hk] at h ⊢
      have hm : m = pp := by
        simp only [Option.some.injEq] at h
        exact h.symm
      exact Or.inl ⟨by simpa using hk, hm, rfl⟩

/-- How `parse_trailing` came to a trailing. -/
theorem parse_trailing_some (v : Vars) (t : Nat) (h0 : v.trailing = none)
    (h : (parse_trailing v).trailing = some t) :
    ∃ m q, v.middle = some m ∧ strchr v.buf m 58 = some q ∧ t = q + 1 ∧
      (parse_trailing v).buf = v.buf.set q 0 := by
  cases hm : v.middle with
  | none =>
    have e : parse_trailing v = v := by
      unfold parse_trailing
      rw [hm]
    rw [e, h0] at h
    simp at h
  | some m =>
    have e : parse_trailing v =
        { v with buf := (cut v.buf (strchr v.buf m 58)).1,
                 trailing := (cut v.buf (strchr v.buf m 58)).2 } := by
      unfold parse_trailing
      rw [hm]
    rw [e] at h ⊢
    cases hs : strchr v.buf m 58 with
    | none => rw [hs] at h; simp [cut] at h
    | some q =>
      rw [hs] at h
      have ht : t = q + 1 := by
        simp only [cut, Option.some.injEq] at h
        exact h.symm
      exact ⟨m, q, rfl, hs, ht, rfl⟩

/-- The byte that `KICK` clears, `trailing - 2`, lies outside the string of
`params`. -/
theorem parse_kick_params (input : List Nat) (pp t : Nat)
    (hp : (parse input).params = some pp) (ht : (parse input).trailing = some t)
    (h2 : 2 ≤ t) :
    cstr ((parse input).buf.set (t - 2) 0) pp = cstr (parse input).buf pp := by
  unfold parse at hp ht ⊢
  generalize hv4 : parse_params (parse_user (parse_host (parse_command (parse_init input))))
    = v4 at hp ht ⊢
  have h4t : v4.trailing = none := by
    rw [← hv4, parse_params_trailing, parse_user_trailing, parse_host_trailing,
      parse_command_trailing, parse_init_trailing]
  rw [parse_trailing_params, parse_middle_params] at hp
  have h5t : (parse_middle v4).trailing = none := by rw [parse_middle_trailing, h4t]
  obtain ⟨m, q2, hm, hs2, ht2, hb2⟩ := parse_trailing_some _ t h5t ht
  obtain ⟨pp', hpp', hcase⟩ := parse_middle_some v4 m hm
  rw [hp] at hpp'
  simp only [Option.some.injEq] at hpp'
  subst hpp'
  rw [hb2]
  rcases hcase with ⟨hk, hmp, hb1⟩ | ⟨q1, hs1, hmq, hb1⟩
  · rw [hb1] at hs2 ⊢
    rw [hmp, strchr_at _ _ _ hk (by decide)] at hs2
    simp only [Option.some.injEq] at hs2
    exact cstr_set_before _ _ _ _ (by omega)
  · rw [hb1] at hs2 ⊢
    have g1 := strchr_ge _ _ _ _ hs1
    have g2 := strchr_ge _ _ _ _ hs2
    exact cstr_set_after_nul _ pp q1 (t - 2) g1 (by omega)
      (peek_set_zero _ _ _ (peek_set_self _ _))

theorem cut_zero (buf : List Nat) (q : Option Nat) (i : Nat) (h : peek buf i = 0) :
    peek (cut buf q).1 i = 0 := by
  cases q with
  | none => exact h
  | some j => exact peek_set_zero buf i j h

/-- A step of the parser moves no `prefix` pointer and turns no NUL of the
buffer into another byte. -/
theorem parse_command_cuts (v : Vars) :
    (parse_command v).prefix_nick = v.prefix_nick ∧
      ∀ i, peek v.buf i = 0 → peek (parse_command v).buf i = 0 := by
  refine ⟨?_, fun i h => ?_⟩
  · unfold parse_command
    split <;> rfl
  · unfold parse_command
    split
    · exact cut_zero _ _ i h
    · exact h

theorem parse_host_cuts (v : Vars) :
    (parse_host v).prefix_nick = v.prefix_nick ∧ (parse_host v).command = v.command ∧
      (parse_host v).params = v.params ∧
      ∀ i, peek v.buf i = 0 → peek (parse_host v).buf i = 0 := by
  refine ⟨?_, ?_, ?_, fun i h => ?_⟩
  · unfold parse_host
    split <;> rfl
  · unfold parse_host
    split <;> rfl
  · unfold parse_host
    split <;> rfl
  · unfold parse_host
    split
    · exact cut_zero _ _ i h
    · exact h

theorem parse_user_cuts (v : Vars) :
    (parse_user v).prefix_nick = v.prefix_nick ∧ (parse_user v).command = v.command ∧
      (parse_user v).params = v.params ∧
      ∀ i, peek v.buf i = 0 → peek (parse_user v).buf i = 0 := by
  refine ⟨?_, ?_, ?_, fun i h => ?_⟩
  · unfold parse_user
    split <;> rfl
  · unfold parse_user
    split <;> rfl
  · unfold parse_user
    split <;> rfl
  · unfold parse_user
    split
    · exact cut_zero _ _ i h
    · exact h

theorem parse_params_cuts (v : Vars) :
    (parse_params v).prefix_nick = v.prefix_nick ∧
      ∀ i, peek v.buf i = 0 → peek (parse_params v).buf i = 0 := by
  refine ⟨?_, fun i h => ?_⟩
  · unfold parse_params
    split <;> rfl
  · unfold parse_params
    split
    · exact cut_zero _ _ i h
    · exact h

theorem parse_middle_cuts (v : Vars) :
    (parse_middle v).prefix_nick = v.prefix_nick ∧
      ∀ i, peek v.buf i = 0 → peek (parse_middle v).buf i = 0 := by
  refine ⟨?_, fun i h => ?_⟩
  · unfold parse_middle
    split
    · rfl
    · split <;> rfl
  · unfold parse_middle
    split
    · exact h
    · split
      · exact cut_zero _ _ i h
      · exact h

theorem parse_trailing_cuts (v : Vars) :
    (parse_trailing v).prefix_nick = v.prefix_nick ∧
      ∀ i, peek v.buf i = 0 → peek (parse_trailing v).buf i = 0 := by
  refine ⟨?_, fun i h => ?_⟩
  · unfold parse_trailing
    split <;> rfl
  · unfold parse_trailing
    split
    · exact cut_zero _ _ i h
    · exact h

/-- How `parse_params` came to a `params`. -/
theorem parse_params_some (v : Vars) (pp : Nat) (h0 : v.params = none)
    (h : (parse_params v).params = some pp) :
    ∃ c q, v.command = some c ∧ strchr v.buf c 32 = some q ∧ pp = q + 1 := by
  cases hc : v.command with
  | none =>
    have e : parse_params v = v := by
      unfold parse_params
      rw [hc]
    rw [e, h0] at h
    simp at h
  | some c =>
    have e : parse_params v =
        { v with buf := (cut v.buf (strchr v.buf c 32)).1,
                 params := (cut v.buf (strchr v.buf c 32)).2 } := by
      unfold parse_params
      rw [hc]
    rw [e] at h
    cases hs : strchr v.buf c 32 with
    | none => rw [hs] at h; simp [cut] at h
    | some q =>
      rw [hs] at h
      have hq : pp = q + 1 := by
        simp only [cut, Option.some.injEq] at h
        exact h.symm
      exact ⟨c, q, rfl, hs, hq⟩

/-- How `parse_command` came to a command, on a line with a prefix. -/
theorem parse_command_some (input : List Nat) (c : Nat) (hk : peek input 0 = 58)
    (h : (parse_command (parse_init input)).command = some c) :
    ∃ q, 1 ≤ q ∧ c = q + 1 ∧ peek (parse_command (parse_init input)).buf q = 0 := by
  have e : parse_command (parse_init input) =
      { parse_init input with buf := (cut input (strchr input 0 32)).1,
                              command := (cut input (strchr input 0 32)).2 } := by
    unfold parse_command parse_init
    rw [if_pos hk]
  rw [e] at h ⊢
  cases hs : strchr input 0 32 with
  | none => rw [hs] at h; simp [cut] at h
  | some q =>
    rw [hs] at h
    have hc : c = q + 1 := by
      simp only [cut, Option.some.injEq] at h
      exact h.symm
    refine ⟨q, ?_, hc, peek_set_self input q⟩
    obtain ⟨a, w, rest, hb, hp, hq, hw⟩ := strchr_some input 0 32 q hs
    by_contra hlt
    have hq0 : q = 0 := by omega
    have ha : a = [] := List.length_eq_zero.mp hp.symm
    have hw0 : w = [] := List.length_eq_zero.mp (by omega)
    rw [hb, ha, hw0] at hk
    simp [peek] at hk

/-- The parser leaves `prefix` at offset 1 and closes it by a NUL at least two
bytes before `trailing - 1`. -/
theorem parse_prefix_nul (input : List Nat) (p1 t : Nat)
    (hp : (parse input).prefix_nick = some p1) (ht : (parse input).trailing = some t) :
    ∃ q, p1 ≤ q ∧ q + 3 ≤ t ∧ peek (parse input).buf q = 0 := by
  unfold parse at hp ht ⊢
  -- the prefix pointer is the one `parse_init` set
  have hp0 : (parse_init input).prefix_nick = some p1 := by
    rw [← hp, (parse_trailing_cuts _).1, (parse_middle_cuts _).1, (parse_params_cuts _).1,
      (parse_user_cuts _).1, (parse_host_cuts _).1, (parse_command_cuts _).1]
  have hk : peek input 0 = 58 := by
    by_contra hne
    simp [parse_init, hne] at hp0
  have hp1 : p1 = 1 := by
    simp [parse_init, hk] at hp0
    exact hp0.symm
  -- the chain of pointers that leads to `trailing`
  have h5t : (parse_middle (parse_params (parse_user (parse_host (parse_command
      (parse_init input)))))).trailing = none := by
    rw [parse_middle_trailing, parse_params_trailing, parse_user_trailing, parse_host_trailing,
      parse_command_trailing, parse_init_trailing]
  obtain ⟨m, q2, hm, hs2, ht2, _⟩ := parse_trailing_some _ t h5t ht
  obtain ⟨pp, hpp, hcase⟩ := parse_middle_some _ m hm
  have h3p : (parse_user (parse_host (parse_command (parse_init input)))).params = none := by
    rw [(parse_user_cuts _).2.2.1, (parse_host_cuts _).2.2.1]
    unfold parse_command
    cases (parse_init input).prefix_nick <;> rfl
  obtain ⟨c, q, hc, hs, hq⟩ := parse_params_some _ pp h3p hpp
  rw [(parse_user_cuts _).2.1, (parse_host_cuts _).2.1] at hc
  obtain ⟨q0, hq0, hc0, hz⟩ := parse_command_some input c hk hc
  have g := strchr_ge _ _ _ _ hs
  have g2 := strchr_ge _ _ _ _ hs2
  have hmpp : pp ≤ m := by
    rcases hcase with ⟨_, hmp, _⟩ | ⟨q1, hs1, hmq, _⟩
    · omega
    · have := strchr_ge _ _ _ _ hs1
      omega
  refine ⟨q0, by omega, by omega, ?_⟩
  exact (parse_trailing_cuts _).2 _ ((parse_middle_cuts _).2 _ ((parse_params_cuts _).2 _
    ((parse_user_cuts _).2.2.2 _ ((parse_host_cuts _).2.2.2 _ hz))))

/-- The byte that `KICK` and `353` clear, `trailing - 2`, lies outside the
string of `prefix`. -/
theorem parse_poke_prefix (input : List Nat) (p1 t : Nat)
    (hp : (parse input).prefix_nick = some p1) (ht : (parse input).trailing = some t) :
    cstr ((parse input).buf.set (t - 2) 0) p1 = cstr (parse input).buf p1 := by
  obtain ⟨q, h1, h2, h3⟩ := parse_prefix_nul input p1 t hp ht
  exact cstr_set_after_nul _ p1 q (t - 2) h1 (by omega) h3

theorem send_mesg_sent (s : State) (pre : List Nat) (h : (pre ++ [13, 10]).length ≤ 512) :
    send_mesg s (some (pre ++ [13, 10])) = sent s (pre ++ [13, 10]) := by
  have hl : (pre ++ [13, 10]).length = pre.length + 2 := by simp
  rw [send_mesg_fits s pre (by omega)]
  simp only [sent, hl]

theorem send_mesg_none (s : State) : send_mesg s none = s := by
  unfold send_mesg
  simp only
  rw [if_neg (by omega)]

theorem cmd_handle_lt (l : Nat) (h : Handler) (hl : cmd_handle l = some h) : l < 118 := by
  by_contra hge
  have hn : cmd_handle l = none := by
    unfold cmd_handle
    repeat rw [if_neg (by omega)]
  rw [hn] at hl
  exact Option.noConfusion hl

/-- A line `/l` or `/l ...`, `l` a letter of the table: the handler of the
letter runs on `input + 2` and what it formatted is sent. -/
theorem command_line (env : Env) (s : State) (c : Nat) (chan : Channel) (l : Nat) (h : Handler)
    (tail : List Nat) (hc : s.channels[c]? = some chan) (hl : cmd_handle l = some h)
    (ht : peek (47 :: l :: tail) 2 = 32 ∨ peek (47 :: l :: tail) 2 = 0) :
    handle_channel_input env s c (some (47 :: l :: tail))
      = (run_handler env s h chan.name (47 :: l :: tail) 2).bind
          (fun r => .ok (send_mesg r.1 r.2)) := by
  have hlt := cmd_handle_lt l h hl
  unfold handle_channel_input
  rw [hc]
  simp only
  have h0 : peek (47 :: l :: tail) 0 = 47 := rfl
  have h1 : peek (47 :: l :: tail) 1 = l := rfl
  have hu : char_to_unsigned l = l := by simp [char_to_unsigned]; omega
  rw [h0, h1, hu, if_neg (by simp), if_pos ⟨ht, by simp [sizeof_cmd_handle, cmd_handle_entries]; omega⟩,
    if_neg (by simp [cmd_handle_entries]; omega), hl]
  rfl

theorem cstr_rest (l : Nat) (rest : List Nat) (hr : ∀ x ∈ rest, x ≠ 0) :
    cstr (47 :: l :: 32 :: rest) (2 + 1) = rest :=
  cstr_last _ [47, l, 32] rest 3 rfl rfl hr

/-- C18: for every conversation `chan` of the list (its name `C`, at most 49
bytes as `char name[50]` holds) and every NUL-free `rest`, the lines `/a rest`,
`/i rest`, `/k rest`, `/m rest`, `/n rest`, `/q rest`, `/t rest` make
`handle_channel_input` write exactly `AWAY :rest`, `INVITE rest C`,
`KICK C rest`, `MODE C rest`, `NICK rest`, `QUIT :rest`, `TOPIC C :rest`, each
followed by CR LF, to the socket, whenever the message fits in 512 bytes, and
change nothing else; `/l rest` in a conversation whose name is not empty
writes `PART C :rest`; and the bare lines `/a`, `/l` (name not empty), `/q`,
`/t`, `/u` write `AWAY`, `PART C`, `QUIT`, `TOPIC C`, `NAMES C`. -/
theorem command_table (env : Env) (s : State) (c : Nat) (chan : Channel) (rest : List Nat)
    (hc : s.channels[c]? = some chan) (hname : chan.name.length < BUF_CHAN_LEN)
    (hrest : ∀ x ∈ rest, x ≠ 0) :
    ((bytes "AWAY :" ++ rest ++ [13, 10]).length ≤ 512 →
      handle_channel_input env s c (some (bytes "/a " ++ rest))
        = .ok (sent s (bytes "AWAY :" ++ rest ++ [13, 10]))) ∧
    ((bytes "INVITE " ++ rest ++ [32] ++ chan.name ++ [13, 10]).length ≤ 512 →
      handle_channel_input env s c (some (bytes "/i " ++ rest))
        = .ok (sent s (bytes "INVITE " ++ rest ++ [32] ++ chan.name ++ [13, 10]))) ∧
    ((bytes "KICK " ++ chan.name ++ [32] ++ rest ++ [13, 10]).length ≤ 512 →
      handle_channel_input env s c (some (bytes "/k " ++ rest))
        = .ok (sent s (bytes "KICK " ++ chan.name ++ [32] ++ rest ++ [13, 10]))) ∧
    ((bytes "MODE " ++ chan.name ++ [32] ++ rest ++ [13, 10]).length ≤ 512 →
      handle_channel_input env s c (some (bytes "/m " ++ rest))
        = .ok (sent s (bytes "MODE " ++ chan.name ++ [32] ++ rest ++ [13, 10]))) ∧
    ((bytes "NICK " ++ rest ++ [13, 10]).length ≤ 512 →
      handle_channel_input env s c (some (bytes "/n " ++ rest))
        = .ok (sent s (bytes "NICK " ++ rest ++ [13, 10]))) ∧
    ((bytes "QUIT :" ++ rest ++ [13, 10]).length ≤ 512 →
      handle_channel_input env s c (some (bytes "/q " ++ rest))
        = .ok (sent s (bytes "QUIT :" ++ rest ++ [13, 10]))) ∧
    ((bytes "TOPIC " ++ chan.name ++ bytes " :" ++ rest ++ [13, 10]).length ≤ 512 →
      handle_channel_input env s c (some (bytes "/t " ++ rest))
        = .ok (sent s (bytes "TOPIC " ++ chan.name ++ bytes " :" ++ rest ++ [13, 10]))) ∧
    (chan.name ≠ [] → (bytes "PART " ++ chan.name ++ bytes " :" ++ rest ++ [13, 10]).length ≤ 512 →
      handle_channel_input env s c (some (bytes "/l " ++ rest))
        = .ok (sent s (bytes "PART " ++ chan.name ++ bytes " :" ++ rest ++ [13, 10]))) ∧
    (handle_channel_input env s c (some (bytes "/a"))
        = .ok (sent s (bytes "AWAY" ++ [13, 10]))) ∧
    (chan.name ≠ [] → handle_channel_input env s c (some (bytes "/l"))
        = .ok (sent s (bytes "PART " ++ chan.name ++ [13, 10]))) ∧
    (handle_channel_input env s c (some (bytes "/q"))
        = .ok (sent s (bytes "QUIT" ++ [13, 10]))) ∧
    (handle_channel_input env s c (some (bytes "/t"))
        = .ok (sent s (bytes "TOPIC " ++ chan.name ++ [13, 10]))) ∧
    (handle_channel_input env s c (some (bytes "/u"))
        = .ok (sent s (bytes "NAMES " ++ chan.name ++ [13, 10]))) := by
  have hp : ∀ l, peek (47 :: l :: 32 :: rest) 2 ≠ 0 := fun _ => by
    show (32 : Nat) ≠ 0
    decide
  simp only [BUF_CHAN_LEN] at hname
  refine ⟨?_, ?_, ?_, ?_, ?_, ?_, ?_, ?_, ?_, ?_, ?_, ?_, ?_⟩
  · intro hfit
    have e : bytes "/a " ++ rest = 47 :: 97 :: 32 :: rest := rfl
    rw [e, command_line env s c chan 97 .away (32 :: rest) hc rfl (Or.inl rfl)]
    simp only [run_handler, Res.bind_ok, handle_away]
    rw [if_pos (hp 97), cstr_rest 97 rest hrest]
    exact congrArg Res.ok (send_mesg_sent s _ hfit)
  · intro hfit
    have e : bytes "/i " ++ rest = 47 :: 105 :: 32 :: rest := rfl
    rw [e, command_line env s c chan 105 .invit (32 :: rest) hc rfl (Or.inl rfl)]
    simp only [run_handler, Res.bind_ok, handle_invit]
    rw [if_pos (hp 105), cstr_rest 105 rest hrest]
    exact congrArg Res.ok (send_mesg_sent s _ hfit)
  · intro hfit
    have e : bytes "/k " ++ rest = 47 :: 107 :: 32 :: rest := rfl
    rw [e, command_line env s c chan 107 .kick (32 :: rest) hc rfl (Or.inl rfl)]
    simp only [run_handler, Res.bind_ok, handle_kick]
    rw [if_pos (hp 107), cstr_rest 107 rest hrest]
    exact congrArg Res.ok (send_mesg_sent s _ hfit)
  · intro hfit
    have e : bytes "/m " ++ rest = 47 :: 109 :: 32 :: rest := rfl
    rw [e, command_line env s c chan 109 .mode (32 :: rest) hc rfl (Or.inl rfl)]
    simp only [run_handler, Res.bind_ok, handle_mode]
    rw [if_pos (hp 109), cstr_rest 109 rest hrest]
    exact congrArg Res.ok (send_mesg_sent s _ hfit)
  · intro hfit
    have e : bytes "/n " ++ rest = 47 :: 110 :: 32 :: rest := rfl
    rw [e, command_line env s c chan 110 .nick (32 :: rest) hc rfl (Or.inl rfl)]
    simp only [run_handler, Res.bind_ok, handle_nick]
    rw [if_pos (hp 110), cstr_rest 110 rest hrest]
    exact congrArg Res.ok (send_mesg_sent s _ hfit)
  · intro hfit
    have e : bytes "/q " ++ rest = 47 :: 113 :: 32 :: rest := rfl
    rw [e, command_line env s c chan 113 .quit (32 :: rest) hc rfl (Or.inl rfl)]
    simp only [run_handler, Res.bind_ok, handle_quit]
    rw [if_pos (hp 113), cstr_rest 113 rest hrest]
    exact congrArg Res.ok (send_mesg_sent s _ hfit)
  · intro hfit
    have e : bytes "/t " ++ rest = 47 :: 116 :: 32 :: rest := rfl
    rw [e, command_line env s c chan 116 .topic (32 :: rest) hc rfl (Or.inl rfl)]
    simp only [run_handler, Res.bind_ok, handle_topic]
    rw [if_pos (hp 116), cstr_rest 116 rest hrest]
    exact congrArg Res.ok (send_mesg_sent s _ hfit)
  · intro hne hfit
    have e : bytes "/l " ++ rest = 47 :: 108 :: 32 :: rest := rfl
    rw [e, command_line env s c chan 108 .leave (32 :: rest) hc rfl (Or.inl rfl)]
    simp only [run_handler, Res.bind_ok, handle_leave]
    rw [if_neg hne, if_neg (hp 108), cstr_rest 108 rest hrest]
    exact congrArg Res.ok (send_mesg_sent s _ hfit)
  · have e : bytes "/a" = [47, 97] := rfl
    rw [e, command_line env s c chan 97 .away [] hc rfl (Or.inr rfl)]
    simp only [run_handler, Res.bind_ok, handle_away]
    rw [if_neg (fun h => h rfl)]
    exact congrArg Res.ok (send_mesg_sent s _ (by decide))
  · intro hne
    have e : bytes "/l" = [47, 108] := rfl
    rw [e, command_line env s c chan 108 .leave [] hc rfl (Or.inr rfl)]
    simp only [run_handler, Res.bind_ok, handle_leave]
    rw [if_neg hne, if_pos (show peek [47, 108] 2 = 0 from rfl)]
    have e5 : (bytes "PART ").length = 5 := rfl
    exact congrArg Res.ok (send_mesg_sent s _ (by
      simp only [List.length_append, e5, List.length_cons, List.length_nil]
      omega))
  · have e : bytes "/q" = [47, 113] := rfl
    rw [e, command_line env s c chan 113 .quit [] hc rfl (Or.inr rfl)]
    simp only [run_handler, Res.bind_ok, handle_quit]
    rw [if_neg (fun h => h rfl)]
    exact congrArg Res.ok (send_mesg_sent s _ (by decide))
  · have e : bytes "/t" = [47, 116] := rfl
    rw [e, command_line env s c chan 116 .topic [] hc rfl (Or.inr rfl)]
    simp only [run_handler, Res.bind_ok, handle_topic]
    rw [if_neg (fun h => h rfl)]
    have e5 : (bytes "TOPIC ").length = 6 := rfl
    exact congrArg Res.ok (send_mesg_sent s _ (by
      simp only [List.length_append, e5, List.length_cons, List.length_nil]
      omega))
  · have e : bytes "/u" = [47, 117] := rfl
    rw [e, command_line env s c chan 117 .names [] hc rfl (Or.inr rfl)]
    simp only [run_handler, Res.bind_ok, handle_names]
    have e5 : (bytes "NAMES ").length = 6 := rfl
    exact congrArg Res.ok (send_mesg_sent s _ (by
      simp only [List.length_append, e5, List.length_cons, List.length_nil]
      omega))

theorem command_table_witness :
    handle_channel_input env_ok st_chan 0 (some (bytes "/k " ++ bytes "bob"))
        = .ok (sent st_chan (bytes "KICK " ++ bytes "#chan" ++ [32] ++ bytes "bob" ++ [13, 10])) ∧
      handle_channel_input env_ok st_chan 0 (some (bytes "/t " ++ bytes "bob"))
        = .ok (sent st_chan (bytes "TOPIC " ++ bytes "#chan" ++ bytes " :" ++ bytes "bob"
            ++ [13, 10])) ∧
      handle_channel_input env_ok st_chan 0 (some (bytes "/u"))
        = .ok (sent st_chan (bytes "NAMES " ++ bytes "#chan" ++ [13, 10])) :=
  ⟨(command_table env_ok st_chan 0 { fd := 4, name := bytes "#chan" } (bytes "bob") rfl
      (by decide) (by decide)).2.2.1 (by decide),
    (command_table env_ok st_chan 0 { fd := 4, name := bytes "#chan" } (bytes "bob") rfl
      (by decide) (by decide)).2.2.2.2.2.2.1 (by decide),
    (command_table env_ok st_chan 0 { fd := 4, name := bytes "#chan" } (bytes "bob") rfl
      (by decide) (by decide)).2.2.2.2.2.2.2.2.2.2.2.2⟩

/-- `handle_join` on `/j first key`, `first` a channel name. -/
theorem handle_join_channel_key (env : Env) (s : State) (first k : List Nat)
    (hch : is_channel first = true) (hfirst : ∀ x ∈ first, x ≠ 32 ∧ x ≠ 0)
    (hk : ∀ x ∈ k, x ≠ 0) :
    handle_join env s (47 :: 106 :: 32 :: (first ++ 32 :: k)) 2
      = .ok (s, some (bytes "JOIN " ++ first ++ [32] ++ k ++ [13, 10])) := by
  have hcut := cut_found (47 :: 106 :: 32 :: (first ++ 32 :: k)) [47, 106, 32] first k 32 (2 + 1)
    rfl rfl hfirst
  have hf : cstr ([47, 106, 32] ++ (first ++ 0 :: k)) (2 + 1) = first :=
    cstr_mid _ [47, 106, 32] first k (2 + 1) rfl rfl (fun x hx => (hfirst x hx).2)
  have hm : cstr ([47, 106, 32] ++ (first ++ 0 :: k)) ([47, 106, 32].length + first.length + 1)
      = k :=
    cstr_last _ ([47, 106, 32] ++ first ++ [0]) k _ (by simp) (by simp; omega) hk
  unfold handle_join
  rw [if_neg (show ¬ peek (47 :: 106 :: 32 :: (first ++ 32 :: k)) 2 = 0 by
    show ¬ (32 : Nat) = 0
    decide)]
  simp only [hcut, hf, hm, hch, if_true]

/-- `handle_join` on `/j first`, `first` a channel name. -/
theorem handle_join_channel (env : Env) (s : State) (first : List Nat)
    (hch : is_channel first = true) (hfirst : ∀ x ∈ first, x ≠ 32 ∧ x ≠ 0) :
    handle_join env s (47 :: 106 :: 32 :: first) 2
      = .ok (s, some (bytes "JOIN " ++ first ++ [32] ++ [] ++ [13, 10])) := by
  have hnone := strchr_none_end (47 :: 106 :: 32 :: first) [47, 106, 32] first 32 (2 + 1)
    rfl rfl hfirst
  have hf : cstr (47 :: 106 :: 32 :: first) (2 + 1) = first :=
    cstr_last _ [47, 106, 32] first (2 + 1) rfl rfl (fun x hx => (hfirst x hx).2)
  unfold handle_join
  rw [if_neg (show ¬ peek (47 :: 106 :: 32 :: first) 2 = 0 by
    show ¬ (32 : Nat) = 0
    decide)]
  simp only [hnone, cut, hf, hch, if_true]

set_option maxRecDepth 100000 in
/-- C17, as stated, fails: in `/j #c aaa...` with a key of 600 bytes the message
`JOIN #c aaa...` has 610 bytes with its CR LF; `handle_channel_input` hands
`write` the 512 bytes of `mesg`, the first 510 bytes of the message and the
CR LF patched over the last two, with the length 610, not the message. -/
theorem join_overlong_is_cut :
    is_channel (bytes "#c") = true ∧
      handle_channel_input env_ok st_chan 0
          (some (join_line (bytes "#c") (some (List.replicate 600 97))))
        = .ok { st_chan with sock := [{ data := bytes "JOIN #c " ++ List.replicate 502 97
                                          ++ [13, 10], len := 610 }] } ∧
      handle_channel_input env_ok st_chan 0
          (some (join_line (bytes "#c") (some (List.replicate 600 97))))
        ≠ .ok (sent st_chan (bytes "JOIN " ++ bytes "#c" ++ [32] ++ List.replicate 600 97
            ++ [13, 10])) := by
  decide

/-- C17, amended: for every conversation of the list and every line `/j first`
or `/j first key`, where `first` is a channel name (`is_channel` holds) free
of spaces, `key` is the rest of the line, and `JOIN first key` with its CR LF
fits in 512 bytes, `handle_channel_input` writes exactly `JOIN first key\r\n`
to the socket (the key empty when absent, so `JOIN first \r\n`), echoes
nothing and changes neither the conversation set nor anything else. -/
theorem join_command (env : Env) (s : State) (c : Nat) (chan : Channel) (first : List Nat)
    (key : Option (List Nat)) (hc : s.channels[c]? = some chan)
    (hch : is_channel first = true) (hfirst : ∀ x ∈ first, x ≠ 32 ∧ x ≠ 0)
    (hkey : ∀ x ∈ key.getD [], x ≠ 0)
    (hfit : (bytes "JOIN " ++ first ++ [32] ++ key.getD [] ++ [13, 10]).length ≤ 512) :
    handle_channel_input env s c (some (join_line first key))
      = .ok (sent s (bytes "JOIN " ++ first ++ [32] ++ key.getD [] ++ [13, 10])) := by
  cases key with
  | none =>
    have e : join_line first none = 47 :: 106 :: 32 :: first := by simp [join_line]; rfl
    rw [e, command_line env s c chan 106 .join (32 :: first) hc rfl (Or.inl rfl)]
    simp only [run_handler, handle_join_channel env s first hch hfirst, Res.bind_ok]
    exact congrArg Res.ok (send_mesg_sent s _ hfit)
  | some k =>
    have e : join_line first (some k) = 47 :: 106 :: 32 :: (first ++ 32 :: k) := by
      simp [join_line]; rfl
    rw [e, command_line env s c chan 106 .join (32 :: (first ++ 32 :: k)) hc rfl (Or.inl rfl)]
    simp only [run_handler, handle_join_channel_key env s first k hch hfirst hkey, Res.bind_ok]
    exact congrArg Res.ok (send_mesg_sent s _ hfit)

theorem join_command_witness :
    handle_channel_input env_ok st_chan 0 (some (join_line (bytes "#foo") (some (bytes "key x"))))
        = .ok (sent st_chan (bytes "JOIN " ++ bytes "#foo" ++ [32]
            ++ (some (bytes "key x")).getD [] ++ [13, 10])) ∧
      handle_channel_input env_ok st_chan 0 (some (join_line (bytes "#foo") none))
        = .ok (sent st_chan (bytes "JOIN " ++ bytes "#foo" ++ [32]
            ++ (none : Option (List Nat)).getD [] ++ [13, 10])) :=
  ⟨join_command env_ok st_chan 0 { fd := 4, name := bytes "#chan" } (bytes "#foo")
      (some (bytes "key x")) rfl (by decide) (by decide) (by decide) (by decide),
    join_command env_ok st_chan 0 { fd := 4, name := bytes "#chan" } (bytes "#foo") none rfl
      (by decide) (by decide) (by decide) (by decide)⟩

/-- C19: `/p` is not the default.  In the conversation `#chan`, the line `/p hi`
sends `PRIVMSG #chan : hi` and echoes ` hi`, both with the space that
separates the command letter from the text, where the plain line `hi` sends
`PRIVMSG #chan :hi` and echoes `hi`: `handle_priv` is called with `input + 2`,
where every other handler of the table skips the space by `params + 1`. -/
theorem slash_p_keeps_the_space :
    handle_channel_input env_ok st_chan 0 (some (bytes "/p hi"))
        = .ok (sent (write_out env_ok st_chan (bytes "#chan") (bytes "self") (bytes " hi"))
            (bytes "PRIVMSG #chan : hi\r\n")) ∧
      handle_channel_input env_ok st_chan 0 (some (bytes "hi"))
        = .ok (sent (write_out env_ok st_chan (bytes "#chan") (bytes "self") (bytes "hi"))
            (bytes "PRIVMSG #chan :hi\r\n")) ∧
      handle_channel_input env_ok st_chan 0 (some (bytes "/p hi"))
        ≠ handle_channel_input env_ok st_chan 0 (some (bytes "hi")) := by
  decide

/-- The bare lines `/i`, `/j`, `/k`, `/m`, `/n` write nothing and change
nothing, and so does a line `/l` or `/l ...` in the server conversation. -/
theorem bare_commands_are_silent (env : Env) (s : State) (c : Nat) (chan : Channel)
    (hc : s.channels[c]? = some chan) :
    handle_channel_input env s c (some (bytes "/i")) = .ok s ∧
      handle_channel_input env s c (some (bytes "/j")) = .ok s ∧
      handle_channel_input env s c (some (bytes "/k")) = .ok s ∧
      handle_channel_input env s c (some (bytes "/m")) = .ok s ∧
      handle_channel_input env s c (some (bytes "/n")) = .ok s ∧
      (chan.name = [] → ∀ rest, handle_channel_input env s c (some (bytes "/l")) = .ok s ∧
        handle_channel_input env s c (some (bytes "/l " ++ rest)) = .ok s) := by
  have hb : ∀ l, peek [47, l] 2 = 0 := fun _ => rfl
  refine ⟨?_, ?_, ?_, ?_, ?_, fun hn rest => ⟨?_, ?_⟩⟩
  · have e : bytes "/i" = [47, 105] := rfl
    rw [e, command_line env s c chan 105 .invit [] hc rfl (Or.inr rfl)]
    simp only [run_handler, Res.bind_ok, handle_invit, hb, ne_eq, not_true_eq_false, if_false,
      send_mesg_none]
  · have e : bytes "/j" = [47, 106] := rfl
    rw [e, command_line env s c chan 106 .join [] hc rfl (Or.inr rfl)]
    simp only [run_handler, handle_join, hb, if_true, Res.bind_ok, send_mesg_none]
  · have e : bytes "/k" = [47, 107] := rfl
    rw [e, command_line env s c chan 107 .kick [] hc rfl (Or.inr rfl)]
    simp only [run_handler, Res.bind_ok, handle_kick, hb, ne_eq, not_true_eq_false, if_false,
      send_mesg_none]
  · have e : bytes "/m" = [47, 109] := rfl
    rw [e, command_line env s c chan 109 .mode [] hc rfl (Or.inr rfl)]
    simp only [run_handler, Res.bind_ok, handle_mode, hb, ne_eq, not_true_eq_false, if_false,
      send_mesg_none]
  · have e : bytes "/n" = [47, 110] := rfl
    rw [e, command_line env s c chan 110 .nick [] hc rfl (Or.inr rfl)]
    simp only [run_handler, Res.bind_ok, handle_nick, hb, ne_eq, not_true_eq_false, if_false,
      send_mesg_none]
  · have e : bytes "/l" = [47, 108] := rfl
    rw [e, command_line env s c chan 108 .leave [] hc rfl (Or.inr rfl)]
    simp only [run_handler, Res.bind_ok, handle_leave, hn, if_true, send_mesg_none]
  · have e : bytes "/l " ++ rest = 47 :: 108 :: 32 :: rest := rfl
    rw [e, command_line env s c chan 108 .leave (32 :: rest) hc rfl (Or.inl rfl)]
    simp only [run_handler, Res.bind_ok, handle_leave, hn, if_true, send_mesg_none]

/-- C20: a command letter followed by its one separating space is not a no-op.
In the conversation `#chan` the lines `/n `, `/i `, `/k `, `/m ` send
`NICK `, `INVITE  #chan`, `KICK #chan `, `MODE #chan `, and `/j ` sends
`PRIVMSG  :` and echoes an empty text to the server conversation: the handlers
test `*params`, which is that space, not the first byte of the text.  The bare
`/n` sends nothing. -/
theorem command_with_lone_space_is_sent :
    handle_channel_input env_ok st_chan 0 (some (bytes "/n "))
        = .ok (sent st_chan (bytes "NICK \r\n")) ∧
      handle_channel_input env_ok st_chan 0 (some (bytes "/i "))
        = .ok (sent st_chan (bytes "INVITE  #chan\r\n")) ∧
      handle_channel_input env_ok st_chan 0 (some (bytes "/k "))
        = .ok (sent st_chan (bytes "KICK #chan \r\n")) ∧
      handle_channel_input env_ok st_chan 0 (some (bytes "/m "))
        = .ok (sent st_chan (bytes "MODE #chan \r\n")) ∧
      handle_channel_input env_ok st_chan 0 (some (bytes "/j "))
        = .ok (sent (write_out env_ok st_chan [] (bytes "self") []) (bytes "PRIVMSG  :\r\n")) ∧
      handle_channel_input env_ok st_chan 0 (some (bytes "/n")) = .ok st_chan := by
  decide

/-! ## Theorems: the branches of the server handler -/

/-- The parser leaves `nickname` at `SERVER_NICK` and `mesg` empty. -/
theorem parse_nickname (input : List Nat) :
    (parse input).nickname = some SERVER_NICK ∧ (parse input).mesg = [] := by
  have h1 : ∀ v, (parse_command v).nickname = v.nickname ∧ (parse_command v).mesg = v.mesg :=
    fun v => by unfold parse_command; split <;> exact ⟨rfl, rfl⟩
  have h2 : ∀ v, (parse_host v).nickname = v.nickname ∧ (parse_host v).mesg = v.mesg :=
    fun v => by unfold parse_host; split <;> exact ⟨rfl, rfl⟩
  have h3 : ∀ v, (parse_user v).nickname = v.nickname ∧ (parse_user v).mesg = v.mesg :=
    fun v => by unfold parse_user; split <;> exact ⟨rfl, rfl⟩
  have h4 : ∀ v, (parse_params v).nickname = v.nickname ∧ (parse_params v).mesg = v.mesg :=
    fun v => by unfold parse_params; split <;> exact ⟨rfl, rfl⟩
  have h5 : ∀ v, (parse_middle v).nickname = v.nickname ∧ (parse_middle v).mesg = v.mesg :=
    fun v => by
      unfold parse_middle
      split
      · exact ⟨rfl, rfl⟩
      · split <;> exact ⟨rfl, rfl⟩
  have h6 : ∀ v, (parse_trailing v).nickname = v.nickname ∧ (parse_trailing v).mesg = v.mesg :=
    fun v => by unfold parse_trailing; split <;> exact ⟨rfl, rfl⟩
  unfold parse
  rw [(h6 _).1, (h5 _).1, (h4 _).1, (h3 _).1, (h2 _).1, (h1 _).1,
    (h6 _).2, (h5 _).2, (h4 _).2, (h3 _).2, (h2 _).2, (h1 _).2]
  exact ⟨rfl, rfl⟩

/-- The handler, from what its three blocks gave. -/
theorem handle_server_output_of (env : Env) (s s1 s2 : State) (input : List Nat) (v : Vars)
    (b : Bool) (hd : dispatch env s (parse input) = .ok (s1, v)) (hr : route env s1 v = .ok s2)
    (hf : continue_flag s2 v = .ok b) : handle_server_output env s input = .ok (s2, b) := by
  unfold handle_server_output
  simp only [Res.bind_eq, Res.pure_eq, hd, Res.bind_ok, hr, hf]

theorem handle_server_output_exit (env : Env) (s : State) (input : List Nat)
    (hd : dispatch env s (parse input) = .exit) : handle_server_output env s input = .exit := by
  unfold handle_server_output
  simp only [Res.bind_eq, hd, Res.bind_exit]

theorem handle_server_output_ub (env : Env) (s : State) (input : List Nat)
    (hd : dispatch env s (parse input) = .ub) : handle_server_output env s input = .ub := by
  unfold handle_server_output
  simp only [Res.bind_eq, hd, Res.bind_ub]

theorem str_of_field (v : Vars) (p : Option Nat) (w : List Nat) (h : field v p = some w) :
    str v.buf p = .ok w := by
  obtain ⟨i, hi, hw⟩ := field_some v p w h
  rw [hi, ← hw]
  rfl

/-- The log line goes out, or there is none: the block that routes it returns
and touches neither the list, the nick nor the socket. -/
theorem route_returns (env : Env) (s : State) (v : Vars) (ps pf nk : List Nat)
    (hp : str v.buf v.params = .ok ps) (hf : str v.buf v.prefix_nick = .ok pf)
    (hn : v.nickname = some nk) :
    ∃ s2, route env s v = .ok s2 ∧ s2.channels = s.channels ∧ s2.nick = s.nick ∧
      s2.sock = s.sock := by
  unfold route
  by_cases hm : v.mesg ≠ []
  · rw [if_pos hm]
    cases hh : v.prefix_host with
    | none => exact ⟨_, rfl, rfl, rfl, rfl⟩
    | some ph =>
      simp only [Res.bind_eq, Res.pure_eq, hp, hf, hn, deref, Res.bind_ok]
      by_cases he : ps = []
      · rw [if_pos he]; exact ⟨_, rfl, rfl, rfl, rfl⟩
      · rw [if_neg he]
        by_cases hc : is_channel ps = true
        · rw [if_pos hc]; exact ⟨_, rfl, rfl, rfl, rfl⟩
        · rw [if_neg hc]; exact ⟨_, rfl, rfl, rfl, rfl⟩
  · rw [if_neg hm]; exact ⟨_, rfl, rfl, rfl, rfl⟩

theorem route_silent (env : Env) (s : State) (v : Vars) (hm : v.mesg = []) :
    route env s v = .ok s := by
  unfold route
  rw [if_neg (by simp [hm])]

theorem continue_flag_other (s : State) (v : Vars) (w : List Nat)
    (hc : str v.buf v.command = .ok w) (hw : w ≠ bytes "QUIT") :
    continue_flag s v = .ok true := by
  unfold continue_flag
  simp only [Res.bind_eq, Res.pure_eq, hc, Res.bind_ok, if_neg hw]

theorem dispatch_001 (env : Env) (s : State) (v : Vars) (c : Nat) (hc : v.command = some c)
    (h : cstr v.buf c = bytes "001") : dispatch env s v = on_001 s v := by
  unfold dispatch
  simp only [hc, h]
  rw [if_neg (by decide), if_pos trivial]

theorem dispatch_kick (env : Env) (s : State) (v : Vars) (c : Nat) (hc : v.command = some c)
    (h : cstr v.buf c = bytes "KICK") : dispatch env s v = on_kick s v := by
  unfold dispatch
  simp only [hc, h]
  rw [if_neg (by decide), if_neg (by decide), if_neg (by decide), if_neg (by decide),
    if_neg (by decide), if_neg (by decide), if_pos trivial]

theorem dispatch_part (env : Env) (s : State) (v : Vars) (c : Nat) (hc : v.command = some c)
    (h : cstr v.buf c = bytes "PART") : dispatch env s v = on_part s v := by
  unfold dispatch
  simp only [hc, h]
  rw [if_neg (by decide), if_neg (by decide), if_neg (by decide), if_neg (by decide),
    if_neg (by decide), if_neg (by decide), if_neg (by decide), if_pos trivial]

theorem dispatch_join (env : Env) (s : State) (v : Vars) (c : Nat) (hc : v.command = some c)
    (h : cstr v.buf c = bytes "JOIN") : dispatch env s v = on_join env s v := by
  unfold dispatch
  simp only [hc, h]
  rw [if_neg (by decide), if_neg (by decide), if_neg (by decide), if_neg (by decide),
    if_neg (by decide), if_neg (by decide), if_neg (by decide), if_neg (by decide), if_pos trivial]

theorem dispatch_ping (env : Env) (s : State) (v : Vars) (c : Nat) (hc : v.command = some c)
    (h : cstr v.buf c = bytes "PING") : dispatch env s v = on_ping s v := by
  unfold dispatch
  simp only [hc, h]
  rw [if_neg (by decide), if_neg (by decide), if_neg (by decide), if_neg (by decide),
    if_neg (by decide), if_neg (by decide), if_neg (by decide), if_neg (by decide),
    if_neg (by decide), if_neg (by decide), if_neg (by decide), if_neg (by decide), if_pos trivial]

theorem parse_params_command (v : Vars) : (parse_params v).command = v.command := by
  unfold parse_params
  split <;> rfl

theorem parse_middle_command (v : Vars) : (parse_middle v).command = v.command := by
  unfold parse_middle
  split
  · rfl
  · split <;> rfl

theorem parse_trailing_command (v : Vars) :
    (parse_trailing v).command = v.command ∧ (parse_trailing v).middle = v.middle := by
  unfold parse_trailing
  split <;> exact ⟨rfl, rfl⟩

/-- The parser closes `command` by a NUL that lies before `trailing - 1`. -/
theorem parse_command_nul (input : List Nat) (c t : Nat)
    (hc : (parse input).command = some c) (ht : (parse input).trailing = some t) :
    ∃ q, c ≤ q ∧ q + 2 ≤ t ∧ peek (parse input).buf q = 0 := by
  unfold parse at hc ht ⊢
  generalize hv3 : parse_user (parse_host (parse_command (parse_init input))) = v3 at hc ht ⊢
  have h3p : v3.params = none := by
    rw [← hv3, (parse_user_cuts _).2.2.1, (parse_host_cuts _).2.2.1]
    unfold parse_command
    cases (parse_init input).prefix_nick <;> rfl
  have h3t : v3.trailing = none := by
    rw [← hv3, parse_user_trailing, parse_host_trailing, parse_command_trailing,
      parse_init_trailing]
  have h5t : (parse_middle (parse_params v3)).trailing = none := by
    rw [parse_middle_trailing, parse_params_trailing, h3t]
  rw [(parse_trailing_command _).1, parse_middle_command, parse_params_command] at hc
  obtain ⟨m, q2, hm, hs2, ht2, _⟩ := parse_trailing_some _ t h5t ht
  obtain ⟨pp, hpp, hcase⟩ := parse_middle_some _ m hm
  obtain ⟨c', q, hc', hs, hq⟩ := parse_params_some _ pp h3p hpp
  rw [hc] at hc'
  simp only [Option.some.injEq] at hc'
  subst hc'
  have g := strchr_ge _ _ _ _ hs
  have g2 := strchr_ge _ _ _ _ hs2
  have hmpp : pp ≤ m := by
    rcases hcase with ⟨_, hmp, _⟩ | ⟨q1, hs1, hmq, _⟩
    · omega
    · have := strchr_ge _ _ _ _ hs1
      omega
  have hz : peek (parse_params v3).buf q = 0 := by
    unfold parse_params
    rw [hc]
    simp only [hs, cut]
    exact peek_set_self _ _
  exact ⟨q, g, by omega, (parse_trailing_cuts _).2 _ ((parse_middle_cuts _).2 _ hz)⟩

/-- The byte that `KICK` and `353` clear, `trailing - 2`, lies outside the
string of `command`. -/
theorem parse_poke_command (input : List Nat) (c t : Nat)
    (hc : (parse input).command = some c) (ht : (parse input).trailing = some t) :
    cstr ((parse input).buf.set (t - 2) 0) c = cstr (parse input).buf c := by
  obtain ⟨q, h1, h2, h3⟩ := parse_command_nul input c t hc ht
  exact cstr_set_after_nul _ c q (t - 2) h1 (by omega) h3

/-- The byte that `KICK` clears, `trailing - 2`, is the last byte of a
`middle` that is not empty. -/
theorem parse_kick_middle (input : List Nat) (m t : Nat) (w : List Nat) (x : Nat)
    (hm : (parse input).middle = some m) (ht : (parse input).trailing = some t)
    (hw : cstr (parse input).buf m = w ++ [x]) :
    cstr ((parse input).buf.set (t - 2) 0) m = w := by
  unfold parse at hm ht hw ⊢
  generalize hv5 : parse_middle (parse_params (parse_user (parse_host (parse_command
    (parse_init input))))) = v5 at hm ht hw ⊢
  have h5t : v5.trailing = none := by
    rw [← hv5, parse_middle_trailing, parse_params_trailing, parse_user_trailing,
      parse_host_trailing, parse_command_trailing, parse_init_trailing]
  rw [(parse_trailing_command _).2] at hm
  obtain ⟨m', q, hm', hs, htq, hb⟩ := parse_trailing_some _ t h5t ht
  rw [hm] at hm'
  simp only [Option.some.injEq] at hm'
  subst hm'
  obtain ⟨hseg, hq⟩ := cut_seg v5.buf m 58 q hs
  rw [hb] at hw ⊢
  rw [hseg.cstr_eq] at hw
  rw [hw] at hseg hq
  obtain ⟨a, rest, hbuf, hma, hnz⟩ := hseg
  have ht2 : t - 2 = (a ++ w).length := by
    simp only [List.length_append, List.length_singleton] at hq ⊢
    omega
  rw [hbuf, ht2]
  have e : a ++ (w ++ [x] ++ 0 :: rest) = (a ++ w) ++ x :: (0 :: rest) := by simp
  rw [e, set_at_length, List.append_assoc]
  exact cstr_mid _ a w (0 :: rest) m rfl hma
    (fun y hy => hnz y (List.mem_append_left _ hy))

theorem dispatch_quit (env : Env) (s : State) (v : Vars) (c : Nat) (hc : v.command = some c)
    (h : cstr v.buf c = bytes "QUIT") : dispatch env s v = on_quit s v := by
  unfold dispatch
  simp only [hc, h]
  rw [if_neg (by decide), if_neg (by decide), if_neg (by decide), if_neg (by decide),
    if_neg (by decide), if_neg (by decide), if_neg (by decide), if_neg (by decide),
    if_neg (by decide), if_pos trivial]

/-- A `QUIT` with a prefix, a `params` and a reason: the handler returns, and
returns false exactly when the prefix nick is our nick. -/
theorem quit_with_prefix (env : Env) (s : State) (input n ps r : List Nat)
    (hcmd : field (parse input) (parse input).command = some (bytes "QUIT"))
    (hpfx : field (parse input) (parse input).prefix_nick = some n)
    (hpar : field (parse input) (parse input).params = some ps)
    (htr : field (parse input) (parse input).trailing = some r) :
    ∃ s', handle_server_output env s input = .ok (s', !(decide (s.nick = n))) ∧
      s'.channels = s.channels ∧ s'.nick = s.nick := by
  obtain ⟨c, hc, hcs⟩ := field_some _ _ _ hcmd
  have hd : dispatch env s (parse input) = .ok (s,
      { parse input with mesg := snprintf_mesg (n ++ bytes " has quit (" ++ r ++ bytes ")") }) := by
    rw [dispatch_quit env s _ c hc hcs]
    unfold on_quit
    simp only [Res.bind_eq, Res.pure_eq, str_of_field _ _ _ hpfx, str_of_field _ _ _ htr,
      Res.bind_ok]
  obtain ⟨s2, hr, hch2, hn2, _⟩ := route_returns env s
    { parse input with mesg := snprintf_mesg (n ++ bytes " has quit (" ++ r ++ bytes ")") }
    ps n SERVER_NICK (str_of_field (parse input) _ _ hpar) (str_of_field (parse input) _ _ hpfx)
    (parse_nickname input).1
  refine ⟨s2, handle_server_output_of env s _ _ input _ _ hd hr ?_, hch2, hn2⟩
  unfold continue_flag
  simp only [Res.bind_eq, Res.pure_eq]
  rw [show str (parse input).buf (parse input).command = .ok (bytes "QUIT") from
    str_of_field (parse input) _ _ hcmd]
  rw [show str (parse input).buf (parse input).prefix_nick = .ok n from
    str_of_field (parse input) _ _ hpfx]
  simp only [Res.bind_ok, if_true, hn2]

/-- C11: the server conversation does not survive every server line.  In the
registered state `st_self`, whose list holds the server conversation alone,
our own PART with the channel as trailing, `:self!u@h PART :#chan`, has an
empty `params`; `handle_server_output` calls `remove_channel` on it, and the
state it returns holds no conversation named `""`. -/
theorem part_with_trailing_drops_server_conversation :
    lookup [] st_self.channels = true ∧
      handle_server_output env_ok st_self (bytes ":self!u@h PART :#chan")
        = .ok (write_out env_ok { st_self with channels := [] } [] SERVER_NICK
            (bytes "self has parted  (#chan)"), true) ∧
      lookup [] (write_out env_ok { st_self with channels := [] } [] SERVER_NICK
        (bytes "self has parted  (#chan)")).channels = false := by
  decide

/-- C12: for every state and every server line whose command is `JOIN`, whose
prefix nick the parser found (ours or any other) and whose channel, `params`,
or `trailing` when `params` is empty as in `:n!u@h JOIN :#chan`, has a
canonical form (`to_irc_lower` accepts it): either `add_channel` ends the
process (a failed `calloc` or `open_channel`) and so does
`handle_server_output`, or `handle_server_output` returns true and the list
of the state it returns holds a conversation named by the canonical form of
the channel. -/
theorem join_adds_conversation (env : Env) (s : State) (input n ch : List Nat)
    (hcmd : field (parse input) (parse input).command = some (bytes "JOIN"))
    (hpfx : field (parse input) (parse input).prefix_nick = some n)
    (hch : (if field (parse input) (parse input).params = some []
        then field (parse input) (parse input).trailing
        else field (parse input) (parse input).params) = some ch)
    (hacc : (to_irc_lower ch BUF_CHAN_LEN).1 = true) :
    (add_channel env s ch = .exit ∧ handle_server_output env s input = .exit) ∨
      ∃ s', handle_server_output env s input = .ok (s', true) ∧
        lookup (to_irc_lower ch BUF_CHAN_LEN).2 s'.channels = true := by
  obtain ⟨c, hc, hcs⟩ := field_some _ _ _ hcmd
  have hd := dispatch_join env s (parse input) c hc hcs
  cases hpp : (parse input).params with
  | none =>
    rw [hpp] at hch
    simp [field] at hch
  | some p =>
    have hsel : field (parse input)
        (if peek (parse input).buf p = 0 then (parse input).trailing else some p) = some ch := by
      rw [hpp] at hch
      by_cases h0 : peek (parse input).buf p = 0
      · have he : field (parse input) (some p) = some [] := by
          simp only [field, Option.map_some', (cstr_eq_nil_iff _ _).2 h0]
        rw [if_pos he] at hch
        rw [if_pos h0]
        exact hch
      · have he : field (parse input) (some p) ≠ some [] := by
          simp only [field, Option.map_some', ne_eq, Option.some.injEq]
          exact fun h => h0 ((cstr_eq_nil_iff _ _).1 h)
        rw [if_neg he] at hch
        rw [if_neg h0]
        exact hch
    have hj : on_join env s (parse input) = (add_channel env s ch).bind (fun r =>
        .ok (r.1, { parse input with
          params := if peek (parse input).buf p = 0 then (parse input).trailing else some p,
          mesg := snprintf_mesg (n ++ bytes " has joined " ++ ch) })) := by
      unfold on_join
      simp only [hpp, Res.bind_eq, Res.pure_eq, str_of_field _ _ _ hpfx,
        str_of_field _ _ _ hsel, Res.bind_ok]
    rw [hj] at hd
    cases ha : add_channel env s ch with
    | ub => exact absurd ha (add_channel_not_ub env s ch)
    | exit =>
      rw [ha] at hd
      exact Or.inl ⟨rfl, handle_server_output_exit env s input hd⟩
    | ok r =>
      rw [ha] at hd
      simp only [Res.bind_ok] at hd
      obtain ⟨s2, hr, hch2, _, _⟩ := route_returns env r.1
        { parse input with
          params := if peek (parse input).buf p = 0 then (parse input).trailing else some p,
          mesg := snprintf_mesg (n ++ bytes " has joined " ++ ch) } ch n SERVER_NICK
        (str_of_field (parse input) _ _ hsel) (str_of_field (parse input) _ _ hpfx)
        (parse_nickname input).1
      refine Or.inr ⟨s2, handle_server_output_of env s _ _ input _ true hd hr
        (continue_flag_other _ _ _ (str_of_field _ _ _ hcmd) (by decide)), ?_⟩
      rw [hch2]
      exact (add_channel_adds env s r.1 ch r.2 ha hacc).2

theorem join_adds_conversation_witness :
    (add_channel env_ok st_self (bytes "#Chan") = .exit ∧
        handle_server_output env_ok st_self (bytes ":self!u@h JOIN :#Chan") = .exit) ∨
      ∃ s', handle_server_output env_ok st_self (bytes ":self!u@h JOIN :#Chan") = .ok (s', true) ∧
        lookup (to_irc_lower (bytes "#Chan") BUF_CHAN_LEN).2 s'.channels = true :=
  join_adds_conversation env_ok st_self (bytes ":self!u@h JOIN :#Chan") (bytes "self")
    (bytes "#Chan") (by decide) (by decide) (by decide) (by decide)

theorem remove_channel_removes (s : State) (channel : List Nat)
    (hnd : (s.channels.map Channel.name).Nodup) :
    (to_irc_lower channel BUF_CHAN_LEN).2 ∉ (remove_channel s channel).channels.map Channel.name :=
  unlink_not_mem _ _ hnd

/-- A PART or KICK of ours whose channel stands in `params`.  For every state
whose list holds no name twice (it is a set), with current nick `n`, and every
server line with prefix nick `k` and `params` field `ch`: when the command is
`PART` and `k = n`, or when the command is `KICK`, the line has a trailing and
its middle field is `n` followed by one space (the line
`:k!u@h KICK ch n :reason`), `handle_server_output` returns true, and the list
of the state it returns holds no conversation whose name is the canonical form
of `ch`. -/
theorem part_and_kick_remove (env : Env) (s : State) (input k ch : List Nat)
    (hnd : (s.channels.map Channel.name).Nodup)
    (hpfx : field (parse input) (parse input).prefix_nick = some k)
    (hpar : field (parse input) (parse input).params = some ch) :
    (field (parse input) (parse input).command = some (bytes "PART") → k = s.nick →
      ∃ s', handle_server_output env s input = .ok (s', true) ∧
        (to_irc_lower ch BUF_CHAN_LEN).2 ∉ s'.channels.map Channel.name) ∧
    (field (parse input) (parse input).command = some (bytes "KICK") →
      field (parse input) (parse input).middle = some (s.nick ++ [32]) →
      (parse input).trailing ≠ none →
      ∃ s', handle_server_output env s input = .ok (s', true) ∧
        (to_irc_lower ch BUF_CHAN_LEN).2 ∉ s'.channels.map Channel.name) := by
  refine ⟨fun hcmd hk => ?_, fun hcmd hmid htr => ?_⟩
  · obtain ⟨c, hc, hcs⟩ := field_some _ _ _ hcmd
    have hd : dispatch env s (parse input) = .ok (remove_channel s ch,
        { parse input with mesg := snprintf_mesg (k ++ bytes " has parted " ++ ch ++ bytes " ("
          ++ (match (parse input).trailing with
              | some t => cstr (parse input).buf t
              | none => []) ++ bytes ")") }) := by
      rw [dispatch_part env s _ c hc hcs]
      unfold on_part
      simp only [Res.bind_eq, Res.pure_eq, str_of_field _ _ _ hpfx, str_of_field _ _ _ hpar,
        Res.bind_ok, hk, if_true]
    obtain ⟨s2, hr, hch2, _, _⟩ := route_returns env (remove_channel s ch)
      { parse input with mesg := snprintf_mesg (k ++ bytes " has parted " ++ ch ++ bytes " ("
          ++ (match (parse input).trailing with
              | some t => cstr (parse input).buf t
              | none => []) ++ bytes ")") } ch k SERVER_NICK
      (str_of_field (parse input) _ _ hpar) (str_of_field (parse input) _ _ hpfx)
      (parse_nickname input).1
    refine ⟨s2, handle_server_output_of env s _ _ input _ true hd hr
      (continue_flag_other _ _ _ (str_of_field (parse input) _ _ hcmd) (by decide)), ?_⟩
    rw [hch2]
    exact remove_channel_removes s ch hnd
  · obtain ⟨c, hc, hcs⟩ := field_some _ _ _ hcmd
    obtain ⟨p1, hp1, hp1s⟩ := field_some _ _ _ hpfx
    obtain ⟨pp, hpp, hpps⟩ := field_some _ _ _ hpar
    obtain ⟨m, hm, hms⟩ := field_some _ _ _ hmid
    obtain ⟨t, ht⟩ := Option.ne_none_iff_exists'.mp htr
    obtain ⟨q, _, hq, _⟩ := parse_prefix_nul input p1 t hp1 ht
    have e1 : cstr ((parse input).buf.set (t - 2) 0) p1 = k := by
      rw [ parse_poke_prefix input p1 t hp1 ht, hp1s]
    have e2 : cstr ((parse input).buf.set (t - 2) 0) pp = ch := by
      rw [parse_kick_params input pp t hpp ht (by omega), hpps]
    have e3 : cstr ((parse input).buf.set (t - 2) 0) m = s.nick :=
      parse_kick_middle input m t s.nick 32 hm ht hms
    have e4 : cstr ((parse input).buf.set (t - 2) 0) c = bytes "KICK" := by
      rw [parse_poke_command input c t hc ht, hcs]
    have hd : dispatch env s (parse input) = .ok (remove_channel s ch,
        { parse input with
          buf := (parse input).buf.set (t - 2) 0,
          mesg := snprintf_mesg (k ++ bytes " has kicked " ++ s.nick ++ bytes " from "
            ++ ch ++ bytes " (" ++ cstr ((parse input).buf.set (t - 2) 0) t ++ bytes ")") }) := by
      rw [dispatch_kick env s _ c hc hcs]
      unfold on_kick
      simp only [ht, if_neg (show ¬ t < 2 by omega), hp1, hpp, hm, str, Res.bind_eq, Res.pure_eq,
        Res.bind_ok, e1, e2, e3, if_true]
    obtain ⟨s2, hr, hch2, _, _⟩ := route_returns env (remove_channel s ch)
      { parse input with
          buf := (parse input).buf.set (t - 2) 0,
          mesg := snprintf_mesg (k ++ bytes " has kicked " ++ s.nick ++ bytes " from "
            ++ ch ++ bytes " (" ++ cstr ((parse input).buf.set (t - 2) 0) t ++ bytes ")") }
      ch k SERVER_NICK
      (by simp only [hpp, str, e2]) (by simp only [hp1, str, e1]) (parse_nickname input).1
    refine ⟨s2, handle_server_output_of env s _ _ input _ true hd hr
      (continue_flag_other _ _ (bytes "KICK") (by simp only [hc, str, e4]) (by decide)), ?_⟩
    rw [hch2]
    exact remove_channel_removes s ch hnd

theorem part_and_kick_remove_witness :
    (∃ s', handle_server_output env_ok st_chan (bytes ":self!u@h PART #Chan :bye")
          = .ok (s', true) ∧
        (to_irc_lower (bytes "#Chan") BUF_CHAN_LEN).2 ∉ s'.channels.map Channel.name) ∧
      ∃ s', handle_server_output env_ok st_chan (bytes ":op!u@h KICK #chan self :bye")
          = .ok (s', true) ∧
        (to_irc_lower (bytes "#chan") BUF_CHAN_LEN).2 ∉ s'.channels.map Channel.name :=
  ⟨(part_and_kick_remove env_ok st_chan (bytes ":self!u@h PART #Chan :bye") (bytes "self")
      (bytes "#Chan") (by decide) (by decide) (by decide)).1 (by decide) (by decide),
    (part_and_kick_remove env_ok st_chan (bytes ":op!u@h KICK #chan self :bye") (bytes "op")
      (bytes "#chan") (by decide) (by decide) (by decide)).2 (by decide) (by decide)
      (by decide)⟩

/-- C13: our own PART in the form `:self!u@h PART :#chan`, the channel sent
as trailing, leaves the conversation `#chan` in the set.  The parser yields an
empty `params` and the trailing `#chan`; the PART branch, which lacks the
`if (!*params) params = trailing;` of the JOIN branch, calls
`remove_channel` on the empty `params`: the server conversation is unlinked
and `#chan`, the channel we parted, stays. -/
theorem own_part_with_trailing_keeps_channel :
    st_chan.nick = bytes "self" ∧
      lookup (bytes "#chan") st_chan.channels = true ∧
      fields (parse (bytes ":self!u@h PART :#chan"))
        = [some (bytes "self"), some (bytes "u"), some (bytes "h"), some (bytes "PART"),
           some [], some [], some (bytes "#chan")] ∧
      handle_server_output env_ok st_chan (bytes ":self!u@h PART :#chan")
        = .ok (write_out env_ok { st_chan with channels := [{ fd := 4, name := bytes "#chan" }] }
            [] SERVER_NICK (bytes "self has parted  (#chan)"), true) ∧
      lookup (to_irc_lower (bytes "#chan") BUF_CHAN_LEN).2
        (write_out env_ok { st_chan with channels := [{ fd := 4, name := bytes "#chan" }] }
          [] SERVER_NICK (bytes "self has parted  (#chan)")).channels = true := by
  decide

/-- C14, as stated, fails: after `:srv 001 aaa... :Welcome` with a first
parameter of 40 bytes the stored nick is its first 31 bytes, all that
`snprintf(nick, sizeof(nick), ...)` keeps in `nick[32]`. -/
theorem welcome_with_long_nick_is_cut :
    field (parse (bytes ":srv 001 " ++ List.replicate 40 97 ++ bytes " :Welcome"))
        (parse (bytes ":srv 001 " ++ List.replicate 40 97 ++ bytes " :Welcome")).command
        = some (bytes "001") ∧
      field (parse (bytes ":srv 001 " ++ List.replicate 40 97 ++ bytes " :Welcome"))
        (parse (bytes ":srv 001 " ++ List.replicate 40 97 ++ bytes " :Welcome")).params
        = some (List.replicate 40 97) ∧
      handle_server_output env_ok st_self
        (bytes ":srv 001 " ++ List.replicate 40 97 ++ bytes " :Welcome")
        = .ok ({ st_self with nick := List.replicate 31 97 }, true) ∧
      List.replicate 31 97 ≠ List.replicate 40 97 := by
  decide

/-- C14, amended: for every state and every server line with command `001` and
first parameter `p`, `handle_server_output` returns true and changes nothing
but the stored nick, which becomes `p` when `p` already is the stored nick
and else the first 31 bytes of `p`; so the stored nick equals `p` whenever
`p` is shorter than the 32 bytes of `nick`. -/
theorem welcome_sets_nick (env : Env) (s : State) (input p : List Nat)
    (hcmd : field (parse input) (parse input).command = some (bytes "001"))
    (hp : field (parse input) (parse input).params = some p) :
    handle_server_output env s input
        = .ok ({ s with nick := if s.nick = p then p else p.take (BUF_NICK_LEN - 1) }, true) ∧
      (p.length < BUF_NICK_LEN →
        (if s.nick = p then p else p.take (BUF_NICK_LEN - 1)) = p) := by
  refine ⟨?_, fun hl => ?_⟩
  · obtain ⟨c, hc, hcs⟩ := field_some _ _ _ hcmd
    have hd : dispatch env s (parse input)
        = .ok ({ s with nick := if s.nick = p then p else p.take (BUF_NICK_LEN - 1) },
            parse input) := by
      rw [dispatch_001 env s _ c hc hcs]
      unfold on_001
      simp only [Res.bind_eq, Res.pure_eq, str_of_field _ _ _ hp, Res.bind_ok]
      by_cases hn : s.nick = p
      · rw [if_neg (by simpa using hn), if_pos hn, ← hn]
      · rw [if_pos hn, if_neg hn]
    exact handle_server_output_of env s _ _ input _ true hd
      (route_silent env _ _ (parse_nickname input).2)
      (continue_flag_other _ _ _ (str_of_field _ _ _ hcmd) (by decide))
  · by_cases hn : s.nick = p
    · rw [if_pos hn]
    · rw [if_neg hn]
      exact List.take_of_length_le (by simp only [BUF_NICK_LEN] at hl ⊢; omega)

theorem welcome_sets_nick_witness :
    handle_server_output env_ok st_self (bytes ":srv 001 bob :Welcome")
      = .ok ({ st_self with nick := if st_self.nick = bytes "bob" then bytes "bob"
                else (bytes "bob").take (BUF_NICK_LEN - 1) }, true) ∧
      (if st_self.nick = bytes "bob" then bytes "bob"
        else (bytes "bob").take (BUF_NICK_LEN - 1)) = bytes "bob" :=
  ⟨(welcome_sets_nick env_ok st_self (bytes ":srv 001 bob :Welcome") (bytes "bob") (by decide)
      (by decide)).1,
    (welcome_sets_nick env_ok st_self (bytes ":srv 001 bob :Welcome") (bytes "bob") (by decide)
      (by decide)).2 (by decide)⟩

/-- C15: the line `QUIT :bye` has the command `QUIT` and no prefix, so the
prefix nick is not our nick; `handle_server_output` does not return true on
it: the `return` passes the NULL `prefix` to `strcmp` (and the `QUIT` branch
passes it to `snprintf` before). -/
theorem quit_without_prefix_is_undefined :
    field (parse (bytes "QUIT :bye")) (parse (bytes "QUIT :bye")).command = some (bytes "QUIT") ∧
      field (parse (bytes "QUIT :bye")) (parse (bytes "QUIT :bye")).prefix_nick = none ∧
      handle_server_output env_ok st_self (bytes "QUIT :bye") = .ub ∧
      continue_flag st_self (parse (bytes "QUIT :bye")) = .ub := by
  decide

/-- The parse of `PING :t`. -/
theorem parse_ping_line (t : List Nat) :
    parse (bytes "PING :" ++ t)
      = { buf := 80 :: 73 :: 78 :: 71 :: 0 :: 0 :: t,
          prefix_nick := none, prefix_user := none, prefix_host := none, command := some 0,
          params := some 5, middle := some 5, trailing := some 6,
          nickname := some SERVER_NICK, mesg := [] } := by
  have e : bytes "PING :" ++ t = 80 :: 73 :: 78 :: 71 :: 32 :: 58 :: t := rfl
  rw [e]
  unfold parse
  have e0 : parse_init (80 :: 73 :: 78 :: 71 :: 32 :: 58 :: t)
      = { buf := 80 :: 73 :: 78 :: 71 :: 32 :: 58 :: t,
          prefix_nick := none, prefix_user := none, prefix_host := none, command := some 0,
          params := none, middle := none, trailing := none,
          nickname := some SERVER_NICK, mesg := [] } := by
    simp [parse_init, peek]
  rw [e0]
  have h1 : cut (80 :: 73 :: 78 :: 71 :: 32 :: 58 :: t)
      (strchr (80 :: 73 :: 78 :: 71 :: 32 :: 58 :: t) 0 32)
      = (80 :: 73 :: 78 :: 71 :: 0 :: 58 :: t, some 5) :=
    cut_found _ [] [80, 73, 78, 71] (58 :: t) 32 0 rfl rfl (by decide)
  have h2 : cut (80 :: 73 :: 78 :: 71 :: 0 :: 58 :: t)
      (strchr (80 :: 73 :: 78 :: 71 :: 0 :: 58 :: t) 5 58)
      = (80 :: 73 :: 78 :: 71 :: 0 :: 0 :: t, some 6) :=
    cut_found _ [80, 73, 78, 71, 0] [] t 58 5 rfl rfl (by simp)
  have h3 : peek (80 :: 73 :: 78 :: 71 :: 0 :: 58 :: t) 5 = 58 := rfl
  simp only [parse_command, parse_host, parse_user, parse_params, h1, parse_middle, h3,
    ne_eq, not_true_eq_false, if_false, parse_trailing, h2]

/-- A message that fits the buffer with its NUL is written whole. -/
theorem write_sock_mesg_buf (s : State) (m : List Nat) (h : m.length < BUF_MESG_LEN) :
    write_sock s (mesg_buf m) m.length = sent s m := by
  simp only [BUF_MESG_LEN] at h
  unfold write_sock mesg_buf sent
  have e1 : m.take (BUF_MESG_LEN - 1) = m :=
    List.take_of_length_le (by simp only [BUF_MESG_LEN]; omega)
  rw [e1, List.take_append_of_le_length (le_refl _), List.take_of_length_le (le_refl _)]

set_option maxRecDepth 100000 in
/-- C16, as stated, fails: for a token of 505 bytes the reply `PONG t` with its
CR LF has 512 bytes; `snprintf` keeps 511 of them in `mesg` and ends them by a
NUL, and the `write` of 512 bytes sends that NUL in the place of the LF. -/
theorem pong_of_512_bytes_ends_in_nul :
    handle_server_output env_ok st_self (bytes "PING :" ++ List.replicate 505 97)
        = .ok ({ st_self with sock := [{ data := bytes "PONG " ++ List.replicate 505 97 ++ [13, 0],
                                         len := 512 }] }, true) ∧
      handle_server_output env_ok st_self (bytes "PING :" ++ List.replicate 505 97)
        ≠ .ok (sent st_self (bytes "PONG " ++ List.replicate 505 97 ++ [13, 10]), true) := by
  decide

/-- C16, amended: for every NUL-free token `t` whose reply `PONG t` with its
CR LF is shorter than 512 bytes, so that `mesg` holds it whole, handling the
server line `PING :t` with `handle_server_output` writes exactly `PONG t\r\n`
to the socket, calls `write_out` zero times, leaves the conversation set and
the nick unchanged, and returns true. -/
theorem ping_is_answered (env : Env) (s : State) (t : List Nat) (ht : ∀ x ∈ t, x ≠ 0)
    (hfit : (bytes "PONG " ++ t ++ [13, 10]).length < BUF_MESG_LEN) :
    handle_server_output env s (bytes "PING :" ++ t)
      = .ok (sent s (bytes "PONG " ++ t ++ [13, 10]), true) := by
  have hp := parse_ping_line t
  have hcs : cstr (parse (bytes "PING :" ++ t)).buf 0 = bytes "PING" := by
    rw [hp]
    exact cstr_mid _ [] [80, 73, 78, 71] (0 :: t) 0 rfl rfl (by decide)
  have hts : cstr (parse (bytes "PING :" ++ t)).buf 6 = t := by
    rw [hp]
    exact cstr_last _ [80, 73, 78, 71, 0, 0] t 6 rfl rfl ht
  have hc : (parse (bytes "PING :" ++ t)).command = some 0 := by rw [hp]
  have htr : (parse (bytes "PING :" ++ t)).trailing = some 6 := by rw [hp]
  have hd : dispatch env s (parse (bytes "PING :" ++ t))
      = .ok (sent s (bytes "PONG " ++ t ++ [13, 10]),
          { parse (bytes "PING :" ++ t) with mesg := [] }) := by
    rw [dispatch_ping env s _ 0 hc hcs]
    unfold on_ping
    simp only [htr, str, hts, Res.bind_eq, Res.pure_eq, Res.bind_ok,
      write_sock_mesg_buf s _ hfit]
  exact handle_server_output_of env s _ _ _ _ true hd (route_silent env _ _ rfl)
    (continue_flag_other _ _ (bytes "PING") (by simp only [hc, str, hcs]) (by decide))

theorem ping_is_answered_witness :
    handle_server_output env_ok st_self (bytes "PING :" ++ bytes "irc.example.org x")
      = .ok (sent st_self (bytes "PONG " ++ bytes "irc.example.org x" ++ [13, 10]), true) :=
  ping_is_answered env_ok st_self (bytes "irc.example.org x") (by decide) (by decide)

/-! ## Theorems: raw lines, overlong messages -/

/-- What `handle_raw` formats is the line after its first byte, with CR LF. -/
theorem handle_raw_mesg (env : Env) (s : State) (buf : List Nat) (input : Nat) :
    (handle_raw env s buf input).2 = some (cstr buf (input + 1) ++ [13, 10]) := by
  unfold handle_raw
  simp only
  split
  · split <;> rfl
  · rfl

/-- `handle_raw` touches neither the list, the nick nor the socket. -/
theorem handle_raw_state (env : Env) (s : State) (buf : List Nat) (input : Nat) :
    (handle_raw env s buf input).1.channels = s.channels ∧
      (handle_raw env s buf input).1.nick = s.nick ∧
      (handle_raw env s buf input).1.sock = s.sock := by
  unfold handle_raw
  simp only
  split
  · split <;> exact ⟨rfl, rfl, rfl⟩
  · exact ⟨rfl, rfl, rfl⟩

/-- C21: for every conversation of the list and every NUL-free input line
`'/' rest` that has length 1, or holds at index 2 a byte that is neither a
space nor the end of the string, and such that `rest` with its CR LF fits in
512 bytes: `handle_channel_input` takes the raw path and writes exactly
`rest\r\n`, the line without its `/`, to the socket, whatever the byte at
index 1 is (a letter of the command table or not).  `handle_raw` itself leaves
the list, the nick and the earlier writes alone (it echoes a raw PRIVMSG or
NOTICE). -/
theorem raw_line (env : Env) (s : State) (c : Nat) (chan : Channel) (rest : List Nat)
    (hc : s.channels[c]? = some chan) (hrest : ∀ x ∈ rest, x ≠ 0)
    (hraw : rest = [] ∨ (peek (47 :: rest) 2 ≠ 32 ∧ peek (47 :: rest) 2 ≠ 0))
    (hfit : (rest ++ [13, 10]).length ≤ 512) :
    handle_channel_input env s c (some (47 :: rest))
        = .ok (sent (handle_raw env s (47 :: rest) 0).1 (rest ++ [13, 10])) ∧
      (handle_raw env s (47 :: rest) 0).1.channels = s.channels ∧
      (handle_raw env s (47 :: rest) 0).1.nick = s.nick ∧
      (handle_raw env s (47 :: rest) 0).1.sock = s.sock := by
  refine ⟨?_, handle_raw_state env s _ 0⟩
  have hm : (handle_raw env s (47 :: rest) 0).2 = some (rest ++ [13, 10]) := by
    rw [handle_raw_mesg]
    congr 2
    exact cstr_last _ [47] rest 1 rfl rfl hrest
  have hsend : send_mesg (handle_raw env s (47 :: rest) 0).1 (handle_raw env s (47 :: rest) 0).2
      = sent (handle_raw env s (47 :: rest) 0).1 (rest ++ [13, 10]) := by
    rw [hm]
    exact send_mesg_sent _ _ hfit
  unfold handle_channel_input
  rw [hc]
  simp only
  rw [if_neg (show ¬ peek (47 :: rest) 0 ≠ 47 from fun h => h rfl)]
  rcases hraw with h0 | ⟨h32, h00⟩
  · subst h0
    have e1 : char_to_unsigned (peek [47] 1) = 0 := rfl
    rw [e1, if_pos ⟨Or.inr rfl, by decide⟩, if_neg (by decide)]
    have e2 : cmd_handle 0 = none := rfl
    rw [e2]
    exact congrArg Res.ok hsend
  · rw [if_neg (fun h => h.1.elim h32 h00)]
    exact congrArg Res.ok hsend

theorem raw_line_witness :
    handle_channel_input env_ok st_chan 0 (some (47 :: bytes "away now"))
        = .ok (sent (handle_raw env_ok st_chan (47 :: bytes "away now") 0).1
            (bytes "away now" ++ [13, 10])) ∧
      handle_channel_input env_ok st_chan 0 (some (47 :: []))
        = .ok (sent (handle_raw env_ok st_chan (47 :: []) 0).1 ([] ++ [13, 10])) :=
  ⟨(raw_line env_ok st_chan 0 { fd := 4, name := bytes "#chan" } (bytes "away now") rfl
      (by decide) (Or.inr (by decide)) (by decide)).1,
    (raw_line env_ok st_chan 0 { fd := 4, name := bytes "#chan" } [] rfl
      (by decide) (Or.inl rfl) (by decide)).1⟩

/-- A message longer than the buffer: `write` is handed the first 510 bytes
with CR LF patched behind them, and the whole length of the message, which
passes the end of `mesg`. -/
theorem send_mesg_overlong (s : State) (m : List Nat) (h : BUF_MESG_LEN < m.length) :
    send_mesg s (some m)
      = { s with sock := s.sock ++ [{ data := m.take 510 ++ [13, 10], len := m.length }] } := by
  simp only [BUF_MESG_LEN] at h
  have h511 : (m.take 511).length = 511 := by rw [List.length_take]; omega
  have h510 : (m.take 510).length = 510 := by rw [List.length_take]; omega
  obtain ⟨x, hx⟩ : ∃ x, m.take 511 = m.take 510 ++ [x] := by
    have hlt : 510 < m.length := by omega
    exact ⟨m[510], by rw [List.take_succ, List.getElem?_eq_getElem hlt]; rfl⟩
  unfold send_mesg write_sock mesg_buf
  simp only [BUF_MESG_LEN]
  rw [if_pos (by omega), if_pos (by omega)]
  have e0 : (512 : Nat) - 1 = 511 := rfl
  have e00 : (512 : Nat) - 2 = 510 := rfl
  rw [e0, e00, h511]
  have e1 : List.replicate (512 - 511) 0 = [0] := rfl
  rw [e1, hx]
  have e2 : ((m.take 510 ++ [x] ++ [0]).set 510 13) = m.take 510 ++ [13, 0] := by
    have : m.take 510 ++ [x] ++ [0] = m.take 510 ++ x :: [0] := by simp
    rw [this]
    nth_rewrite 2 [← h510]
    rw [set_at_length]
  rw [e2]
  have e3 : (m.take 510 ++ [13, 0]).set 511 10 = m.take 510 ++ [13, 10] := by
    have : m.take 510 ++ [13, 0] = (m.take 510 ++ [13]) ++ 0 :: [] := by simp
    rw [this]
    have hl : (m.take 510 ++ [13]).length = 511 := by simp [h510]
    rw [← hl, set_at_length]
    simp
  rw [e3]
  have e4 : (m.take 510 ++ [13, 10]).take m.length = m.take 510 ++ [13, 10] :=
    List.take_of_length_le (by simp [h510]; omega)
  rw [e4]

set_option maxRecDepth 100000 in
/-- C22: a message that exceeds the buffer is not cut to 512 bytes.  The plain
line of 497 bytes `aaa...` in the conversation `#chan` formats to the 514
bytes of `PRIVMSG #chan :aaa...` with its CR LF; `handle_channel_input` patches
CR LF over the last two bytes of `mesg` and calls `write` with the length 514:
the 512 bytes of the buffer and two bytes past its end. -/
theorem overlong_write_passes_the_buffer :
    handle_channel_input env_ok st_chan 0 (some (List.replicate 497 97))
        = .ok { write_out env_ok st_chan (bytes "#chan") (bytes "self") (List.replicate 497 97) with
                sock := [{ data := bytes "PRIVMSG #chan :" ++ List.replicate 495 97 ++ [13, 10],
                           len := 514 }] } ∧
      (bytes "PRIVMSG #chan :" ++ List.replicate 495 97 ++ [13, 10]).length = BUF_MESG_LEN ∧
      BUF_MESG_LEN < 514 := by
  decide

/-! ## Theorems: rejected names -/

/-- `add_channel` on a name `to_irc_lower` rejects returns false and changes
nothing. -/
theorem add_channel_rejects (env : Env) (s : State) (channel : List Nat)
    (h : (to_irc_lower channel BUF_CHAN_LEN).1 = false) :
    add_channel env s channel = .ok (s, false) := by
  rcases add_channel_cases env s channel with ⟨_, hc⟩ | ⟨h1, _⟩ | hc | ⟨h1, _⟩
  · exact hc
  · rw [h] at h1; exact Bool.noConfusion h1
  · unfold add_channel at hc ⊢
    simp only [h, if_true] at hc ⊢
  · rw [h] at h1; exact Bool.noConfusion h1

/-- C23: `remove_channel` is not a no-op on a rejected name.  `to_irc_lower`
rejects `#a b` at the space, after it wrote `#a`; `add_channel` returns false
and changes nothing, but `remove_channel`, which does not look at the result
of `to_irc_lower`, unlinks the conversation `#a`.  A server gets there with our
own PART for `#a<BEL>b`. -/
theorem remove_channel_of_rejected_name :
    to_irc_lower (bytes "#a b") BUF_CHAN_LEN = (false, bytes "#a") ∧
      add_channel env_ok st_a (bytes "#a b") = .ok (st_a, false) ∧
      lookup (bytes "#a") st_a.channels = true ∧
      remove_channel st_a (bytes "#a b") = { st_a with channels := [{ fd := 3, name := [] }] } ∧
      lookup (bytes "#a") (remove_channel st_a (bytes "#a b")).channels = false ∧
      handle_server_output env_ok st_a (58 :: bytes "self!u@h PART #a" ++ 7 :: bytes "b")
        = .ok (write_out env_ok { st_a with channels := [{ fd := 3, name := [] }] }
            (bytes "#a" ++ 7 :: bytes "b") SERVER_NICK
            (bytes "self has parted #a" ++ 7 :: bytes "b ()"), true) := by
  decide

/-! ## Theorems: the output writer -/

/-- `write_out` is one `fopen` of the path it chose. -/
theorem write_out_logged (env : Env) (s : State) (channel nickname mesg : List Nat) :
    write_out env s channel nickname mesg = logged env s channel nickname mesg
      (if channel ≠ [] ∧ (to_irc_lower channel BUF_CHAN_LEN).1 = true
        then (to_irc_lower channel BUF_CHAN_LEN).2 ++ [47] ++ OUTFILE else OUTFILE) := rfl

/-- C24, as stated, fails: with no conversation `bob` in the list and an `fopen`
that fails, `write_out` for `bob` drops the line and leaves the list as it
was, without a conversation `bob`, although `add_channel` would have added
it. -/
theorem write_out_never_adds :
    lookup (bytes "bob") st_self.channels = false ∧
      write_out env_nofile st_self (bytes "bob") (bytes "alice") (bytes "hi")
        = { st_self with out := [{ channel := bytes "bob", nickname := bytes "alice",
                                   mesg := bytes "hi", outpath := bytes "bob/out",
                                   appended := none }] } ∧
      add_channel env_nofile st_self (bytes "bob")
        = .ok ({ st_self with channels := { fd := 5, name := bytes "bob" } :: st_self.channels },
            true) := by
  decide

/-- C24, amended: `write_out` does not materialise conversations.  For every
conversation name it makes one attempt to open one out path for append; it
appends the line when the attempt succeeds and drops it when the attempt
fails, and in both cases it leaves the conversation set as it was: it never
calls `add_channel` and never opens a second time. -/
theorem write_out_opens_once (env : Env) (s : State) (channel nickname mesg : List Nat) :
    ∃ outpath, write_out env s channel nickname mesg = logged env s channel nickname mesg outpath ∧
      (logged env s channel nickname mesg outpath).channels = s.channels ∧
      (env.fopen_ok outpath = false →
        logged env s channel nickname mesg outpath = { s with out := s.out ++
          [{ channel := channel, nickname := nickname, mesg := mesg, outpath := outpath,
             appended := none }] }) ∧
      (env.fopen_ok outpath = true →
        logged env s channel nickname mesg outpath = { s with out := s.out ++
          [{ channel := channel, nickname := nickname, mesg := mesg, outpath := outpath,
             appended := some (out_line env nickname mesg) }] }) := by
  refine ⟨_, write_out_logged env s channel nickname mesg, rfl, fun h => ?_, fun h => ?_⟩
  · simp only [logged, h, Bool.false_eq_true, if_false]
  · simp only [logged, h, if_true]

theorem write_out_opens_once_witness :
    ∃ outpath, write_out env_nofile st_self (bytes "bob") (bytes "alice") (bytes "hi")
        = logged env_nofile st_self (bytes "bob") (bytes "alice") (bytes "hi") outpath ∧
      (logged env_nofile st_self (bytes "bob") (bytes "alice") (bytes "hi") outpath).channels
        = st_self.channels ∧
      (env_nofile.fopen_ok outpath = false →
        logged env_nofile st_self (bytes "bob") (bytes "alice") (bytes "hi") outpath
          = { st_self with out := st_self.out ++
              [{ channel := bytes "bob", nickname := bytes "alice", mesg := bytes "hi",
                 outpath := outpath, appended := none }] }) ∧
      (env_nofile.fopen_ok outpath = true →
        logged env_nofile st_self (bytes "bob") (bytes "alice") (bytes "hi") outpath
          = { st_self with out := st_self.out ++
              [{ channel := bytes "bob", nickname := bytes "alice", mesg := bytes "hi",
                 outpath := outpath, appended := some (out_line env_nofile (bytes "alice")
                   (bytes "hi")) }] }) :=
  write_out_opens_once env_nofile st_self (bytes "bob") (bytes "alice") (bytes "hi")

/-- C28: the out path of `write_out` is `out`, the server log, when the
conversation name is empty; the canonical name followed by `/out` when the
name is not empty and `to_irc_lower` accepts it; and `out` again when the name
is not empty and `to_irc_lower` rejects it: the line then is not dropped but
appended to the server log (as ever, when `fopen` opens the file). -/
theorem write_out_path (env : Env) (s : State) (channel nickname mesg : List Nat) :
    (channel = [] →
      write_out env s channel nickname mesg = logged env s channel nickname mesg OUTFILE) ∧
    (channel ≠ [] → (to_irc_lower channel BUF_CHAN_LEN).1 = true →
      write_out env s channel nickname mesg = logged env s channel nickname mesg
        ((to_irc_lower channel BUF_CHAN_LEN).2 ++ [47] ++ OUTFILE)) ∧
    (channel ≠ [] → (to_irc_lower channel BUF_CHAN_LEN).1 = false →
      write_out env s channel nickname mesg = logged env s channel nickname mesg OUTFILE ∧
      (env.fopen_ok OUTFILE = true →
        write_out env s channel nickname mesg = { s with out := s.out ++
          [{ channel := channel, nickname := nickname, mesg := mesg, outpath := OUTFILE,
             appended := some (out_line env nickname mesg) }] })) := by
  refine ⟨fun h => ?_, fun h ha => ?_, fun h hr => ?_⟩
  · rw [write_out_logged, if_neg (fun hc => hc.1 h)]
  · rw [write_out_logged, if_pos ⟨h, ha⟩]
  · have e : write_out env s channel nickname mesg
        = logged env s channel nickname mesg OUTFILE := by
      rw [write_out_logged, if_neg (fun hc => by rw [hr] at hc; exact Bool.noConfusion hc.2)]
    refine ⟨e, fun hf => ?_⟩
    rw [e]
    simp only [logged, hf, if_true]

theorem write_out_path_witness :
    write_out env_ok st_self [] (bytes "-!-") (bytes "hi")
        = logged env_ok st_self [] (bytes "-!-") (bytes "hi") OUTFILE ∧
      write_out env_ok st_self (bytes "#Chan[x],#b") (bytes "bob") (bytes "hi")
        = logged env_ok st_self (bytes "#Chan[x],#b") (bytes "bob") (bytes "hi")
            ((to_irc_lower (bytes "#Chan[x],#b") BUF_CHAN_LEN).2 ++ [47] ++ OUTFILE) ∧
      write_out env_ok st_self (bytes "a b") (bytes "bob") (bytes "hi")
        = { st_self with out := st_self.out ++
            [{ channel := bytes "a b", nickname := bytes "bob", mesg := bytes "hi",
               outpath := OUTFILE, appended := some (out_line env_ok (bytes "bob")
                 (bytes "hi")) }] } :=
  ⟨(write_out_path env_ok st_self [] (bytes "-!-") (bytes "hi")).1 rfl,
    (write_out_path env_ok st_self (bytes "#Chan[x],#b") (bytes "bob") (bytes "hi")).2.1
      (by decide) (by decide),
    ((write_out_path env_ok st_self (bytes "a b") (bytes "bob") (bytes "hi")).2.2
      (by decide) (by decide)).2 rfl⟩

/-! ## Theorems: the event loop -/

/-- A line of the server sets `last_response` to the clock of its arrival. -/
theorem on_server_sets_last_response (env : Env) (now : Int) (s s1 : State) (input : List Nat)
    (t : Int) (running : Bool) (h : on_server env now s input = .ok (s1, t, running)) :
    t = now ∧ handle_server_output env s input = .ok (s1, running) := by
  unfold on_server at h
  simp only [Res.bind_eq, Res.pure_eq] at h
  obtain ⟨r, hr, h⟩ := Res.bind_eq_ok _ _ _ h
  simp only [Res.ok.injEq, Prod.mk.injEq] at h
  obtain ⟨h1, h2, h3⟩ := h
  exact ⟨h2.symm, by rw [hr, ← h1, ← h3]⟩

/-- With `last_response` still at its initial 0, the first timeout is fatal
whenever the clock is past 1970-01-01 00:03:20. -/
theorem quiet_first_timeout (host : List Nat) (now : Int) (s : State) (h : 200 ≤ now) :
    quiet host last_response_init 1 now s = .exit := by
  unfold quiet on_timeout
  rw [if_pos (by simp only [last_response_init, select_timeout, PING_TMOUT]; omega)]
  rfl

/-- After server traffic at the time `t`, and with a host whose `PING` fits
the buffer: the timeouts at `t + 100` and `t + 200` send `PING <host>`, the
one at `t + 300` is fatal. -/
theorem quiet_window (host : List Nat) (t : Int) (s : State)
    (hfit : (bytes "PING " ++ host ++ [13, 10]).length < BUF_MESG_LEN) :
    quiet host t 1 t s = .ok (sent s (bytes "PING " ++ host ++ [13, 10])) ∧
      quiet host t 2 t s = .ok (sent (sent s (bytes "PING " ++ host ++ [13, 10]))
        (bytes "PING " ++ host ++ [13, 10])) ∧
      quiet host t 3 t s = .exit := by
  have h1 : ∀ s0, on_timeout host (t + select_timeout) t s0
      = .ok (sent s0 (bytes "PING " ++ host ++ [13, 10])) := fun s0 => by
    unfold on_timeout
    rw [if_neg (by simp only [select_timeout, PING_TMOUT]; omega)]
    simp only [write_sock_mesg_buf s0 _ hfit]
  have h2 : ∀ s0, on_timeout host (t + select_timeout + select_timeout) t s0
      = .ok (sent s0 (bytes "PING " ++ host ++ [13, 10])) := fun s0 => by
    unfold on_timeout
    rw [if_neg (by simp only [select_timeout, PING_TMOUT]; omega)]
    simp only [write_sock_mesg_buf s0 _ hfit]
  have h3 : ∀ s0, on_timeout host (t + select_timeout + select_timeout + select_timeout) t s0
      = .exit := fun s0 => by
    unfold on_timeout
    rw [if_pos (by simp only [select_timeout, PING_TMOUT]; omega)]
  refine ⟨?_, ?_, ?_⟩
  · simp only [quiet, h1, Res.bind_ok]
  · simp only [quiet, h1, h2, Res.bind_ok]
  · simp only [quiet, h1, h2, h3, Res.bind_ok, Res.bind_exit]

/-- C25: the window that starts at connect does not last 300 s.
`last_response` starts at 0, so at the first timeout, 100 s after a connect at
the clock 1700000000 with no byte received, `time(NULL) - last_response` is
past `PING_TMOUT` and the loop ends with `ping timeout`, no PING sent.  After
server traffic at that clock, the timeouts at 100 s and 200 s send
`PING irc.example.org` and the one at 300 s is fatal. -/
theorem first_timeout_after_connect_is_fatal :
    quiet (bytes "irc.example.org") last_response_init 1 1700000000 st_self = .exit ∧
      quiet (bytes "irc.example.org") 1700000000 2 1700000000 st_self
        = .ok (sent (sent st_self (bytes "PING irc.example.org\r\n"))
            (bytes "PING irc.example.org\r\n")) ∧
      quiet (bytes "irc.example.org") 1700000000 3 1700000000 st_self = .exit := by
  decide

/-! ## Theorems: absent fields -/

/-- C26: the handler is not total.  On `:prefix` (no command), `001` and `JOIN`
(no parameter), `:op!u@h KICK #chan bob` (no trailing), `:srv 353 self` (no
middle) and `QUIT :bye` (no prefix), `handle_server_output` uses a field that
is NULL, or the byte two before a NULL `trailing`: the outcome is `ub`. -/
theorem handler_uses_null_fields :
    handle_server_output env_ok st_self (bytes ":prefix") = .ub ∧
      handle_server_output env_ok st_self (bytes "001") = .ub ∧
      handle_server_output env_ok st_self (bytes "JOIN") = .ub ∧
      handle_server_output env_ok st_self (bytes ":op!u@h KICK #chan bob") = .ub ∧
      handle_server_output env_ok st_self (bytes ":srv 353 self") = .ub ∧
      handle_server_output env_ok st_self (bytes "QUIT :bye") = .ub := by
  decide

/-! ## Theorems: a message to a user by `/j` -/

/-- `handle_join` on `/j first message`, `first` not a channel name: the
conversation is added and the message goes out as a `PRIVMSG`. -/
theorem handle_join_user_key (env : Env) (s : State) (first k : List Nat)
    (hch : is_channel first = false) (hfirst : ∀ x ∈ first, x ≠ 32 ∧ x ≠ 0)
    (hk : ∀ x ∈ k, x ≠ 0) :
    handle_join env s (47 :: 106 :: 32 :: (first ++ 32 :: k)) 2
      = (add_channel env s first).bind (fun r => .ok (handle_priv env r.1 first k)) := by
  have hcut := cut_found (47 :: 106 :: 32 :: (first ++ 32 :: k)) [47, 106, 32] first k 32 (2 + 1)
    rfl rfl hfirst
  have hf : cstr ([47, 106, 32] ++ (first ++ 0 :: k)) (2 + 1) = first :=
    cstr_mid _ [47, 106, 32] first k (2 + 1) rfl rfl (fun x hx => (hfirst x hx).2)
  have hm : cstr ([47, 106, 32] ++ (first ++ 0 :: k)) ([47, 106, 32].length + first.length + 1)
      = k :=
    cstr_last _ ([47, 106, 32] ++ first ++ [0]) k _ (by simp) (by simp; omega) hk
  unfold handle_join
  rw [if_neg (show ¬ peek (47 :: 106 :: 32 :: (first ++ 32 :: k)) 2 = 0 by
    show ¬ (32 : Nat) = 0
    decide)]
  simp only [hcut, hf, hm, hch, Bool.false_eq_true, if_false, Res.bind_eq, Res.pure_eq]

/-- `handle_join` on `/j first`, `first` not a channel name: the same with an
empty message; the test `!msgorkey` never holds. -/
theorem handle_join_user (env : Env) (s : State) (first : List Nat)
    (hch : is_channel first = false) (hfirst : ∀ x ∈ first, x ≠ 32 ∧ x ≠ 0) :
    handle_join env s (47 :: 106 :: 32 :: first) 2
      = (add_channel env s first).bind (fun r => .ok (handle_priv env r.1 first [])) := by
  have hnone := strchr_none_end (47 :: 106 :: 32 :: first) [47, 106, 32] first 32 (2 + 1)
    rfl rfl hfirst
  have hf : cstr (47 :: 106 :: 32 :: first) (2 + 1) = first :=
    cstr_last _ [47, 106, 32] first (2 + 1) rfl rfl (fun x hx => (hfirst x hx).2)
  unfold handle_join
  rw [if_neg (show ¬ peek (47 :: 106 :: 32 :: first) 2 = 0 by
    show ¬ (32 : Nat) = 0
    decide)]
  simp only [hnone, cut, hf, hch, Bool.false_eq_true, if_false, Res.bind_eq, Res.pure_eq]

/-- C27: `/j bob` without a message is not silent.  `bob` is not a channel
name and `msgorkey` points to an empty string, never NULL, so the test
`!msgorkey` fails: the conversation `bob` is added, `PRIVMSG bob :` is sent and
an empty text is echoed to the log of `bob`.  The line `/j bob `, with an empty
message, does the same. -/
theorem join_user_without_message_is_sent :
    is_channel (bytes "bob") = false ∧
      handle_channel_input env_ok st_chan 0 (some (bytes "/j bob"))
        = .ok (sent (write_out env_ok
            { st_chan with channels := { fd := 5, name := bytes "bob" } :: st_chan.channels }
            (bytes "bob") (bytes "self") []) (bytes "PRIVMSG bob :\r\n")) ∧
      handle_channel_input env_ok st_chan 0 (some (bytes "/j bob "))
        = handle_channel_input env_ok st_chan 0 (some (bytes "/j bob")) := by
  decide

end Iim
